import Mathlib

/-!
Resilient aggregation pipeline: circuit breaker, token bucket, request cache,
upstream client, exponential backoff and aggregation strategies.

A shallow embedding of `src/utils/circuitBreaker.js`, `src/utils/rateLimiter.js`
(class `TokenBucket`), `src/utils/requestCache.js`, `src/clients/baseApiClient.js`
(`fetch`), `src/utils/exponentialBackoff.js` and
`src/strategies/bestEffortStrategy.js`, with the properties of the specification
stated and proved over the embedded code.

Conventions of the embedding:
* every `Date.now()` read is an explicit `Int` argument (milliseconds);
* counters are `Nat`; a JavaScript number that need not be an integer is the
  rational value of a double, and every arithmetic operation on such numbers
  rounds its exact result to the nearest double (`roundDouble`);
* a property read `obj[name]` on a plain object also finds the members the
  object inherits from `Object.prototype`;
* a method that mutates `this` returns the new object (with its result, when it
  has one);
* logging calls are dropped, they change no state;
* an `async` method is cut at its `await`s into parts that run to completion;
  what the awaited call produced is an argument of the part that follows.
-/

/-! ## `src/utils/circuitBreaker.js` -/

/-- The three values of the `state` field: `'CLOSED'`, `'OPEN'`, `'HALF_OPEN'`. -/
inductive CircuitState where
  | CLOSED
  | OPEN
  | HALF_OPEN
  deriving DecidableEq, Repr

/-- The fields of a `CircuitBreaker` object. `lastFailureTime` is `none` for the
JavaScript `null` it is constructed with. -/
structure CircuitBreaker where
  name : String
  state : CircuitState
  failures : Nat
  threshold : Nat
  timeout : Int
  lastFailureTime : Option Int
  successThreshold : Nat
  successCount : Nat
  deriving DecidableEq, Repr

/-- The options object of the constructor; an absent property is `none`. -/
structure CircuitBreakerOptions where
  threshold : Option Nat := none
  timeout : Option Int := none
  successThreshold : Option Nat := none

/-- The JavaScript `x || d` on a numeric option: `undefined` and `0` are falsy. -/
def orDefaultNat (x : Option Nat) (d : Nat) : Nat :=
  match x with
  | some v => if v = 0 then d else v
  | none => d

/-- The JavaScript `x || d` on a numeric option: `undefined` and `0` are falsy. -/
def orDefaultInt (x : Option Int) (d : Int) : Int :=
  match x with
  | some v => if v = 0 then d else v
  | none => d

/-- The numeric value of `lastFailureTime` in `now - this.lastFailureTime`:
`null` coerces to `0`. -/
def timeOrZero (t : Option Int) : Int :=
  match t with
  | some v => v
  | none => 0

namespace CircuitBreaker

/-- The `constructor(name, options = {})`. -/
def new (name : String) (options : CircuitBreakerOptions := {}) : CircuitBreaker :=
  { name := name
    state := .CLOSED
    failures := 0
    threshold := orDefaultNat options.threshold 5
    timeout := orDefaultInt options.timeout 60000
    lastFailureTime := none
    successThreshold := orDefaultNat options.successThreshold 2
    successCount := 0 }

/-- The method `canExecute()`; `now` is the value `Date.now()` returns when the
state is `OPEN`. -/
def canExecute (cb : CircuitBreaker) (now : Int) : Bool × CircuitBreaker :=
  if cb.state = .CLOSED then
    (true, cb)
  else if cb.state = .OPEN then
    let timeSinceLastFailure := now - timeOrZero cb.lastFailureTime
    if timeSinceLastFailure ≥ cb.timeout then
      (true, { cb with state := .HALF_OPEN, successCount := 0 })
    else
      (false, cb)
  else
    (true, cb)

/-- The method `recordSuccess()`. -/
def recordSuccess (cb : CircuitBreaker) : CircuitBreaker :=
  if cb.state = .HALF_OPEN then
    let cb1 := { cb with successCount := cb.successCount + 1 }
    if cb1.successCount ≥ cb1.successThreshold then
      { cb1 with state := .CLOSED, failures := 0, successCount := 0 }
    else
      cb1
  else if cb.state = .CLOSED then
    { cb with failures := 0 }
  else
    cb

/-- The method `recordFailure()`; `now` is the value of `Date.now()`. -/
def recordFailure (cb : CircuitBreaker) (now : Int) : CircuitBreaker :=
  let cb1 := { cb with failures := cb.failures + 1, lastFailureTime := some now }
  if cb1.failures ≥ cb1.threshold ∧ cb1.state = .CLOSED then
    { cb1 with state := .OPEN }
  else if cb1.state = .HALF_OPEN then
    { cb1 with state := .OPEN, successCount := 0 }
  else
    cb1

end CircuitBreaker

/-- One completed attempt reported to the breaker: a `recordSuccess()` call, or
a `recordFailure()` call with the clock value it reads. -/
inductive BreakerEvent where
  | success
  | failure (now : Int)
  deriving DecidableEq, Repr

/-- The breaker after one reported attempt. -/
def BreakerEvent.apply (cb : CircuitBreaker) : BreakerEvent → CircuitBreaker
  | .success => cb.recordSuccess
  | .failure now => cb.recordFailure now

/-- The breaker after a sequence of reported attempts, oldest first. -/
def CircuitBreaker.afterEvents (cb : CircuitBreaker) (evs : List BreakerEvent) :
    CircuitBreaker :=
  evs.foldl BreakerEvent.apply cb

/-- Whether an event is a failure. -/
def BreakerEvent.isFailure : BreakerEvent → Bool
  | .success => false
  | .failure _ => true

/-- The number of failures at the end of the sequence: those since the last
success, or since the start when there was none. -/
def consecutiveFailures (evs : List BreakerEvent) : Nat :=
  (evs.reverse.takeWhile BreakerEvent.isFailure).length

/-- The operations of the breaker, each with the clock value it reads. -/
inductive BreakerOp where
  | canExecute (now : Int)
  | recordSuccess
  | recordFailure (now : Int)
  deriving DecidableEq, Repr

/-- The breaker after one operation. -/
def BreakerOp.apply (cb : CircuitBreaker) : BreakerOp → CircuitBreaker
  | .canExecute now => (cb.canExecute now).2
  | .recordSuccess => cb.recordSuccess
  | .recordFailure now => cb.recordFailure now

/-- The state changes of the transition table: no change, `CLOSED → OPEN`,
`OPEN → HALF_OPEN`, `HALF_OPEN → CLOSED`, `HALF_OPEN → OPEN`. -/
def tableTransition (s t : CircuitState) : Prop :=
  s = t ∨ (s = .CLOSED ∧ t = .OPEN) ∨ (s = .OPEN ∧ t = .HALF_OPEN) ∨
    (s = .HALF_OPEN ∧ t = .CLOSED) ∨ (s = .HALF_OPEN ∧ t = .OPEN)

/-- A breaker probing after a cool-down: HalfOpen, with the given success
threshold and success count. -/
def CircuitBreaker.probing (successThreshold successCount : Nat) : CircuitBreaker :=
  { name := "users"
    state := .HALF_OPEN
    failures := 7
    threshold := 5
    timeout := 60000
    lastFailureTime := some 100
    successThreshold := successThreshold
    successCount := successCount }

/-- The breaker states reachable from construction by the three operations. -/
inductive CircuitBreaker.Reachable : CircuitBreaker → Prop where
  | init (name : String) (options : CircuitBreakerOptions) :
      CircuitBreaker.Reachable (CircuitBreaker.new name options)
  | step {cb : CircuitBreaker} (op : BreakerOp) :
      CircuitBreaker.Reachable cb → CircuitBreaker.Reachable (op.apply cb)

/-! ## Double-precision arithmetic

JavaScript numbers are IEEE 754 binary64 values: every `+`, `-`, `*` and `/`
returns the double nearest to the exact result, ties going to the even
mantissa. The values of the program stay far inside the exponent range, which
is not modelled: a result beyond it is rounded as if the exponent were
unbounded. -/

/-- The value `q * 2 ^ k` for an integer exponent `k`. -/
def scaleByPow2 (q : ℚ) (k : Int) : ℚ :=
  if 0 ≤ k then q * ((2 ^ k.toNat : Nat) : ℚ) else q / ((2 ^ (-k).toNat : Nat) : ℚ)

/-- The number of halvings that take `n` below 2, at most `fuel` of them. -/
def halvings : Nat → Nat → Nat
  | 0, _ => 0
  | fuel + 1, n => if n < 2 then 0 else halvings fuel (n / 2) + 1

/-- The position of the leading bit of `n`: `2 ^ bitLog n <= n < 2 ^ (bitLog n + 1)`
for `n >= 1`. -/
def bitLog (n : Nat) : Nat := halvings n n

/-- The exponent `e` with `2 ^ e <= q < 2 ^ (e + 1)`, for `q > 0`. -/
def binade (q : ℚ) : Int :=
  let e0 : Int := (bitLog q.num.natAbs : Int) - (bitLog q.den : Int)
  if scaleByPow2 1 e0 ≤ q then e0 else e0 - 1

/-- Rounding to the nearest integer, ties to the even one. -/
def roundHalfEven (m : ℚ) : Int :=
  if m - ⌊m⌋ < 1 / 2 then ⌊m⌋
  else if m - ⌊m⌋ > 1 / 2 then ⌊m⌋ + 1
  else if ⌊m⌋ % 2 = 0 then ⌊m⌋ else ⌊m⌋ + 1

/-- The double nearest to a positive real: the real is scaled to a mantissa in
`[2 ^ 52, 2 ^ 53)`, the mantissa is rounded to an integer and scaled back. -/
def roundDoublePos (q : ℚ) : ℚ :=
  scaleByPow2 (roundHalfEven (scaleByPow2 q (52 - binade q))) (binade q - 52)

/-- The binary64 value nearest to the real `q`, ties to even: the result of a
JavaScript arithmetic operation whose exact result is `q`. -/
def roundDouble (q : ℚ) : ℚ :=
  if q = 0 then 0 else if 0 < q then roundDoublePos q else -roundDoublePos (-q)

/-- The function `Math.pow(x, n)` for a natural exponent: exact when the power
is a double, the nearest double otherwise. -/
def mathPow (x : ℚ) (n : Nat) : ℚ := roundDouble (x ^ n)

/-! ## `src/utils/rateLimiter.js`, class `TokenBucket` -/

/-- The fields of a `TokenBucket` object (the interval handle apart). Token
amounts and rates are the real values of doubles, `lastRefill` is a
`Date.now()` value. -/
structure TokenBucket where
  capacity : ℚ
  tokens : ℚ
  refillRate : ℚ
  lastRefill : Int
  deriving DecidableEq, Repr

namespace TokenBucket

/-- The `constructor(capacity, refillRate)`, run at clock value `now`. The
interval it installs calls `refill()` every 100 ms; those calls are explicit
`refill` operations in a run. -/
def new (capacity refillRate : ℚ) (now : Int) : TokenBucket :=
  { capacity := capacity, tokens := capacity, refillRate := refillRate, lastRefill := now }

/-- The method `refill()`, run at clock value `now`: a division, a product and
a sum in double arithmetic, then `Math.min`. -/
def refill (b : TokenBucket) (now : Int) : TokenBucket :=
  let timePassed : ℚ := roundDouble (((now - b.lastRefill : Int) : ℚ) / 1000)
  let tokensToAdd : ℚ := roundDouble (timePassed * b.refillRate)
  { b with tokens := min b.capacity (roundDouble (b.tokens + tokensToAdd)), lastRefill := now }

/-- The part of `consume(tokensNeeded)` that runs before
`await this.wait(waitTime)`, at clock value `now`. `none`: the tokens sufficed
and the call is over; `some tokensShortage`: the call is suspended with that
shortage in hand. -/
def consumeStart (b : TokenBucket) (tokensNeeded : ℚ) (now : Int) : Option ℚ × TokenBucket :=
  let b1 := b.refill now
  if b1.tokens ≥ tokensNeeded then
    (none, { b1 with tokens := roundDouble (b1.tokens - tokensNeeded) })
  else
    (some (roundDouble (tokensNeeded - b1.tokens)), b1)

/-- The part of `consume` that runs after the wait, at clock value `wake`, on
the bucket as it is by then. -/
def consumeResume (b : TokenBucket) (tokensShortage : ℚ) (wake : Int) : TokenBucket :=
  let b1 := b.refill wake
  { b1 with tokens := roundDouble (b1.tokens - tokensShortage) }

/-- The `waitTime` (milliseconds) that `consume(tokensNeeded)`, started at clock
value `now`, computes on its waiting path. -/
def waitTime (b : TokenBucket) (tokensNeeded : ℚ) (now : Int) : ℚ :=
  let b1 := b.refill now
  let tokensShortage : ℚ := roundDouble (tokensNeeded - b1.tokens)
  roundDouble (roundDouble (tokensShortage / b1.refillRate) * 1000)

/-- The method `consume(tokensNeeded)` (it always resolves to `true`) when no
other `consume` call runs on the bucket while it waits. It starts at clock
value `now`; on the waiting path the interval timer refills at the clock values
`ticks` and the call resumes at clock value `wake`. `ticks` and `wake` are not
read on the immediate path. -/
def consume (b : TokenBucket) (tokensNeeded : ℚ) (now : Int) (ticks : List Int)
    (wake : Int) : TokenBucket :=
  match b.consumeStart tokensNeeded now with
  | (none, b1) => b1
  | (some tokensShortage, b1) => (ticks.foldl refill b1).consumeResume tokensShortage wake

/-- Whether `consume(tokensNeeded)` started at `now` takes the immediate path. -/
def immediate (b : TokenBucket) (tokensNeeded : ℚ) (now : Int) : Bool :=
  decide ((b.refill now).tokens ≥ tokensNeeded)

/-- Whether none of the three operations of `refill()` at `now` is rounded. -/
def refillIsExact (b : TokenBucket) (now : Int) : Prop :=
  roundDouble (((now - b.lastRefill : Int) : ℚ) / 1000) = ((now - b.lastRefill : Int) : ℚ) / 1000 ∧
    roundDouble (((now - b.lastRefill : Int) : ℚ) / 1000 * b.refillRate) =
      ((now - b.lastRefill : Int) : ℚ) / 1000 * b.refillRate ∧
    roundDouble (b.tokens + ((now - b.lastRefill : Int) : ℚ) / 1000 * b.refillRate) =
      b.tokens + ((now - b.lastRefill : Int) : ℚ) / 1000 * b.refillRate

end TokenBucket

/-- A call on a bucket with the clock values it sees. -/
inductive BucketOp where
  | refill (now : Int)
  | consume (tokensNeeded : ℚ) (now : Int) (ticks : List Int) (wake : Int)
  deriving DecidableEq, Repr

namespace BucketOp

/-- The bucket after one call. -/
def apply (b : TokenBucket) : BucketOp → TokenBucket
  | .refill now => b.refill now
  | .consume n now ticks wake => b.consume n now ticks wake

end BucketOp

namespace TokenBucket

/-- The bucket after a sequence of calls that do not overlap, oldest first. -/
def run (b : TokenBucket) (ops : List BucketOp) : TokenBucket :=
  ops.foldl BucketOp.apply b

/-- The bucket of the `catfact` class (5 requests per second, capacity 10)
created at clock value 0, after ten immediate `consume(1)` calls. -/
def drained : TokenBucket :=
  (TokenBucket.new 10 5 0).run (List.replicate 10 (BucketOp.consume 1 0 [] 0))

/-- The bucket `getBucket` creates for a name with the `default` limits (10
requests per second, capacity 20), at clock value 0. -/
def defaultBucket : TokenBucket :=
  TokenBucket.new 20 10 0

/-- The bucket after `consume(1)` calls started at the given clock values, each
run up to its end or to its suspension. -/
def startAll (b : TokenBucket) (times : List Int) : TokenBucket :=
  times.foldl (fun acc now => (acc.consumeStart 1 now).2) b

/-- Whether each of those `consume(1)` calls takes the immediate path. -/
def allImmediate : TokenBucket → List Int → Bool
  | _, [] => true
  | b, now :: rest => b.immediate 1 now && allImmediate (b.consumeStart 1 now).2 rest

/-- The clock values of twenty `consume(1)` calls: five each at 0, 10, 20 and
30 ms. -/
def burstTimes : List Int :=
  List.replicate 5 0 ++ List.replicate 5 10 ++ List.replicate 5 20 ++ List.replicate 5 30

/-- The default bucket after those twenty calls. -/
def afterBurst : TokenBucket :=
  defaultBucket.startAll burstTimes

/-- That bucket after two more `consume(1)` calls started at 40 ms, both
suspended. -/
def burstTwoWaiting : TokenBucket :=
  ((afterBurst.consumeStart 1 40).2.consumeStart 1 40).2

/-- That bucket after the interval refill at 100 ms, when the timers of the two
suspended calls fire. -/
def burstAtWake : TokenBucket :=
  burstTwoWaiting.refill 100

/-- The shortage each of the two suspended calls holds: the double
`0.6000000000000011`. -/
def burstShortage : ℚ :=
  5404319552844605 / 9007199254740992

end TokenBucket

/-! ## `src/utils/requestCache.js` -/

/-- Cache keys: the hex digest strings `generateKey` produces. -/
abbrev CacheKey := String

/-- The entry object `set` builds. -/
structure CacheEntry (α : Type) where
  key : CacheKey
  apiName : String
  data : α
  createdAt : Int
  expiresAt : Int
  hits : Nat
  deriving DecidableEq, Repr

/-- The JavaScript `Map.prototype.get` on a map kept as its entries in
insertion order. -/
def mapGet {β : Type} (m : List (CacheKey × β)) (k : CacheKey) : Option β :=
  m.lookup k

/-- The JavaScript `Map.prototype.delete`. -/
def mapDelete {β : Type} (m : List (CacheKey × β)) (k : CacheKey) : List (CacheKey × β) :=
  m.filter (fun p => p.1 ≠ k)

/-- The JavaScript `Map.prototype.set`: a present key keeps its place and gets
the new value, a new key goes last. -/
def mapSet {β : Type} (m : List (CacheKey × β)) (k : CacheKey) (v : β) :
    List (CacheKey × β) :=
  if k ∈ m.map Prod.fst then m.map (fun p => if p.1 = k then (k, v) else p)
  else m ++ [(k, v)]

/-- The fields of a `RequestCache` object (the interval handle apart): `cache`
is the `Map`, `accessOrder` the recency array, least recent first. -/
structure RequestCache (α : Type) where
  maxSize : Int
  defaultTTL : Int
  cache : List (CacheKey × CacheEntry α)
  accessOrder : List CacheKey
  deriving DecidableEq, Repr

/-- The options object of the constructor; an absent property is `none`. -/
structure RequestCacheOptions where
  maxSize : Option Int := none
  defaultTTL : Option Int := none

namespace RequestCache

variable {α : Type}

/-- The `constructor(options = {})`. -/
def new (options : RequestCacheOptions := {}) : RequestCache α :=
  { maxSize := orDefaultInt options.maxSize 1000
    defaultTTL := orDefaultInt options.defaultTTL 60000
    cache := []
    accessOrder := [] }

/-- The keys of the entry map. -/
def keys (c : RequestCache α) : List CacheKey :=
  c.cache.map Prod.fst

/-- The method `removeFromAccessOrder(key)`: `indexOf` then `splice(index, 1)`
removes the first occurrence. -/
def removeFromAccessOrder (c : RequestCache α) (key : CacheKey) : RequestCache α :=
  { c with accessOrder := c.accessOrder.erase key }

/-- The method `updateAccessOrder(key)`. -/
def updateAccessOrder (c : RequestCache α) (key : CacheKey) : RequestCache α :=
  let c1 := c.removeFromAccessOrder key
  { c1 with accessOrder := c1.accessOrder ++ [key] }

/-- The method `evictLRU()`. -/
def evictLRU (c : RequestCache α) : RequestCache α :=
  match c.accessOrder with
  | [] => c
  | lruKey :: rest => { c with accessOrder := rest, cache := mapDelete c.cache lruKey }

/-- The two statements `this.cache.delete(key); this.removeFromAccessOrder(key)`. -/
def deleteKey (c : RequestCache α) (key : CacheKey) : RequestCache α :=
  ({ c with cache := mapDelete c.cache key } : RequestCache α).removeFromAccessOrder key

/-- The method `get(key)` at clock value `now`; `none` is the `null` of a miss. -/
def get (c : RequestCache α) (key : CacheKey) (now : Int) : Option α × RequestCache α :=
  match mapGet c.cache key with
  | none => (none, c)
  | some entry =>
    if now > entry.expiresAt then
      (none, c.deleteKey key)
    else
      (some entry.data, c.updateAccessOrder key)

/-- The method `set(key, data, apiName, ttl)`; `ttl = none` takes the default
`this.defaultTTL`. `nowCreated` and `nowExpires` are the two `Date.now()` reads
of `createdAt` and `expiresAt`. -/
def set (c : RequestCache α) (key : CacheKey) (data : α) (apiName : String)
    (ttl : Option Int) (nowCreated nowExpires : Int) : RequestCache α :=
  let ttl := ttl.getD c.defaultTTL
  let c1 := if (c.cache.length : Int) ≥ c.maxSize then c.evictLRU else c
  let entry : CacheEntry α :=
    { key := key, apiName := apiName, data := data, createdAt := nowCreated,
      expiresAt := nowExpires + ttl, hits := 0 }
  ({ c1 with cache := mapSet c1.cache key entry } : RequestCache α).updateAccessOrder key

/-- The method `cleanup()` at clock value `now`: the loop over the entries. -/
def cleanup (c : RequestCache α) (now : Int) : RequestCache α :=
  c.cache.foldl (fun acc p => if now > p.2.expiresAt then acc.deleteKey p.1 else acc) c

/-- The method `invalidate(apiName)`: the cache after the loop (the method
returns the number of removed entries). -/
def invalidate (c : RequestCache α) (apiName : String) : RequestCache α :=
  c.cache.foldl (fun acc p => if p.2.apiName = apiName then acc.deleteKey p.1 else acc) c

/-- The method `clear()`. -/
def clear (c : RequestCache α) : RequestCache α :=
  { c with cache := [], accessOrder := [] }

end RequestCache

/-- A call on the cache with its arguments and the clock values it reads. -/
inductive CacheOp (α : Type) where
  | set (key : CacheKey) (data : α) (apiName : String) (ttl : Option Int)
      (nowCreated nowExpires : Int)
  | get (key : CacheKey) (now : Int)
  | invalidate (apiName : String)
  | cleanup (now : Int)
  | clear
  | evictLRU

namespace CacheOp

variable {α : Type}

/-- The cache after one call. -/
def apply (c : RequestCache α) : CacheOp α → RequestCache α
  | .set key data apiName ttl t1 t2 => c.set key data apiName ttl t1 t2
  | .get key now => (c.get key now).2
  | .invalidate apiName => c.invalidate apiName
  | .cleanup now => c.cleanup now
  | .clear => c.clear
  | .evictLRU => c.evictLRU

/-- The key a call run on cache `c` sets or successfully reads, if any. -/
def touches (c : RequestCache α) : CacheOp α → Option CacheKey
  | .set key _ _ _ _ _ => some key
  | .get key now => if (c.get key now).1.isSome then some key else none
  | _ => none

end CacheOp

namespace RequestCache

variable {α : Type}

/-- The cache after a sequence of calls, oldest first. -/
def run (c : RequestCache α) (ops : List (CacheOp α)) : RequestCache α :=
  ops.foldl CacheOp.apply c

/-- The position of the last set or successful get of `k`, on a history given
most recent call first: the calls are numbered from 1 in the order they were
made, and the result is 0 when no call set or read `k`. -/
def lastTouchRev (c0 : RequestCache α) : List (CacheOp α) → CacheKey → Nat
  | [], _ => 0
  | op :: earlier, k =>
    if op.touches (c0.run earlier.reverse) = some k then earlier.length + 1
    else lastTouchRev c0 earlier k

/-- The position (from 1) in `ops` of the most recent call that set `k` or read
it successfully, when `ops` is run from cache `c0`; 0 when there is none. -/
def lastTouch (c0 : RequestCache α) (ops : List (CacheOp α)) (k : CacheKey) : Nat :=
  lastTouchRev c0 ops.reverse k

/-- A history on a cache of size 2: `set a`, `set b`, then a `get a` that hits. -/
def sampleHistory : List (CacheOp String) :=
  [.set "a" "1" "users" none 0 0, .set "b" "2" "users" none 1 1, .get "a" 2]

/-- The cache of size 2 after `sampleHistory`: it is full. -/
def sampleFull : RequestCache String :=
  (RequestCache.new { maxSize := some 2 }).run sampleHistory

/-- The recency list and the entry map hold the same keys, each once. -/
def Synced (c : RequestCache α) : Prop :=
  c.accessOrder.Nodup ∧ c.keys.Nodup ∧ ∀ k, k ∈ c.accessOrder ↔ k ∈ c.keys

/-- The states reachable from construction by the calls of `CacheOp`. -/
def Reachable (c : RequestCache α) : Prop :=
  ∃ (options : RequestCacheOptions) (ops : List (CacheOp α)),
    c = (RequestCache.new options).run ops

end RequestCache

/-! ## JavaScript errors and payload values -/

/-- A JavaScript `Error` object as the code reads it: its `code` property (absent
on a plain `new Error(...)`) and its `message`. -/
structure JsError where
  code : Option String := none
  message : String
  deriving DecidableEq, Repr

/-- The values a payload can be: what `JSON.parse` returns, and `undefined`. -/
inductive JsVal where
  | undefined
  | null
  | bool (b : Bool)
  | num (n : ℚ)
  | str (s : String)
  | arr (items : List JsVal)
  | obj (fields : List (String × JsVal))

namespace JsVal

/-- JavaScript truthiness, as tested by `if (cached)`. -/
def truthy : JsVal → Bool
  | .undefined => false
  | .null => false
  | .bool b => b
  | .num n => decide (n ≠ 0)
  | .str s => decide (s ≠ "")
  | .arr _ => true
  | .obj _ => true

/-- The property read `v.name` for a name that no built-in prototype defines
(`data`, `timestamp`): a `TypeError` on `undefined` and `null`, the own property
of an object, `undefined` otherwise. -/
def getProp (v : JsVal) (name : String) : Except JsError JsVal :=
  match v with
  | .undefined =>
    .error { message := "Cannot read properties of undefined (reading \x27" ++ name ++ "\x27)" }
  | .null =>
    .error { message := "Cannot read properties of null (reading \x27" ++ name ++ "\x27)" }
  | .obj fields =>
    match fields.lookup name with
    | some w => .ok w
    | none => .ok .undefined
  | _ => .ok .undefined

end JsVal

/-! ## `src/utils/requestCache.js`: `executeWithCache` and `coalesce` -/

/-- The object `executeWithCache` resolves to. `stale` is `false` when the
property is absent, `cacheAge` is `none` when it is absent. -/
structure CacheResponse (α : Type) where
  data : α
  fromCache : Bool
  stale : Bool := false
  cacheAge : Option Int := none
  deriving DecidableEq, Repr

/-- The `Date.now()` reads of one `executeWithCache` call, in program order:
in `get`, for `cacheAge` on a hit, the two of `set`, for `cacheAge` of a stale
answer. -/
structure CacheClock where
  get : Int
  age : Int
  created : Int
  expires : Int
  staleAge : Int
  deriving DecidableEq, Repr

namespace RequestCache

variable {α : Type}

/-- The part of `executeWithCache` that runs before `await requestFn()`, for the
key `generateKey` returned. `.ok (some r)`: a hit, the call returns `r`;
`.ok none`: a miss, `requestFn` is invoked next; `.error`: the `TypeError` of
`entry.hits++` on a missing entry. `truthy` is the truthiness of payloads. -/
def executeWithCacheStart (truthy : α → Bool) (c : RequestCache α) (key : CacheKey)
    (nowGet nowAge : Int) : Except JsError (Option (CacheResponse α)) × RequestCache α :=
  match c.get key nowGet with
  | (some cached, c1) =>
    if truthy cached then
      match mapGet c1.cache key with
      | some entry =>
        (.ok (some { data := cached, fromCache := true,
                     cacheAge := some (nowAge - entry.createdAt) }),
          { c1 with cache := mapSet c1.cache key { entry with hits := entry.hits + 1 } })
      | none =>
        (.error { message := "Cannot read properties of undefined (reading \x27hits\x27)" }, c1)
    else
      (.ok none, c1)
  | (none, c1) => (.ok none, c1)

/-- The part of `executeWithCache` that runs when `requestFn()` has settled with
`fetched`: store and answer on success; on failure answer from the entry the map
still holds for the key, or rethrow. -/
def executeWithCacheSettle (c : RequestCache α) (key : CacheKey) (apiName : String)
    (ttl : Option Int) (fetched : Except JsError α) (nowCreated nowExpires nowAge : Int) :
    Except JsError (CacheResponse α) × RequestCache α :=
  match fetched with
  | .ok data =>
    (.ok { data := data, fromCache := false },
      c.set key data apiName ttl nowCreated nowExpires)
  | .error error =>
    match mapGet c.cache key with
    | some entry =>
      (.ok { data := entry.data, fromCache := true, stale := true,
             cacheAge := some (nowAge - entry.createdAt) }, c)
    | none => (.error error, c)

/-- The method `executeWithCache(apiName, requestFn, params, ttl)` when nothing
else touches the cache while it awaits. `generateKey` is the method of that name
(an MD5 digest of the JSON text of its arguments), `params` the JSON text of the
parameters, `requestFn` the outcome of the fetcher if it is invoked, `ttl = none`
the default `this.defaultTTL`. -/
def executeWithCache (truthy : α → Bool) (generateKey : String → String → CacheKey)
    (c : RequestCache α) (apiName : String) (requestFn : Except JsError α)
    (params : String) (ttl : Option Int) (clock : CacheClock) :
    Except JsError (CacheResponse α) × RequestCache α :=
  let key := generateKey apiName params
  match executeWithCacheStart truthy c key clock.get clock.age with
  | (.error e, c1) => (.error e, c1)
  | (.ok (some r), c1) => (.ok r, c1)
  | (.ok none, c1) =>
    executeWithCacheSettle c1 key apiName ttl requestFn clock.created clock.expires
      clock.staleAge

/-- The method `coalesce(apiName, requestFn, params)` when no request for the key
is in flight and nothing else runs while it awaits: it registers the promise of
`executeWithCache(apiName, requestFn, params)`, awaits it and removes it. The
method declares three parameters: a fourth argument of a call, `extra`, is not
read, and `executeWithCache` gets no `ttl`. -/
def coalesceAlone (truthy : α → Bool) (generateKey : String → String → CacheKey)
    (c : RequestCache α) (apiName : String) (requestFn : Except JsError α)
    (params : String) (_extra : Option Int) (clock : CacheClock) :
    Except JsError (CacheResponse α) × RequestCache α :=
  executeWithCache truthy generateKey c apiName requestFn params none clock

end RequestCache

/-- The state of a promise `executeWithCache` returned to `coalesce`: suspended at
`await requestFn()` for a key, settled with an outcome not yet seen by the
callers awaiting it, or settled and seen. -/
inductive PromiseState (α : Type) where
  | pending (key : CacheKey) (apiName : String) (ttl : Option Int)
  | settled (key : CacheKey) (outcome : Except JsError (CacheResponse α))
  | done

/-- A cache with its coalescing state. `inFlightRequests` is the `Map` from keys
to promises (empty while the property is still unset), a promise being its
position in `promises`; `fetcherCalls` lists the callers whose `requestFn` was
invoked, `awaiting` the callers suspended on a promise, `delivered` what each
caller's `coalesce` call returned or threw. -/
structure Coalescer (α : Type) where
  cache : RequestCache α
  inFlightRequests : List (CacheKey × Nat) := []
  promises : List (PromiseState α) := []
  fetcherCalls : List Nat := []
  awaiting : List (Nat × Nat) := []
  delivered : List (Nat × Except JsError (CacheResponse α)) := []

namespace Coalescer

variable {α : Type}

/-- A call `coalesce(apiName, requestFn, params, extra)` by `caller`, run up to
its `await`: it joins the promise in flight for the key, or creates one with
`executeWithCache(apiName, requestFn, params)` (which invokes `requestFn` on a
miss) and registers it. -/
def start (truthy : α → Bool) (generateKey : String → String → CacheKey)
    (s : Coalescer α) (caller : Nat) (apiName params : String) (_extra : Option Int)
    (nowGet nowAge : Int) : Coalescer α :=
  let key := generateKey apiName params
  match mapGet s.inFlightRequests key with
  | some promise => { s with awaiting := s.awaiting ++ [(caller, promise)] }
  | none =>
    let promise := s.promises.length
    match RequestCache.executeWithCacheStart truthy s.cache key nowGet nowAge with
    | (.ok none, c1) =>
      { s with cache := c1
               promises := s.promises ++ [.pending key apiName none]
               fetcherCalls := s.fetcherCalls ++ [caller]
               inFlightRequests := mapSet s.inFlightRequests key promise
               awaiting := s.awaiting ++ [(caller, promise)] }
    | (.ok (some r), c1) =>
      { s with cache := c1
               promises := s.promises ++ [.settled key (.ok r)]
               inFlightRequests := mapSet s.inFlightRequests key promise
               awaiting := s.awaiting ++ [(caller, promise)] }
    | (.error e, c1) =>
      { s with cache := c1
               promises := s.promises ++ [.settled key (.error e)]
               inFlightRequests := mapSet s.inFlightRequests key promise
               awaiting := s.awaiting ++ [(caller, promise)] }

/-- The fetcher of a pending promise settles with `fetched`: the rest of
`executeWithCache` runs and settles the promise. -/
def settle (s : Coalescer α) (promise : Nat) (fetched : Except JsError α)
    (nowCreated nowExpires nowAge : Int) : Coalescer α :=
  match s.promises.get? promise with
  | some (.pending key apiName ttl) =>
    match RequestCache.executeWithCacheSettle s.cache key apiName ttl fetched nowCreated
        nowExpires nowAge with
    | (outcome, c1) =>
      { s with cache := c1, promises := s.promises.set promise (.settled key outcome) }
  | _ => s

/-- The callers awaiting a settled promise resume: each returns or throws the
promise's outcome, and the `finally` of the call that created it deletes the key
from `inFlightRequests`. -/
def deliver (s : Coalescer α) (promise : Nat) : Coalescer α :=
  match s.promises.get? promise with
  | some (.settled key outcome) =>
    { s with delivered := s.delivered ++
               (s.awaiting.filter (fun w => w.2 = promise)).map (fun w => (w.1, outcome))
             awaiting := s.awaiting.filter (fun w => w.2 ≠ promise)
             promises := s.promises.set promise .done
             inFlightRequests := mapDelete s.inFlightRequests key }
  | _ => s

/-- The calls of `callers`, one after the other, each run up to its `await`. -/
def startAll (truthy : α → Bool) (generateKey : String → String → CacheKey)
    (s : Coalescer α) (apiName params : String) :
    List (Nat × Option Int × Int × Int) → Coalescer α
  | [] => s
  | (caller, extra, nowGet, nowAge) :: rest =>
    startAll truthy generateKey (start truthy generateKey s caller apiName params extra nowGet
      nowAge) apiName params rest

end Coalescer

/-! ## `src/clients/baseApiClient.js`: `fetch` -/

/-- The state `fetch` reads and writes: the client's name and `cacheTTL`, its
circuit breaker, and the shared request cache. -/
structure BaseAPIClient where
  name : String
  cacheTTL : Int
  circuitBreaker : CircuitBreaker
  cache : RequestCache JsVal

/-- The object `fetch` resolves to; `stale` is `false` and `cacheAge` is `none`
when the property is absent or `undefined`. -/
structure FetchResult where
  source : String
  data : JsVal
  timestamp : JsVal
  fromCache : Bool
  stale : Bool := false
  cacheAge : Option Int := none

/-- The clock reads of one `fetch` call: in `canExecute`, in the cache calls, in
`recordFailure`, and the text `new Date().toISOString()` returns. -/
structure FetchClock where
  canExecute : Int
  cache : CacheClock
  failure : Int
  iso : String

namespace BaseAPIClient

/-- The JSON text of the default `params = {}`. -/
def emptyParams : String := "\x7b\x7d"

/-- The error `fetch` throws when the breaker refuses and the cache gives
nothing. -/
def circuitOpenError (name : String) : JsError :=
  { message := "Circuit breaker OPEN for " ++ name }

/-- The method `fetch()` when no other request for the client's key is in flight.
`upstream` is the outcome of `fetchWithRateLimitAndRetry()` if it is invoked. -/
def fetch (generateKey : String → String → CacheKey) (cl : BaseAPIClient)
    (upstream : Except JsError JsVal) (clock : FetchClock) :
    Except JsError FetchResult × BaseAPIClient :=
  match cl.circuitBreaker.canExecute clock.canExecute with
  | (false, cb1) =>
    match cl.cache.get (generateKey cl.name emptyParams) clock.cache.get with
    | (some cached, c1) =>
      if cached.truthy then
        (.ok { source := cl.name, data := cached, timestamp := .str clock.iso,
               fromCache := true, stale := true },
          { cl with circuitBreaker := cb1, cache := c1 })
      else
        (.error (circuitOpenError cl.name), { cl with circuitBreaker := cb1, cache := c1 })
    | (none, c1) =>
      (.error (circuitOpenError cl.name), { cl with circuitBreaker := cb1, cache := c1 })
  | (true, cb1) =>
    match RequestCache.coalesceAlone JsVal.truthy generateKey cl.cache cl.name upstream
        emptyParams (some cl.cacheTTL) clock.cache with
    | (.ok result, c1) =>
      let cb2 := cb1.recordSuccess
      match result.data.getProp "data", result.data.getProp "timestamp" with
      | .ok data, .ok timestamp =>
        (.ok { source := cl.name, data := data, timestamp := timestamp,
               fromCache := result.fromCache, cacheAge := result.cacheAge },
          { cl with circuitBreaker := cb2, cache := c1 })
      | .error error, _ =>
        (.error error, { cl with circuitBreaker := cb2.recordFailure clock.failure, cache := c1 })
      | .ok _, .error error =>
        (.error error, { cl with circuitBreaker := cb2.recordFailure clock.failure, cache := c1 })
    | (.error error, c1) =>
      (.error error, { cl with circuitBreaker := cb1.recordFailure clock.failure, cache := c1 })

end BaseAPIClient

/-! ## `src/utils/exponentialBackoff.js` -/

/-- The fields of an `ExponentialBackoff` object. -/
structure ExponentialBackoff where
  maxRetries : Nat
  baseDelay : ℚ
  maxDelay : ℚ
  factor : ℚ
  jitter : Bool
  deriving DecidableEq, Repr

/-- The options object of the constructor; an absent property is `none`. -/
structure ExponentialBackoffOptions where
  maxRetries : Option Nat := none
  baseDelay : Option ℚ := none
  maxDelay : Option ℚ := none
  factor : Option ℚ := none
  jitter : Option Bool := none

/-- The JavaScript `x || d` on a numeric option: `undefined` and `0` are falsy. -/
def orDefaultRat (x : Option ℚ) (d : ℚ) : ℚ :=
  match x with
  | some v => if v = 0 then d else v
  | none => d

/-- The method `String.prototype.includes`: `sub` occurs somewhere in `s`. -/
def jsIncludes (s sub : String) : Bool :=
  s.data.tails.any (fun t => sub.data.isPrefixOf t)

/-- The test `message.match(/HTTP [4]\d{2}/)`: somewhere in `s` stands `HTTP 4`
followed by two decimal digits. -/
def matchesHttp4xx (s : String) : Bool :=
  s.data.tails.any (fun t =>
    "HTTP 4".data.isPrefixOf t && decide (2 ≤ (t.drop 6).length) &&
      ((t.drop 6).take 2).all Char.isDigit)

/-- The message `makeRequest` rejects with on a status outside 200..299. -/
def httpStatusMessage (statusCode : Nat) : String :=
  "HTTP " ++ toString statusCode

/-- What one `execute` call did: its outcome (the value returned, or the value
thrown, `none` for `undefined`), how often it invoked `fn`, and the delays it
waited, in order. -/
structure BackoffRun (α : Type) where
  outcome : Except (Option JsError) α
  calls : Nat
  waits : List Int

namespace ExponentialBackoff

/-- The `constructor(options = {})`. -/
def new (options : ExponentialBackoffOptions := {}) : ExponentialBackoff :=
  { maxRetries := orDefaultNat options.maxRetries 5
    baseDelay := orDefaultRat options.baseDelay 1000
    maxDelay := orDefaultRat options.maxDelay 32000
    factor := orDefaultRat options.factor 2
    jitter := options.jitter != some false }

/-- The method `calculateDelay(attempt)` in double arithmetic; `random` is the
value `Math.random()` returns if it is called. A power or a product beyond the
exponent range is `Infinity` in the code and a larger finite value here:
`Math.min` with the finite `maxDelay` gives `maxDelay` for both. That holds for
a positive `baseDelay`; with `baseDelay = 0` the code computes
`0 * Infinity = NaN`, which is outside this model. -/
def calculateDelay (b : ExponentialBackoff) (attempt : Nat) (random : ℚ) : Int :=
  let delay : ℚ := roundDouble (b.baseDelay * mathPow b.factor attempt)
  let delay : ℚ := min delay b.maxDelay
  let delay : ℚ := if b.jitter then roundDouble (random * delay) else delay
  ⌊delay⌋

/-- The method `shouldRetry(error)`. -/
def shouldRetry (error : JsError) : Bool :=
  if error.code = some "ETIMEDOUT" ∨ error.code = some "ECONNRESET" ∨
      error.code = some "ENOTFOUND" then
    true
  else if jsIncludes error.message "429" || jsIncludes error.message "Too Many Requests" then
    true
  else if jsIncludes error.message "503" then
    true
  else if jsIncludes error.message "500" || jsIncludes error.message "502" ||
      jsIncludes error.message "504" then
    true
  else if matchesHttp4xx error.message then
    false
  else
    true

/-- The `for` loop of `execute`, entered with `remaining` iterations to go, that
is `remaining = maxRetries + 1 - attempt`; `remaining = 0` is the exit of the
loop, `throw lastError`. `fn i` is the outcome of the invocation of `fn` in
attempt `i`, `random i` the value of `Math.random()` in attempt `i`. -/
def executeLoop {α : Type} (b : ExponentialBackoff) (fn : Nat → Except JsError α)
    (random : Nat → ℚ) : Nat → Nat → Option JsError → List Int → BackoffRun α
  | 0, attempt, lastError, waits =>
    { outcome := .error lastError, calls := attempt, waits := waits }
  | remaining + 1, attempt, _, waits =>
    match fn attempt with
    | .ok result => { outcome := .ok result, calls := attempt + 1, waits := waits }
    | .error error =>
      if attempt = b.maxRetries then
        { outcome := .error (some error), calls := attempt + 1, waits := waits }
      else if !shouldRetry error then
        { outcome := .error (some error), calls := attempt + 1, waits := waits }
      else
        executeLoop b fn random remaining (attempt + 1) (some error)
          (waits ++ [b.calculateDelay attempt (random attempt)])

/-- The method `execute(fn, context)`. -/
def execute {α : Type} (b : ExponentialBackoff) (fn : Nat → Except JsError α)
    (random : Nat → ℚ) : BackoffRun α :=
  executeLoop b fn random (b.maxRetries + 1) 0 none []

end ExponentialBackoff

/-! ## `src/strategies/bestEffortStrategy.js` -/

/-- One element of the array `Promise.allSettled` resolves to; a rejection
reason is an `Error` object. -/
inductive Settled (α : Type) where
  | fulfilled (value : α)
  | rejected (reason : JsError)
  deriving DecidableEq, Repr

/-- An element of `failedAPIs`. -/
structure FailedAPI where
  index : Nat
  reason : String
  deriving DecidableEq, Repr

/-- The object a strategy's `aggregate` resolves to. -/
structure AggregateResult (α : Type) where
  data : List α
  successful : Nat
  failed : Nat
  failedAPIs : List FailedAPI
  deriving DecidableEq, Repr

/-- The loop `results.forEach((result, index) => ...)` of the strategies, from
position `index` on, with the arrays `successful` and `failed` built so far. -/
def collectSettled {α : Type} :
    List (Settled α) → Nat → List α → List FailedAPI → List α × List FailedAPI
  | [], _, successful, failed => (successful, failed)
  | .fulfilled value :: rest, index, successful, failed =>
    collectSettled rest (index + 1) (successful ++ [value]) failed
  | .rejected reason :: rest, index, successful, failed =>
    collectSettled rest (index + 1) successful
      (failed ++ [{ index := index, reason := reason.message }])

namespace BestEffortStrategy

/-- The method `aggregate(results)`: `.ok` when the promise it returns is
fulfilled. -/
def aggregate {α : Type} (results : List (Settled α)) : Except JsError (AggregateResult α) :=
  match collectSettled results 0 [] [] with
  | (successful, failed) =>
    .ok { data := successful, successful := successful.length, failed := failed.length,
          failedAPIs := failed }

end BestEffortStrategy

/-- The values of the fulfilled outcomes, in input order. -/
def fulfilledValues {α : Type} : List (Settled α) → List α
  | [] => []
  | .fulfilled value :: rest => value :: fulfilledValues rest
  | .rejected _ :: rest => fulfilledValues rest

/-- One `(index, reason)` per rejected outcome, in increasing index order, the
first element of the list having index `start`. -/
def rejectedFrom {α : Type} : List (Settled α) → Nat → List FailedAPI
  | [], _ => []
  | .fulfilled _ :: rest, start => rejectedFrom rest (start + 1)
  | .rejected reason :: rest, start =>
    { index := start, reason := reason.message } :: rejectedFrom rest (start + 1)

/-- The value of a fulfilled outcome. -/
def Settled.value? {α : Type} : Settled α → Option α
  | .fulfilled value => some value
  | .rejected _ => none

/-- The `failedAPIs` element for position `i` of `results`, if the outcome there
is rejected; indices are counted from `start`. -/
def failedAt {α : Type} (results : List (Settled α)) (start i : Nat) : Option FailedAPI :=
  match results.get? i with
  | some (.rejected reason) => some { index := start + i, reason := reason.message }
  | _ => none

/-! ## Sample inputs -/

/-- A stand-in for `generateKey` in the examples: the owner and the parameter
text, joined. -/
def sampleKey (apiName params : String) : CacheKey := apiName ++ ":" ++ params

/-- A parsed response body with a `data` and a `timestamp` property. -/
def samplePayload : JsVal := .obj [("data", .arr [.num 1]), ("timestamp", .str "t0")]

/-- The key of the upstream `users`. -/
def usersKey : CacheKey := sampleKey "users" BaseAPIClient.emptyParams

/-- A cache that stored the `users` payload at time 0 with a ttl of 100 ms. -/
def usersCache : RequestCache JsVal :=
  (RequestCache.new {}).run [.set usersKey samplePayload "users" (some 100) 0 0]

/-- The breaker of `users` after five failures, the last at time 1000: Open. -/
def usersOpenBreaker : CircuitBreaker :=
  (CircuitBreaker.new "users").afterEvents
    [.failure 600, .failure 700, .failure 800, .failure 900, .failure 1000]

/-- The client of `users` with its breaker Open and `usersCache` as cache. -/
def usersRefusedClient : BaseAPIClient :=
  { name := "users", cacheTTL := 5000, circuitBreaker := usersOpenBreaker, cache := usersCache }

/-- A clock whose every read is `now`. -/
def CacheClock.fixed (now : Int) : CacheClock :=
  { get := now, age := now, created := now, expires := now, staleAge := now }

/-- A clock whose every read is `now`. -/
def FetchClock.fixed (now : Int) : FetchClock :=
  { canExecute := now, cache := CacheClock.fixed now, failure := now, iso := "iso" }

/-- A fresh client of `users` with `cacheTTL` 5000 and an empty cache. -/
def usersFreshClient : BaseAPIClient :=
  { name := "users", cacheTTL := 5000, circuitBreaker := CircuitBreaker.new "users",
    cache := RequestCache.new {} }

/-- The backoff `BaseAPIClient` constructs: 3 retries, base delay 1000 ms,
ceiling 10000 ms, factor 2, jitter on. -/
def clientBackoff : ExponentialBackoff :=
  ExponentialBackoff.new
    { maxRetries := some 3
      baseDelay := some 1000
      maxDelay := some 10000 }

/-- The backoff of the specification's example: base delay 1000, factor 2,
ceiling 10000, with jitter on or off. -/
def exampleBackoff (jitter : Bool) : ExponentialBackoff :=
  { maxRetries := 3
    baseDelay := 1000
    maxDelay := 10000
    factor := 2
    jitter := jitter }

/-! ## `src/strategies/allOrNothingStrategy.js` -/

namespace AllOrNothingStrategy

/-- The error `aggregate` throws when `count` outcomes are rejected. -/
def failureError (count : Nat) : JsError :=
  { message := "All or Nothing: " ++ toString count ++ " APIs fallaron" }

/-- The method `aggregate(results)`: `.error` when it throws. -/
def aggregate {α : Type} (results : List (Settled α)) : Except JsError (AggregateResult α) :=
  match collectSettled results 0 [] [] with
  | (successful, failed) =>
    if failed.length > 0 then
      .error (failureError failed.length)
    else
      .ok { data := successful, successful := successful.length, failed := 0, failedAPIs := [] }

end AllOrNothingStrategy

/-! ## `src/strategies/cachedFallbackStrategy.js` -/

/-- The own enumerable properties of a value, as `Object.entries`, `Object.keys`
and object spread read them: the fields of an object, the indexed elements of
an array, the indexed characters of a string, nothing for other values. -/
def JsVal.entries : JsVal → List (String × JsVal)
  | .obj fields => fields
  | .arr items => items.enum.map (fun p => (toString p.1, p.2))
  | .str s => s.data.enum.map (fun p => (toString p.1, JsVal.str (String.singleton p.2)))
  | _ => []

/-- The object literal `{ ...v, name: value }`. -/
def JsVal.spreadWith (v : JsVal) (name : String) (value : JsVal) : JsVal :=
  .obj (mapSet v.entries name value)

/-- An entry of the static map `CachedFallbackStrategy.cache`. -/
structure FallbackEntry where
  data : JsVal
  timestamp : Int

/-- The static map `CachedFallbackStrategy.cache`, shared by all instances, as
the function from its keys (positions) to their entries: the class never reads
its size or iterates over it. -/
abbrev FallbackCache := Nat → Option FallbackEntry

/-- What the loop of `CachedFallbackStrategy.aggregate` has built: the arrays
`successful`, `failed` and `fromCache`, and the static cache. -/
structure FallbackState where
  successful : List JsVal
  failed : List FailedAPI
  fromCache : List Nat
  cache : FallbackCache

/-- The object `CachedFallbackStrategy.aggregate` resolves to. -/
structure FallbackResult where
  data : List JsVal
  successful : Nat
  failed : Nat
  failedAPIs : List FailedAPI
  fromCache : Nat

namespace CachedFallbackStrategy

/-- The static field `CachedFallbackStrategy.TTL`: 5 minutes. -/
def TTL : Int := 300000

/-- The static cache the first constructor call creates. -/
def emptyCache : FallbackCache := fun _ => none

/-- The method `setCache(key, value)` at clock value `now`. -/
def setCache (cache : FallbackCache) (key : Nat) (value : JsVal) (now : Int) : FallbackCache :=
  Function.update cache key (some { data := value, timestamp := now })

/-- The method `getCache(key)` at clock value `now`; `none` is `null`. -/
def getCache (cache : FallbackCache) (key : Nat) (now : Int) : Option JsVal × FallbackCache :=
  match cache key with
  | none => (none, cache)
  | some cached =>
    let age := now - cached.timestamp
    if age > TTL then
      (none, Function.update cache key none)
    else
      (some cached.data, cache)

/-- The callback of `results.forEach` for one outcome at position `index`;
`now` is the clock value read in `setCache` or `getCache`. -/
def visit (st : FallbackState) (result : Settled JsVal) (index : Nat) (now : Int) :
    FallbackState :=
  match result with
  | .fulfilled value =>
    { st with successful := st.successful ++ [value]
              cache := setCache st.cache index value now }
  | .rejected reason =>
    match getCache st.cache index now with
    | (some cached, cache1) =>
      if cached.truthy then
        { st with successful := st.successful ++ [cached.spreadWith "fromCache" (.bool true)]
                  fromCache := st.fromCache ++ [index]
                  cache := cache1 }
      else
        { st with failed := st.failed ++ [{ index := index, reason := reason.message }]
                  cache := cache1 }
    | (none, cache1) =>
      { st with failed := st.failed ++ [{ index := index, reason := reason.message }]
                cache := cache1 }

/-- The loop `results.forEach(...)` from position `index` on; `clock i` is the
clock value read at position `i`. -/
def collect (clock : Nat → Int) : List (Settled JsVal) → Nat → FallbackState → FallbackState
  | [], _, st => st
  | result :: rest, index, st => collect clock rest (index + 1) (visit st result index (clock index))

/-- The loop of `aggregate(results)` on the static cache `cache`. -/
def aggregateLoop (cache : FallbackCache) (results : List (Settled JsVal)) (clock : Nat → Int) :
    FallbackState :=
  collect clock results 0 { successful := [], failed := [], fromCache := [], cache := cache }

/-- The method `aggregate(results)` on the static cache `cache`: the object it
resolves to and the static cache afterwards. -/
def aggregate (cache : FallbackCache) (results : List (Settled JsVal)) (clock : Nat → Int) :
    FallbackResult × FallbackCache :=
  let st := aggregateLoop cache results clock
  ({ data := st.successful, successful := st.successful.length, failed := st.failed.length,
     failedAPIs := st.failed, fromCache := st.fromCache.length }, st.cache)

/-- The static cache after a sequence of `aggregate` calls, oldest first, each
with its outcomes and its clock. -/
def afterCalls (cache : FallbackCache) :
    List (List (Settled JsVal) × (Nat → Int)) → FallbackCache
  | [] => cache
  | call :: rest => afterCalls (aggregate cache call.1 call.2).2 rest

end CachedFallbackStrategy

/-- The static cache's entry of a position after the loop of `aggregate` has
visited it with outcome `result` at clock value `now`, `entry` being the entry
before: a fulfilled outcome stores its value, a rejected one drops an entry
older than `TTL`. -/
def CachedFallbackStrategy.entryAfter (result : Settled JsVal) (now : Int)
    (entry : Option FallbackEntry) : Option FallbackEntry :=
  match result with
  | .fulfilled value => some { data := value, timestamp := now }
  | .rejected _ =>
    match entry with
    | none => none
    | some cached => if now - cached.timestamp > CachedFallbackStrategy.TTL then none else some cached

/-- Ten settled outcomes, those at positions 3 and 7 rejected. -/
def tenOutcomes : List (Settled String) :=
  [.fulfilled "r0", .fulfilled "r1", .fulfilled "r2", .rejected { message := "Timeout" },
   .fulfilled "r4", .fulfilled "r5", .fulfilled "r6", .rejected { message := "HTTP 500" },
   .fulfilled "r8", .fulfilled "r9"]


/-- Two outcomes of a first aggregation: position 1 delivers the sample payload. -/
def fallbackFirst : List (Settled JsVal) :=
  [.rejected { message := "HTTP 500" }, .fulfilled samplePayload]

/-- Two outcomes of a later aggregation: position 1 times out. -/
def fallbackLater : List (Settled JsVal) :=
  [.fulfilled samplePayload, .rejected { message := "Timeout" }]

/-! ## `src/workers/dataProcessor.js` -/

/-- The message a worker receives: `{ type, data, criteria }`; `criteria` is
`undefined` when the property is absent. -/
structure WorkerTask where
  type : String
  data : JsVal
  criteria : JsVal := .undefined

/-- The names `Object.prototype` defines; reading one of them on a value without
an own property of that name gives an inherited member, not `undefined`. -/
def objectPrototypeNames : List String :=
  ["constructor", "__defineGetter__", "__defineSetter__", "hasOwnProperty",
   "__lookupGetter__", "__lookupSetter__", "isPrototypeOf", "propertyIsEnumerable",
   "toString", "valueOf", "__proto__", "toLocaleString"]

namespace JsVal

/-- The values `undefined` and `null`. -/
def isNullish : JsVal → Bool
  | .undefined => true
  | .null => true
  | _ => false

/-- Strict equality `a === b` of two payload values. Primitives are compared by
value; an array or object held by one side is never the reference held by the
other. -/
def strictEq : JsVal → JsVal → Bool
  | .undefined, .undefined => true
  | .null, .null => true
  | .bool a, .bool b => a == b
  | .num a, .num b => a == b
  | .str a, .str b => a == b
  | _, _ => false

/-- The read `item[key]`: a `TypeError` on `undefined` and `null`; otherwise
`some` of the own property (of an array or string also `length` and the
elements), `none` for a member inherited from `Object.prototype` (a function or
the prototype itself, which no payload value equals), `some undefined` for any
other name. The methods of `Array.prototype`, `String.prototype`,
`Number.prototype` and `Boolean.prototype` are not modelled. -/
def member (item : JsVal) (key : String) : Except JsError (Option JsVal) :=
  match item with
  | .undefined =>
    .error { message := "Cannot read properties of undefined (reading \x27" ++ key ++ "\x27)" }
  | .null =>
    .error { message := "Cannot read properties of null (reading \x27" ++ key ++ "\x27)" }
  | .obj fields =>
    match fields.lookup key with
    | some w => .ok (some w)
    | none => if key ∈ objectPrototypeNames then .ok none else .ok (some .undefined)
  | .arr items =>
    if key = "length" then .ok (some (.num items.length))
    else
      match (items.enum.find? (fun p => toString p.1 = key)) with
      | some p => .ok (some p.2)
      | none => if key ∈ objectPrototypeNames then .ok none else .ok (some .undefined)
  | .str s =>
    if key = "length" then .ok (some (.num s.data.length))
    else
      match (s.data.enum.find? (fun p => toString p.1 = key)) with
      | some p => .ok (some (.str (String.singleton p.2)))
      | none => if key ∈ objectPrototypeNames then .ok none else .ok (some .undefined)
  | _ => if key ∈ objectPrototypeNames then .ok none else .ok (some .undefined)

end JsVal

/-- The part of `aggregateData` that can raise, item by item in `forEach` order:
the destructuring `const { source, data, timestamp } = item` raises on a nullish
item, `Object.keys(data)` raises on a nullish `data`. `none` when the loop
completes. -/
def aggregateDataRaise : List JsVal → Option JsError
  | [] => none
  | item :: rest =>
    match item with
    | .undefined =>
      some { message :=
        "Cannot destructure property \x27source\x27 of \x27item\x27 as it is undefined." }
    | .null =>
      some { message :=
        "Cannot destructure property \x27source\x27 of \x27item\x27 as it is null." }
    | _ =>
      match item.getProp "data" with
      | .error error => some error
      | .ok data =>
        if data.isNullish then some { message := "Cannot convert undefined or null to object" }
        else aggregateDataRaise rest

/-- The function `aggregateData(dataArray)`. `built` stands for the object
`aggregated` that is returned when no statement raises; how its `summary`,
`allData` and `stats` are filled is not modelled. -/
def aggregateData (built : List JsVal → JsVal) (dataArray : JsVal) : Except JsError JsVal :=
  match dataArray with
  | .arr items =>
    match aggregateDataRaise items with
    | some error => .error error
    | none => .ok (built items)
  | .undefined =>
    .error { message := "Cannot read properties of undefined (reading \x27length\x27)" }
  | .null =>
    .error { message := "Cannot read properties of null (reading \x27length\x27)" }
  | _ => .error { message := "dataArray.forEach is not a function" }

/-- The function `transformData(data)`; `iso` is the text
`new Date().toISOString()` returns. -/
def transformData (iso : String) (data : JsVal) : Except JsError JsVal :=
  match data with
  | .arr items =>
    .ok (.arr (items.map (fun item =>
      .obj (mapSet (mapSet item.entries "processed" (.bool true)) "processedAt" (.str iso)))))
  | .undefined =>
    .error { message := "Cannot read properties of undefined (reading \x27map\x27)" }
  | .null =>
    .error { message := "Cannot read properties of null (reading \x27map\x27)" }
  | _ => .error { message := "data.map is not a function" }

/-- The callback of `data.filter` in `filterData`: the loop over
`Object.entries(criteria)` returns `false` at the first entry whose value the
item's field is not strictly equal to, `true` when it runs to the end. -/
def itemMatches (item : JsVal) : List (String × JsVal) → Except JsError Bool
  | [] => .ok true
  | (key, value) :: rest =>
    match item.member key with
    | .error error => .error error
    | .ok (some found) => if !(found.strictEq value) then .ok false else itemMatches item rest
    | .ok none => .ok false

/-- The call `data.filter(callback)` on the elements of an array, in order; it
raises as soon as the callback does. -/
def filterItems (entries : List (String × JsVal)) : List JsVal → Except JsError (List JsVal)
  | [] => .ok []
  | item :: rest =>
    match itemMatches item entries with
    | .error error => .error error
    | .ok keep =>
      match filterItems entries rest with
      | .error error => .error error
      | .ok kept => .ok (if keep then item :: kept else kept)

/-- The function `filterData(data, criteria)`. -/
def filterData (data criteria : JsVal) : Except JsError JsVal :=
  if !criteria.truthy then .ok data
  else
    match data with
    | .arr items =>
      match filterItems criteria.entries items with
      | .error error => .error error
      | .ok kept => .ok (.arr kept)
    | .undefined =>
      .error { message := "Cannot read properties of undefined (reading \x27filter\x27)" }
    | .null =>
      .error { message := "Cannot read properties of null (reading \x27filter\x27)" }
    | _ => .error { message := "data.filter is not a function" }

/-- The handler of the `message` event of `parentPort`: the value it posts back. An
exception raised while the task is processed is caught and posted as
`{ error: error.message }`, an ordinary message. -/
def onMessage (built : List JsVal → JsVal) (iso : String) (task : WorkerTask) : JsVal :=
  match (if task.type = "aggregate" then aggregateData built task.data
         else if task.type = "transform" then transformData iso task.data
         else if task.type = "filter" then filterData task.data task.criteria
         else .ok task.data) with
  | .ok result => result
  | .error error => .obj [("error", .str error.message)]

/-! ## `src/strategies/aggregationStrategyFactory.js` and `src/services/apiAggregatorService.js` -/

/-- What `new StrategyClass()` can build: an instance of one of the three
strategy classes, or the empty object `new Object()` builds. -/
inductive Strategy where
  | bestEffort
  | allOrNothing
  | cachedFallback
  | plainObject
  deriving DecidableEq, Repr

/-- The object a strategy resolves to, as the service reads it: `fromCache` is
`none` when the property is absent. -/
structure StrategyResult where
  data : List JsVal
  successful : Nat
  failed : Nat
  failedAPIs : List FailedAPI
  fromCache : Option Nat := none

/-- The object `aggregateAPIs` resolves to: `data` is the strategy's array or
what the worker posted. -/
structure AggregatedData where
  data : JsVal
  successful : Nat
  failed : Nat
  failedAPIs : List FailedAPI
  fromCache : Option Nat := none

namespace AggregationStrategyFactory

/-- The method `createStrategy(type)`. The read `this.strategies[type]` gives
the own property of that name, else the member the table inherits from
`Object.prototype` under that name, else `undefined`, for which the method
raises. Of the inherited members only `constructor` (the function `Object`) can
be called with `new`; for the others `new StrategyClass()` raises a
`TypeError`. -/
def createStrategy (type : String) : Except JsError Strategy :=
  if type = "best-effort" then .ok .bestEffort
  else if type = "all-or-nothing" then .ok .allOrNothing
  else if type = "cached-fallback" then .ok .cachedFallback
  else if type = "constructor" then .ok .plainObject
  else if type ∈ objectPrototypeNames then
    .error { message := "StrategyClass is not a constructor" }
  else .error { message := "Unknown strategy type: " ++ type }

end AggregationStrategyFactory

/-- The call `strategy.aggregate(results)`; only `CachedFallbackStrategy` reads
the clock and the static cache. The empty object has no `aggregate` member and
the call raises a `TypeError`. -/
def Strategy.aggregate (strategy : Strategy) (results : List (Settled JsVal))
    (cache : FallbackCache) (clock : Nat → Int) :
    Except JsError StrategyResult × FallbackCache :=
  match strategy with
  | .bestEffort =>
    match BestEffortStrategy.aggregate results with
    | .ok r =>
      (.ok { data := r.data, successful := r.successful, failed := r.failed,
             failedAPIs := r.failedAPIs }, cache)
    | .error error => (.error error, cache)
  | .allOrNothing =>
    match AllOrNothingStrategy.aggregate results with
    | .ok r =>
      (.ok { data := r.data, successful := r.successful, failed := r.failed,
             failedAPIs := r.failedAPIs }, cache)
    | .error error => (.error error, cache)
  | .cachedFallback =>
    match CachedFallbackStrategy.aggregate cache results clock with
    | (r, cache1) =>
      (.ok { data := r.data, successful := r.successful, failed := r.failed,
             failedAPIs := r.failedAPIs, fromCache := some r.fromCache }, cache1)
  | .plainObject => (.error { message := "strategy.aggregate is not a function" }, cache)

/-- How one `fetchWithTimeout(client, timeout)` race ends: `client.fetch()`
settles first, or the timer fires first. -/
inductive FetchOutcome where
  | fulfilled (value : JsVal)
  | rejected (reason : JsError)
  | timedOut

namespace APIAggregatorService

/-- The method `fetchWithTimeout`, as `Promise.allSettled` reports it. -/
def fetchWithTimeout : FetchOutcome → Settled JsVal
  | .fulfilled value => .fulfilled value
  | .rejected reason => .rejected reason
  | .timedOut => .rejected { message := "Timeout" }

/-- The task `processInWorkerThread(data)` submits. -/
def aggregateTask (data : List JsVal) : WorkerTask :=
  { type := "aggregate"
    data := .arr data }

/-- The method `aggregateAPIs(strategyName, timeout)`. `outcomes` lists how the
race of each client ends, `cache` is the static cache of
`CachedFallbackStrategy`, `clock` the `Date.now()` read at each position. `pool`
is `global.workerThreadPool`: `none` when it is not set, otherwise how the
promise of `execute(task)` settles, `.ok` with the message of the worker or
`.error` with the error of its `error` event. -/
def aggregateAPIs (strategyName : String) (outcomes : List FetchOutcome)
    (cache : FallbackCache) (clock : Nat → Int)
    (pool : Option (WorkerTask → Except JsError JsVal)) :
    Except JsError AggregatedData × FallbackCache :=
  match AggregationStrategyFactory.createStrategy strategyName with
  | .error error => (.error error, cache)
  | .ok strategy =>
    match strategy.aggregate (outcomes.map fetchWithTimeout) cache clock with
    | (.error error, cache1) => (.error error, cache1)
    | (.ok aggregated, cache1) =>
      let unprocessed : AggregatedData :=
        { data := .arr aggregated.data
          successful := aggregated.successful
          failed := aggregated.failed
          failedAPIs := aggregated.failedAPIs
          fromCache := aggregated.fromCache }
      match pool with
      | none => (.ok unprocessed, cache1)
      | some execute =>
        if aggregated.data.length > 0 then
          match execute (aggregateTask aggregated.data) with
          | .ok processed => (.ok { unprocessed with data := processed }, cache1)
          | .error _ => (.ok unprocessed, cache1)
        else (.ok unprocessed, cache1)

/-- A pool whose worker answers every task: `execute(task)` resolves with the
message `dataProcessor.js` posts. -/
def workingPool (built : List JsVal → JsVal) (iso : String) :
    WorkerTask → Except JsError JsVal :=
  fun task => .ok (onMessage built iso task)

end APIAggregatorService

/-- The object `fetch` returns, as a payload value: in the refused branch it has
a `stale` property, in the permitted branch a `cacheAge` property. -/
def FetchResult.toJsVal (r : FetchResult) : JsVal :=
  .obj ([("source", .str r.source), ("data", r.data), ("timestamp", r.timestamp),
         ("fromCache", .bool r.fromCache)] ++
        (if r.stale then [("stale", .bool true)]
         else [("cacheAge", match r.cacheAge with
                            | some age => .num age
                            | none => .undefined)]))

/-- The body `https://jsonplaceholder.typicode.com/users` answers with: a JSON
array, which has no `data` and no `timestamp` property. -/
def usersArrayBody : JsVal :=
  .arr [.obj [("id", .num 1), ("name", .str "Leanne Graham")]]

/-- What `client.fetch()` returns for the body `usersArrayBody`, as a payload
value: `data` and `timestamp` are `undefined`. -/
def usersArrayItem : JsVal :=
  .obj [("source", .str "users"), ("data", .undefined), ("timestamp", .undefined),
        ("fromCache", .bool false), ("cacheAge", .undefined)]

/-- A stand-in for the object `aggregateData` builds when nothing raises. -/
def sampleBuilt (items : List JsVal) : JsVal :=
  .obj [("totalSources", .num items.length)]

/-! ## `src/workers/workerThreadPool.js` -/

/-- The state of a `WorkerThreadPool`. Workers and jobs are identified by
numbers. `listeners` holds, per dispatched worker, the job whose `message` and
`error` handlers are registered on it. `posted` and `settled` are logs, in call
order, of `worker.postMessage(job.task)` and of `job.resolve` (`true`) or
`job.reject` (`false`). -/
structure WorkerThreadPool where
  workers : List Nat
  availableWorkers : List Nat
  taskQueue : List Nat
  listeners : List (Nat × Nat) := []
  posted : List (Nat × Nat) := []
  settled : List (Nat × Bool) := []
  deriving DecidableEq, Repr

/-- What can happen to a pool: a call `execute(task)` creating the job `job`,
and the events `message`, `error` and `exit` of a worker. -/
inductive PoolEvent where
  | execute (job : Nat)
  | message (worker : Nat)
  | error (worker : Nat)
  | exit (worker : Nat) (code : Int)
  deriving DecidableEq, Repr

namespace WorkerThreadPool

/-- The constructor with `initialize()`: workers `0 .. size - 1`, all idle. -/
def new (size : Nat) : WorkerThreadPool :=
  { workers := List.range size
    availableWorkers := List.range size
    taskQueue := [] }

/-- The method `runTask(job)` up to `worker.postMessage(job.task)`. With no idle
worker `shift()` gives `undefined` and `worker.once` raises. -/
def runTask (p : WorkerThreadPool) (job : Nat) : Except JsError WorkerThreadPool :=
  match p.availableWorkers with
  | [] => .error { message := "Cannot read properties of undefined (reading \x27once\x27)" }
  | worker :: rest =>
    .ok { p with availableWorkers := rest
                 listeners := p.listeners ++ [(worker, job)]
                 posted := p.posted ++ [(worker, job)] }

/-- The executor of the promise `execute(task)` returns. -/
def execute (p : WorkerThreadPool) (job : Nat) : Except JsError WorkerThreadPool :=
  if p.availableWorkers.length > 0 then runTask p job
  else .ok { p with taskQueue := p.taskQueue ++ [job] }

/-- The handlers `messageHandler` (`resolved = true`) and `errorHandler`
(`resolved = false`) that `runTask` registered on `worker`; nothing happens when
no job is registered on it. -/
def complete (p : WorkerThreadPool) (worker : Nat) (resolved : Bool) :
    Except JsError WorkerThreadPool :=
  match p.listeners.lookup worker with
  | none => .ok p
  | some job =>
    let p1 := { p with availableWorkers := p.availableWorkers ++ [worker]
                       listeners := p.listeners.filter (fun l => l.1 ≠ worker)
                       settled := p.settled ++ [(job, resolved)] }
    match p1.taskQueue with
    | [] => .ok p1
    | nextJob :: rest => runTask { p1 with taskQueue := rest } nextJob

/-- The handler of the `exit` event registered in `initialize()`. -/
def exit (p : WorkerThreadPool) (worker : Nat) (code : Int) : WorkerThreadPool :=
  if code ≠ 0 then
    { p with workers := p.workers.filter (fun w => w ≠ worker)
             availableWorkers := p.availableWorkers.filter (fun w => w ≠ worker) }
  else p

/-- One event. -/
def step (p : WorkerThreadPool) : PoolEvent → Except JsError WorkerThreadPool
  | .execute job => p.execute job
  | .message worker => p.complete worker true
  | .error worker => p.complete worker false
  | .exit worker code => .ok (p.exit worker code)

/-- A sequence of events, stopping at the first one that raises. -/
def run (p : WorkerThreadPool) : List PoolEvent → Except JsError WorkerThreadPool
  | [] => .ok p
  | event :: rest =>
    match p.step event with
    | .error error => .error error
    | .ok p1 => run p1 rest

/-- The jobs in the order `postMessage` handed them to a worker. -/
def started (p : WorkerThreadPool) : List Nat := p.posted.map (fun d => d.2)

/-- The workers that have a job registered. -/
def busyWorkers (p : WorkerThreadPool) : List Nat := p.listeners.map (fun l => l.1)

/-- The invariant of the pools `execute` calls and worker events reach, `submitted` being the jobs handed to
`execute` so far. -/
structure Inv (p : WorkerThreadPool) (submitted : List Nat) : Prop where
  fifo : p.started ++ p.taskQueue = submitted
  saturated : p.taskQueue ≠ [] → p.availableWorkers = []
  idle_nodup : p.availableWorkers.Nodup
  busy_nodup : p.busyWorkers.Nodup
  idle_not_busy : ∀ w ∈ p.availableWorkers, w ∉ p.busyWorkers

end WorkerThreadPool

/-- The jobs of the `execute` calls of an event sequence, in call order. -/
def submittedJobs : List PoolEvent → List Nat
  | [] => []
  | .execute job :: rest => job :: submittedJobs rest
  | _ :: rest => submittedJobs rest

/-! ## `src/utils/rateLimiter.js`: `RateLimiter` -/

/-- What `execute` and `getBucket` read on the value `getConfig` returns: its
properties `requestsPerSecond` and `concurrent`; `none` is `undefined`. -/
structure LimitConfig where
  requestsPerSecond : Option ℚ
  concurrent : Option Int
  deriving DecidableEq, Repr

/-- The fields of a `RateLimiter` object that `execute` uses: the maps `buckets`
and `activeRequests`, keyed by `apiName`. A bucket of `none` is one built from
undefined limits: its capacity and tokens are `NaN` and stay so. A stored count
of `none` is the number `NaN`. -/
structure RateLimiter where
  buckets : List (String × Option TokenBucket)
  activeRequests : List (String × Option Int)
  deriving DecidableEq, Repr

/-- The clock reads of one `execute` call: in the `TokenBucket` constructor when
`getBucket` creates the bucket, at the start of `bucket.consume(1)`, and, when
that call waits, of the interval refills during the wait and of its
resumption. -/
structure ExecuteClock where
  created : Int
  now : Int
  ticks : List Int := []
  wake : Int
  deriving DecidableEq, Repr

/-- The value of `this.activeRequests.get(apiName) || 0`: `undefined`, `NaN` and
`0` give `0`. -/
def countOrZero : Option (Option Int) → Int
  | some (some v) => v
  | _ => 0

/-- The value of `active - 1` for `active = this.activeRequests.get(apiName)`:
`NaN` when the entry is missing or `NaN`. -/
def countMinusOne : Option (Option Int) → Option Int
  | some (some v) => some (v - 1)
  | _ => none

namespace RateLimiter

/-- The constructor: both maps empty. -/
def new : RateLimiter :=
  { buckets := []
    activeRequests := [] }

/-- The own properties of the object `this.limits`. -/
def limits : List (String × LimitConfig) :=
  [("jsonplaceholder", { requestsPerSecond := some 10, concurrent := some 5 }),
   ("catfact", { requestsPerSecond := some 5, concurrent := some 2 }),
   ("dogapi", { requestsPerSecond := some 5, concurrent := some 2 }),
   ("randomuser", { requestsPerSecond := some 10, concurrent := some 3 }),
   ("boredapi", { requestsPerSecond := some 10, concurrent := some 3 }),
   ("default", { requestsPerSecond := some 10, concurrent := some 5 })]

/-- The entry of `limits` under the key `default`. -/
def defaultLimits : LimitConfig :=
  { requestsPerSecond := some 10
    concurrent := some 5 }

/-- A member the object `this.limits` inherits from `Object.prototype` (a
function, or the prototype itself): it is truthy and has neither a
`requestsPerSecond` nor a `concurrent` property. -/
def inheritedMember : LimitConfig :=
  { requestsPerSecond := none
    concurrent := none }

/-- The first element of `apiName.split(...)` at the hyphen: the text before the
first `-`. -/
def baseName (apiName : String) : String :=
  String.mk (apiName.data.takeWhile (fun c => c ≠ '-'))

/-- The method `getConfig(apiName)`: the read `this.limits[baseName]` gives the
own property of that name, else the member inherited under that name, which is
truthy, else `undefined`, which `||` replaces by the `default` entry. -/
def getConfig (apiName : String) : LimitConfig :=
  match limits.lookup (baseName apiName) with
  | some config => config
  | none =>
    if baseName apiName ∈ objectPrototypeNames then inheritedMember else defaultLimits

/-- The method `getBucket(apiName)`; `created` is the clock read of the
`TokenBucket` constructor. -/
def getBucket (rl : RateLimiter) (apiName : String) (created : Int) :
    Option TokenBucket × RateLimiter :=
  match mapGet rl.buckets apiName with
  | some bucket => (bucket, rl)
  | none =>
    let config := getConfig apiName
    let bucket := config.requestsPerSecond.map
      (fun rate => TokenBucket.new (roundDouble (rate * 2)) rate created)
    (bucket, { rl with buckets := mapSet rl.buckets apiName bucket })

/-- The number `execute` and `waitForConcurrencySlot` read as the active count
of `apiName`. -/
def active (rl : RateLimiter) (apiName : String) : Int :=
  countOrZero (mapGet rl.activeRequests apiName)

/-- The test `active < maxConcurrent` of
`waitForConcurrencySlot(apiName, config.concurrent)`; it is false when
`maxConcurrent` is `undefined`. -/
def slotFree (rl : RateLimiter) (apiName : String) : Bool :=
  match (getConfig apiName).concurrent with
  | some maxConcurrent => decide (rl.active apiName < maxConcurrent)
  | none => false

/-- The part of `execute` from the increment of the active count to the first
suspension of `bucket.consume(1)` (or to its end, on the immediate path); the
call mutates the bucket held by the map. -/
def begin (rl : RateLimiter) (apiName : String) (clock : ExecuteClock) : RateLimiter :=
  let active := countOrZero (mapGet rl.activeRequests apiName)
  let rl1 := { rl with activeRequests := mapSet rl.activeRequests apiName (some (active + 1)) }
  match rl1.getBucket apiName clock.created with
  | (bucket, rl2) =>
    let started := bucket.map (fun b => (b.consumeStart 1 clock.now).2)
    { rl2 with buckets := mapSet rl2.buckets apiName started }

/-- The shortage with which the `bucket.consume(1)` of `begin` is suspended;
`none` on the immediate path (and for a bucket of `NaN`, which no call
changes). -/
def beginShortage (rl : RateLimiter) (apiName : String) (clock : ExecuteClock) : Option ℚ :=
  match (rl.getBucket apiName clock.created).1 with
  | some b => (b.consumeStart 1 clock.now).1
  | none => none

/-- A call `refill()` of the interval timer of the bucket of `apiName`. -/
def tick (rl : RateLimiter) (apiName : String) (now : Int) : RateLimiter :=
  match mapGet rl.buckets apiName with
  | some bucket =>
    let refilled := bucket.map (fun b => b.refill now)
    { rl with buckets := mapSet rl.buckets apiName refilled }
  | none => rl

/-- The resumption of a suspended `bucket.consume(1)` of `apiName`. -/
def resume (rl : RateLimiter) (apiName : String) (tokensShortage : ℚ) (wake : Int) :
    RateLimiter :=
  match mapGet rl.buckets apiName with
  | some bucket =>
    let resumed := bucket.map (fun b => b.consumeResume tokensShortage wake)
    { rl with buckets := mapSet rl.buckets apiName resumed }
  | none => rl

/-- The `finally` block of `execute`. -/
def finish (rl : RateLimiter) (apiName : String) : RateLimiter :=
  let active := countMinusOne (mapGet rl.activeRequests apiName)
  { rl with activeRequests := mapSet rl.activeRequests apiName active }

/-- The limiter when `requestFn` is invoked in an `execute` call during whose
`bucket.consume(1)` nothing else runs but the interval timer. -/
def beforeRequest (rl : RateLimiter) (apiName : String) (clock : ExecuteClock) : RateLimiter :=
  match rl.beginShortage apiName clock with
  | some tokensShortage =>
    (clock.ticks.foldl (fun acc now => acc.tick apiName now) (rl.begin apiName clock)).resume
      apiName tokensShortage clock.wake
  | none => rl.begin apiName clock

/-- The method `execute(apiName, requestFn)` when nothing else runs during its
awaits; `requestFn` is the outcome of the request. `none` when the slot test
fails: the polling loop of `waitForConcurrencySlot` then repeats the same test
on the same state for ever. -/
def execute {α : Type} (rl : RateLimiter) (apiName : String) (requestFn : Except JsError α)
    (clock : ExecuteClock) : Option (Except JsError α × RateLimiter) :=
  if rl.slotFree apiName then some (requestFn, (rl.beforeRequest apiName clock).finish apiName)
  else none

end RateLimiter

/-- The state changes of the limiter, as the calls in progress see them: the
two of an `execute` call on the counts, and the interval refills and the
resumptions of suspended `consume` calls. -/
inductive RateEvent where
  | begin (apiName : String) (clock : ExecuteClock)
  | finish (apiName : String)
  | tick (apiName : String) (now : Int)
  | resume (apiName : String) (tokensShortage : ℚ) (wake : Int)
  deriving DecidableEq, Repr

namespace RateEvent

/-- The name whose active count the event changes, if any. -/
def counted : RateEvent → Option String
  | .begin name _ => some name
  | .finish name => some name
  | .tick _ _ => none
  | .resume _ _ _ => none

/-- The limiter after the event. -/
def apply (rl : RateLimiter) : RateEvent → RateLimiter
  | .begin name clock => rl.begin name clock
  | .finish name => rl.finish name
  | .tick name now => rl.tick name now
  | .resume name tokensShortage wake => rl.resume name tokensShortage wake

end RateEvent

namespace RateLimiter

/-- The limiter after a sequence of events, oldest first. -/
def run (rl : RateLimiter) (events : List RateEvent) : RateLimiter :=
  events.foldl RateEvent.apply rl

/-- The limiters `execute` calls can produce from a new one, with the number of
calls in progress per name: a call finishes only after it began. -/
inductive Reachable : RateLimiter → (String → Nat) → Prop where
  | new : Reachable RateLimiter.new (fun _ => 0)
  | begin {rl : RateLimiter} {pending : String → Nat} (apiName : String)
      (clock : ExecuteClock) :
      Reachable rl pending →
      Reachable (rl.begin apiName clock)
        (Function.update pending apiName (pending apiName + 1))
  | finish {rl : RateLimiter} {pending : String → Nat} (apiName : String) :
      Reachable rl pending → 0 < pending apiName →
      Reachable (rl.finish apiName) (Function.update pending apiName (pending apiName - 1))
  | tick {rl : RateLimiter} {pending : String → Nat} (apiName : String) (now : Int) :
      Reachable rl pending → Reachable (rl.tick apiName now) pending
  | resume {rl : RateLimiter} {pending : String → Nat} (apiName : String)
      (tokensShortage : ℚ) (wake : Int) :
      Reachable rl pending → Reachable (rl.resume apiName tokensShortage wake) pending

end RateLimiter

/-- A clock whose every read is `now`. -/
def ExecuteClock.fixed (now : Int) : ExecuteClock :=
  { created := now
    now := now
    wake := now }

namespace RateLimiter

/-- Whether every call of the run passes the slot test of `execute` on the
limiter as it is when the call begins. -/
def admitted : RateLimiter → List RateEvent → Bool
  | _, [] => true
  | rl, event :: rest =>
    (match event with
      | .begin name _ => rl.slotFree name
      | _ => true) && admitted (event.apply rl) rest

/-- Five `execute` calls for the client name `Cat Facts` that begin at clock
value `now` and end before anything else happens. -/
def batch (now : Int) : List RateEvent :=
  List.replicate 5 (.begin "Cat Facts" (ExecuteClock.fixed now)) ++
    List.replicate 5 (.finish "Cat Facts")

/-- A burst of calls for `Cat Facts`: four batches at 0, 10, 20 and 30 ms, then
two calls that begin at 40 ms and are suspended in `bucket.consume(1)`, the
interval refill at 100 ms and the resumption of the two calls at 100 ms. -/
def burstEvents : List RateEvent :=
  batch 0 ++ batch 10 ++ batch 20 ++ batch 30 ++
    [.begin "Cat Facts" (ExecuteClock.fixed 40), .begin "Cat Facts" (ExecuteClock.fixed 40),
     .tick "Cat Facts" 100,
     .resume "Cat Facts" TokenBucket.burstShortage 100,
     .resume "Cat Facts" TokenBucket.burstShortage 100]

end RateLimiter

/-- Whether `item[key] === value` holds for every entry `[key, value]` of
`Object.entries(criteria)`. -/
def matchesCriteria (criteria item : JsVal) : Bool :=
  criteria.entries.all (fun entry =>
    match item.member entry.1 with
    | .ok (some found) => found.strictEq entry.2
    | _ => false)

/-- Three records for the filter. -/
def sampleRecords : List JsVal :=
  [.obj [("source", .str "users"), ("kind", .num 1)],
   .obj [("source", .str "posts"), ("kind", .num 2)],
   .obj [("source", .str "users"), ("kind", .num 2)]]

/-- The client after a sequence of `fetch()` calls, each started when the one
before it has settled; every call comes with the outcome of its upstream request
and its clock reads. -/
def BaseAPIClient.fetchEach (generateKey : String → String → CacheKey) (cl : BaseAPIClient) :
    List (Except JsError JsVal × FetchClock) → BaseAPIClient
  | [] => cl
  | (upstream, clock) :: rest =>
    fetchEach generateKey (BaseAPIClient.fetch generateKey cl upstream clock).2 rest

/-- The client of `users` after four calls whose request was rejected with
`HTTP 500`: the breaker is one failure short of its threshold 5. -/
def usersFailingClient : BaseAPIClient :=
  BaseAPIClient.fetchEach sampleKey usersFreshClient
    (List.replicate 4 (.error { message := "HTTP 500" }, FetchClock.fixed 1000))

/-! ## `src/clients/baseApiClient.js`: the constructor -/

/-- The descriptor `config` the constructor reads; an absent property is
`none`. -/
structure ClientConfig where
  name : String
  url : String
  parser : Option (JsVal → JsVal) := none
  cacheTTL : Option Int := none

/-- A `BaseAPIClient` object with every field the constructor sets from the
descriptor: `client` holds the fields `fetch()` reads, `url` is read by
`makeRequest()`, and no method reads `parser`. -/
structure ConfiguredClient where
  client : BaseAPIClient
  url : String
  parser : JsVal → JsVal

namespace ConfiguredClient

/-- The `constructor(config)`; `cache` is the shared cache `getRequestCache()`
returns. -/
def new (config : ClientConfig) (cache : RequestCache JsVal) : ConfiguredClient :=
  { client :=
      { name := config.name
        cacheTTL := orDefaultInt config.cacheTTL 60000
        circuitBreaker := CircuitBreaker.new config.name
        cache := cache }
    url := config.url
    parser := config.parser.getD (fun data => data) }

/-- The method `fetch()` on the whole object: `url` and `parser` are neither
read nor written. -/
def fetch (generateKey : String → String → CacheKey) (cl : ConfiguredClient)
    (upstream : Except JsError JsVal) (clock : FetchClock) :
    Except JsError FetchResult × ConfiguredClient :=
  match BaseAPIClient.fetch generateKey cl.client upstream clock with
  | (result, client1) => (result, { cl with client := client1 })

end ConfiguredClient

/-- The parser of the descriptor `jsonplaceholder-users`: the first three
elements of the body under the name `users` (`undefined` stands for the raise on
a body without `slice`). -/
def usersParser : JsVal → JsVal
  | .arr items => .obj [("users", .arr (items.take 3))]
  | .str s => .obj [("users", .str (String.mk (s.data.take 3)))]
  | _ => .undefined

/-- The client of `users` with its breaker Open since time 1000 and a cache that
stored the sample payload at time 900 with the default ttl of 60000 ms. -/
def usersOpenClient : BaseAPIClient :=
  { name := "users"
    cacheTTL := 5000
    circuitBreaker := usersOpenBreaker
    cache := (RequestCache.new {}).run [.set usersKey samplePayload "users" none 900 900] }

/-! ### Helper lemmas for the breaker -/

theorem CircuitBreaker.afterEvents_append (cb : CircuitBreaker) (evs : List BreakerEvent)
    (e : BreakerEvent) :
    cb.afterEvents (evs ++ [e]) = e.apply (cb.afterEvents evs) := by
  simp [CircuitBreaker.afterEvents, List.foldl_append]

theorem consecutiveFailures_append_success (evs : List BreakerEvent) :
    consecutiveFailures (evs ++ [BreakerEvent.success]) = 0 := by
  simp [consecutiveFailures, List.takeWhile, BreakerEvent.isFailure]

theorem consecutiveFailures_append_failure (evs : List BreakerEvent) (now : Int) :
    consecutiveFailures (evs ++ [BreakerEvent.failure now]) = consecutiveFailures evs + 1 := by
  simp [consecutiveFailures, List.takeWhile, BreakerEvent.isFailure]

theorem CircuitBreaker.recordSuccess_threshold (cb : CircuitBreaker) :
    cb.recordSuccess.threshold = cb.threshold := by
  unfold CircuitBreaker.recordSuccess
  simp only
  split_ifs <;> rfl

theorem CircuitBreaker.recordFailure_threshold (cb : CircuitBreaker) (now : Int) :
    (cb.recordFailure now).threshold = cb.threshold := by
  unfold CircuitBreaker.recordFailure
  simp only
  split_ifs <;> rfl

theorem CircuitBreaker.afterEvents_threshold (cb : CircuitBreaker) (evs : List BreakerEvent) :
    (cb.afterEvents evs).threshold = cb.threshold := by
  induction evs using List.reverseRecOn with
  | nil => rfl
  | append_singleton evs e ih =>
    rw [CircuitBreaker.afterEvents_append]
    cases e with
    | success => simpa [BreakerEvent.apply, CircuitBreaker.recordSuccess_threshold] using ih
    | failure now =>
      simpa [BreakerEvent.apply, CircuitBreaker.recordFailure_threshold] using ih

/-- While every call finds the breaker `CLOSED`, the failure counter is the
number of consecutive failures, and it stays below the threshold. -/
theorem CircuitBreaker.closed_run_invariant (cb : CircuitBreaker)
    (hf : cb.failures = 0) (ht : 1 ≤ cb.threshold)
    (evs : List BreakerEvent)
    (hclosed : ∀ p, p <+: evs → (cb.afterEvents p).state = .CLOSED) :
    (cb.afterEvents evs).failures = consecutiveFailures evs ∧
      consecutiveFailures evs < cb.threshold := by
  induction evs using List.reverseRecOn with
  | nil =>
    simp [CircuitBreaker.afterEvents, consecutiveFailures, hf]
    omega
  | append_singleton evs e ih =>
    have hpre : ∀ p, p <+: evs → (cb.afterEvents p).state = .CLOSED := fun p hp =>
      hclosed p (hp.trans (List.prefix_append evs [e]))
    obtain ⟨ih1, ih2⟩ := ih hpre
    have hprev : (cb.afterEvents evs).state = .CLOSED := hpre evs (List.prefix_refl evs)
    have hlast := hclosed (evs ++ [e]) (List.prefix_refl _)
    have hthr := CircuitBreaker.afterEvents_threshold cb evs
    rw [CircuitBreaker.afterEvents_append] at hlast ⊢
    cases e with
    | success =>
      rw [consecutiveFailures_append_success]
      refine ⟨?_, by omega⟩
      simp [BreakerEvent.apply, CircuitBreaker.recordSuccess, hprev]
    | failure now =>
      rw [consecutiveFailures_append_failure]
      simp only [BreakerEvent.apply, CircuitBreaker.recordFailure, hprev, and_true, hthr, ih1]
        at hlast ⊢
      by_cases hge : consecutiveFailures evs + 1 ≥ cb.threshold
      · simp [hge] at hlast
      · simp only [hge, if_false]
        refine ⟨?_, by omega⟩
        split_ifs <;> rfl

theorem CircuitBreaker.iterate_recordSuccess_halfOpen (cb : CircuitBreaker)
    (hstate : cb.state = .HALF_OPEN) (hcount : cb.successCount = 0) (k : Nat)
    (hk : k < cb.successThreshold) :
    CircuitBreaker.recordSuccess^[k] cb = { cb with successCount := k } := by
  induction k with
  | zero =>
    cases cb
    simp only [Function.iterate_zero, id_eq] at hcount ⊢
    simp_all
  | succ n ih =>
    rw [Function.iterate_succ_apply', ih (by omega)]
    simp only [CircuitBreaker.recordSuccess, hstate, if_true]
    have hlt : ¬ (n + 1 ≥ cb.successThreshold) := by omega
    simp [hlt]

/-! ### The circuit breaker claims -/

/-- C1: a breaker with threshold at least 1 starts Closed with 0 failures and
receives the calls `evs`, each made while it is Closed (it is Closed at the start
and after every call of `evs`). Then its failure counter is the number of
consecutive failures since the last success (or the start), that number is
still below the threshold (it has not opened earlier), the next `recordFailure`
opens the breaker exactly when it brings the consecutive failures to the
threshold and leaves it Closed otherwise, and a `recordSuccess` sets the failure
counter to 0 and leaves the breaker Closed. -/
theorem CircuitBreaker.opens_exactly_at_threshold (cb : CircuitBreaker)
    (hf : cb.failures = 0) (ht : 1 ≤ cb.threshold) (evs : List BreakerEvent)
    (hclosed : ∀ i, i ≤ evs.length → (cb.afterEvents (evs.take i)).state = .CLOSED) :
    (cb.afterEvents evs).failures = consecutiveFailures evs ∧
      consecutiveFailures evs < cb.threshold ∧
      (∀ now, ((cb.afterEvents evs).recordFailure now).state = .OPEN ↔
        consecutiveFailures evs + 1 = cb.threshold) ∧
      (∀ now, ((cb.afterEvents evs).recordFailure now).state = .CLOSED ↔
        consecutiveFailures evs + 1 < cb.threshold) ∧
      (∀ now, ((cb.afterEvents evs).recordFailure now).failures =
        consecutiveFailures evs + 1) ∧
      (cb.afterEvents evs).recordSuccess.failures = 0 ∧
      (cb.afterEvents evs).recordSuccess.state = .CLOSED := by
  have hpre : ∀ p, p <+: evs → (cb.afterEvents p).state = .CLOSED := by
    intro p hp
    have := hclosed p.length hp.length_le
    rwa [← List.prefix_iff_eq_take.mp hp] at this
  obtain ⟨h1, h2⟩ := CircuitBreaker.closed_run_invariant cb hf ht evs hpre
  have hst : (cb.afterEvents evs).state = .CLOSED := hpre evs (List.prefix_refl evs)
  have hthr := CircuitBreaker.afterEvents_threshold cb evs
  refine ⟨h1, h2, ?_, ?_, ?_, ?_, ?_⟩
  · intro now
    by_cases hge : cb.threshold ≤ consecutiveFailures evs + 1
    · simp [CircuitBreaker.recordFailure, hst, hthr, h1, hge]
      omega
    · simp [CircuitBreaker.recordFailure, hst, hthr, h1, hge]
      omega
  · intro now
    by_cases hge : cb.threshold ≤ consecutiveFailures evs + 1
    · simp [CircuitBreaker.recordFailure, hst, hthr, h1, hge]
    · simp [CircuitBreaker.recordFailure, hst, hthr, h1, hge]
      omega
  · intro now
    simp only [CircuitBreaker.recordFailure, h1]
    split_ifs <;> rfl
  · simp [CircuitBreaker.recordSuccess, hst]
  · simp [CircuitBreaker.recordSuccess, hst]

/-- Witness for C1: threshold 2 and the calls failure, success, failure. -/
theorem CircuitBreaker.opens_exactly_at_threshold_witness :
    (((CircuitBreaker.new "users" { threshold := some 2 }).afterEvents
        [.failure 10, .success, .failure 20]).recordFailure 30).state = .OPEN ∧
      consecutiveFailures [.failure 10, .success, .failure 20] + 1 = 2 :=
  have h := CircuitBreaker.opens_exactly_at_threshold
    (CircuitBreaker.new "users" { threshold := some 2 }) rfl (by decide)
    [.failure 10, .success, .failure 20] (by decide)
  ⟨(h.2.2.1 30).mpr (by decide), by decide⟩

/-- C2: for every breaker and clock value, `canExecute` returns false exactly
when the state is Open and `now - lastFailureTime < timeout`, and then changes no
field; when the state is Open and `now - lastFailureTime >= timeout` it returns
true and sets the state to HalfOpen with successCount 0, every other field
unchanged; when the state is Closed or HalfOpen it returns true and changes no
field. -/
theorem CircuitBreaker.canExecute_spec (cb : CircuitBreaker) (now : Int) :
    ((cb.canExecute now).1 = false ↔
        (cb.state = .OPEN ∧ now - timeOrZero cb.lastFailureTime < cb.timeout)) ∧
      ((cb.canExecute now).1 = false → (cb.canExecute now).2 = cb) ∧
      (cb.state = .OPEN → now - timeOrZero cb.lastFailureTime ≥ cb.timeout →
        cb.canExecute now = (true, { cb with state := .HALF_OPEN, successCount := 0 })) ∧
      (cb.state = .CLOSED ∨ cb.state = .HALF_OPEN → cb.canExecute now = (true, cb)) := by
  unfold CircuitBreaker.canExecute
  refine ⟨?_, ?_, ?_, ?_⟩
  · by_cases h1 : cb.state = .CLOSED
    · simp [h1]
    · by_cases h2 : cb.state = .OPEN
      · by_cases h3 : now - timeOrZero cb.lastFailureTime ≥ cb.timeout
        · simp only [h1, h2, h3, if_true, if_false]
          simp
          omega
        · simp only [h1, h2, h3, if_true, if_false]
          simp
          omega
      · simp [h1, h2]
  · by_cases h1 : cb.state = .CLOSED
    · simp [h1]
    · by_cases h2 : cb.state = .OPEN
      · by_cases h3 : now - timeOrZero cb.lastFailureTime ≥ cb.timeout
        · simp only [h1, h2, h3, if_true, if_false]
          simp
        · simp only [h1, h2, h3, if_true, if_false]
          simp
      · simp [h1, h2]
  · intro h2 h3
    simp [h2, h3]
  · rintro (h | h)
    · simp [h]
    · simp [h]

/-- C3: for every breaker in state HalfOpen, whatever its counters, a single
`recordFailure` sets the state to Open and successCount to 0. -/
theorem CircuitBreaker.halfOpen_failure_reopens (cb : CircuitBreaker) (now : Int)
    (h : cb.state = .HALF_OPEN) :
    (cb.recordFailure now).state = .OPEN ∧ (cb.recordFailure now).successCount = 0 := by
  simp [CircuitBreaker.recordFailure, h]

/-- Witness for C3: a HalfOpen breaker with 7 failures and 1 success recorded. -/
theorem CircuitBreaker.halfOpen_failure_reopens_witness :
    ((CircuitBreaker.probing 2 1).recordFailure 200).state = .OPEN ∧
      ((CircuitBreaker.probing 2 1).recordFailure 200).successCount = 0 :=
  CircuitBreaker.halfOpen_failure_reopens (CircuitBreaker.probing 2 1) 200 rfl

/-- C4: a breaker that has just entered HalfOpen (successCount 0) with
successThreshold `s >= 1`: after `k < s` consecutive `recordSuccess` calls it is
still HalfOpen with successCount `k` (no other field changed), and the `s`-th
consecutive `recordSuccess` sets the state to Closed with failures 0 and
successCount 0. -/
theorem CircuitBreaker.halfOpen_successes_close (cb : CircuitBreaker)
    (hstate : cb.state = .HALF_OPEN) (hcount : cb.successCount = 0)
    (hs : 1 ≤ cb.successThreshold) :
    (∀ k, k < cb.successThreshold →
        CircuitBreaker.recordSuccess^[k] cb = { cb with successCount := k } ∧
        (CircuitBreaker.recordSuccess^[k] cb).state = .HALF_OPEN ∧
        (CircuitBreaker.recordSuccess^[k] cb).successCount = k) ∧
      (CircuitBreaker.recordSuccess^[cb.successThreshold] cb).state = .CLOSED ∧
      (CircuitBreaker.recordSuccess^[cb.successThreshold] cb).failures = 0 ∧
      (CircuitBreaker.recordSuccess^[cb.successThreshold] cb).successCount = 0 := by
  constructor
  · intro k hk
    rw [CircuitBreaker.iterate_recordSuccess_halfOpen cb hstate hcount k hk]
    exact ⟨rfl, hstate, rfl⟩
  · obtain ⟨n, hn⟩ : ∃ n, cb.successThreshold = n + 1 := ⟨cb.successThreshold - 1, by omega⟩
    rw [hn, Function.iterate_succ_apply',
      CircuitBreaker.iterate_recordSuccess_halfOpen cb hstate hcount n (by omega)]
    simp [CircuitBreaker.recordSuccess, hstate, hn]

/-- Witness for C4: successThreshold 3. -/
theorem CircuitBreaker.halfOpen_successes_close_witness :
    (CircuitBreaker.recordSuccess^[2] (CircuitBreaker.probing 3 0)).state = .HALF_OPEN ∧
      (CircuitBreaker.recordSuccess^[3] (CircuitBreaker.probing 3 0)).state = .CLOSED :=
  have h := CircuitBreaker.halfOpen_successes_close (CircuitBreaker.probing 3 0)
    rfl rfl (by decide)
  ⟨(h.1 2 (by decide)).2.1, h.2.1⟩

/-- C5: for every breaker state (reachable or not) and every operation
(`canExecute` at any clock value, `recordSuccess`, `recordFailure`), the state
stays the same or changes by one of Closed->Open, Open->HalfOpen,
HalfOpen->Closed, HalfOpen->Open; a direct Closed->HalfOpen or Open->Closed
change never occurs. -/
theorem CircuitBreaker.transitions_follow_table (cb : CircuitBreaker) (op : BreakerOp) :
    tableTransition cb.state (op.apply cb).state ∧
      ¬ (cb.state = .CLOSED ∧ (op.apply cb).state = .HALF_OPEN) ∧
      ¬ (cb.state = .OPEN ∧ (op.apply cb).state = .CLOSED) := by
  obtain ⟨name, state, failures, threshold, timeout, last, successThreshold, successCount⟩ := cb
  cases op with
  | canExecute now =>
    cases state
    · simp [BreakerOp.apply, CircuitBreaker.canExecute, tableTransition]
    · simp only [BreakerOp.apply, CircuitBreaker.canExecute, tableTransition]
      split_ifs <;> simp
    · simp [BreakerOp.apply, CircuitBreaker.canExecute, tableTransition]
  | recordSuccess =>
    cases state
    · simp [BreakerOp.apply, CircuitBreaker.recordSuccess, tableTransition]
    · simp [BreakerOp.apply, CircuitBreaker.recordSuccess, tableTransition]
    · simp only [BreakerOp.apply, CircuitBreaker.recordSuccess, tableTransition]
      split_ifs <;> simp
  | recordFailure now =>
    cases state
    · simp only [BreakerOp.apply, CircuitBreaker.recordFailure, tableTransition]
      split_ifs <;> simp
    · simp [BreakerOp.apply, CircuitBreaker.recordFailure, tableTransition]
    · simp [BreakerOp.apply, CircuitBreaker.recordFailure, tableTransition]

/-! ### Double-precision rounding -/

theorem scaleByPow2_eq (q : ℚ) (k : Int) : scaleByPow2 q k = q * (2 : ℚ) ^ k := by
  unfold scaleByPow2
  split_ifs with h
  · obtain ⟨n, rfl⟩ := Int.eq_ofNat_of_zero_le h
    simp
  · have hk : 0 ≤ -k := by omega
    obtain ⟨n, hn⟩ := Int.eq_ofNat_of_zero_le hk
    have hkn : k = -(n : Int) := by omega
    subst hkn
    simp [div_eq_mul_inv]

theorem halvings_spec (fuel : Nat) :
    ∀ n, n ≤ fuel → 1 ≤ n → 2 ^ halvings fuel n ≤ n ∧ n < 2 ^ (halvings fuel n + 1) := by
  induction fuel with
  | zero => intro n h1 h2; omega
  | succ f ih =>
    intro n hn h1
    unfold halvings
    split_ifs with h2
    · constructor <;> simp <;> omega
    · have hdiv : n / 2 ≤ f := by omega
      have hpos : 1 ≤ n / 2 := by omega
      obtain ⟨ha, hb⟩ := ih (n / 2) hdiv hpos
      constructor
      · rw [pow_succ]
        omega
      · rw [pow_succ]
        omega

theorem bitLog_le (n : Nat) (h : 1 ≤ n) : 2 ^ bitLog n ≤ n :=
  (halvings_spec n n le_rfl h).1

theorem lt_bitLog (n : Nat) (h : 1 ≤ n) : n < 2 ^ (bitLog n + 1) :=
  (halvings_spec n n le_rfl h).2

theorem binade_le (q : ℚ) (hq : 0 < q) : (2 : ℚ) ^ binade q ≤ q := by
  unfold binade
  simp only
  split_ifs with h
  · rw [scaleByPow2_eq, one_mul] at h
    exact h
  · have hnum : 0 < q.num := Rat.num_pos.mpr hq
    have hn1 : 1 ≤ q.num.natAbs := by omega
    have hd1 : 1 ≤ q.den := q.den_pos
    have h1 := bitLog_le q.num.natAbs hn1
    have h2 := lt_bitLog q.den hd1
    have hqeq : q = (q.num.natAbs : ℚ) / (q.den : ℚ) := by
      have : ((q.num.natAbs : Int) : ℚ) = (q.num : ℚ) := by
        rw [Int.natAbs_of_nonneg hnum.le]
      rw [← Int.cast_natCast, this]
      exact (Rat.num_div_den q).symm
    have e1 : ((2 : ℚ) ^ bitLog q.num.natAbs) ≤ (q.num.natAbs : ℚ) := by exact_mod_cast h1
    have e2 : (q.den : ℚ) < (2 : ℚ) ^ (bitLog q.den + 1) := by exact_mod_cast h2
    have hdpos : (0 : ℚ) < q.den := by exact_mod_cast hd1
    have hexp : (2 : ℚ) ^ ((bitLog q.num.natAbs : Int) - (bitLog q.den : Int) - 1) =
        (2 : ℚ) ^ bitLog q.num.natAbs / (2 : ℚ) ^ (bitLog q.den + 1) := by
      rw [sub_sub, zpow_sub₀ (by norm_num : (2 : ℚ) ≠ 0)]
      norm_cast
    rw [hexp]
    have hlt : (2 : ℚ) ^ bitLog q.num.natAbs / (2 : ℚ) ^ (bitLog q.den + 1) <
        (q.num.natAbs : ℚ) / (q.den : ℚ) := by
      rw [div_lt_div_iff₀ (by positivity) hdpos]
      calc (2 : ℚ) ^ bitLog q.num.natAbs * (q.den : ℚ)
          < (2 : ℚ) ^ bitLog q.num.natAbs * (2 : ℚ) ^ (bitLog q.den + 1) := by
            apply mul_lt_mul_of_pos_left e2 (by positivity)
        _ ≤ (q.num.natAbs : ℚ) * (2 : ℚ) ^ (bitLog q.den + 1) := by
            apply mul_le_mul_of_nonneg_right e1 (by positivity)
    rw [← hqeq] at hlt
    exact hlt.le

theorem lt_binade (q : ℚ) (hq : 0 < q) : q < (2 : ℚ) ^ (binade q + 1) := by
  unfold binade
  simp only
  split_ifs with h
  · have hnum : 0 < q.num := Rat.num_pos.mpr hq
    have hn1 : 1 ≤ q.num.natAbs := by omega
    have hd1 : 1 ≤ q.den := q.den_pos
    have h1 := lt_bitLog q.num.natAbs hn1
    have h2 := bitLog_le q.den hd1
    have hqeq : q = (q.num.natAbs : ℚ) / (q.den : ℚ) := by
      have : ((q.num.natAbs : Int) : ℚ) = (q.num : ℚ) := by
        rw [Int.natAbs_of_nonneg hnum.le]
      rw [← Int.cast_natCast, this]
      exact (Rat.num_div_den q).symm
    have e1 : (q.num.natAbs : ℚ) < (2 : ℚ) ^ (bitLog q.num.natAbs + 1) := by exact_mod_cast h1
    have e2 : (2 : ℚ) ^ bitLog q.den ≤ (q.den : ℚ) := by exact_mod_cast h2
    have hdpos : (0 : ℚ) < q.den := by exact_mod_cast hd1
    have hexp : (2 : ℚ) ^ ((bitLog q.num.natAbs : Int) - (bitLog q.den : Int) + 1) =
        (2 : ℚ) ^ (bitLog q.num.natAbs + 1) / (2 : ℚ) ^ bitLog q.den := by
      have : ((bitLog q.num.natAbs : Int) - (bitLog q.den : Int) + 1) =
          ((bitLog q.num.natAbs + 1 : Nat) : Int) - ((bitLog q.den : Nat) : Int) := by
        push_cast
        ring
      rw [this, zpow_sub₀ (by norm_num : (2 : ℚ) ≠ 0)]
      norm_cast
    rw [hexp]
    have hlt : (q.num.natAbs : ℚ) / (q.den : ℚ) <
        (2 : ℚ) ^ (bitLog q.num.natAbs + 1) / (2 : ℚ) ^ bitLog q.den := by
      rw [div_lt_div_iff₀ hdpos (by positivity)]
      calc (q.num.natAbs : ℚ) * (2 : ℚ) ^ bitLog q.den
          < (2 : ℚ) ^ (bitLog q.num.natAbs + 1) * (2 : ℚ) ^ bitLog q.den := by
            apply mul_lt_mul_of_pos_right e1 (by positivity)
        _ ≤ (2 : ℚ) ^ (bitLog q.num.natAbs + 1) * (q.den : ℚ) := by
            apply mul_le_mul_of_nonneg_left e2 (by positivity)
    rw [← hqeq] at hlt
    exact hlt
  · rw [scaleByPow2_eq, one_mul] at h
    have : (bitLog q.num.natAbs : Int) - (bitLog q.den : Int) - 1 + 1 =
        (bitLog q.num.natAbs : Int) - (bitLog q.den : Int) := by ring
    rw [this]
    exact not_le.mp h

theorem le_roundHalfEven (m : ℚ) (K : Int) (h : (K : ℚ) ≤ m) : K ≤ roundHalfEven m := by
  have hf : K ≤ ⌊m⌋ := Int.le_floor.mpr h
  unfold roundHalfEven
  split_ifs <;> omega

theorem roundHalfEven_le (m : ℚ) (K : Int) (h : m ≤ (K : ℚ)) : roundHalfEven m ≤ K := by
  have hf : ⌊m⌋ ≤ K := by
    have := Int.floor_le m
    exact_mod_cast (Int.floor_le m).trans h
  unfold roundHalfEven
  split_ifs with h1 h2 h3
  · exact hf
  · have hlt : (⌊m⌋ : ℚ) < m := by linarith
    have : (⌊m⌋ : ℚ) < (K : ℚ) := lt_of_lt_of_le hlt h
    have : ⌊m⌋ < K := by exact_mod_cast this
    omega
  · exact hf
  · have hlt : (⌊m⌋ : ℚ) < m := by
      have : m - ⌊m⌋ = 1 / 2 := le_antisymm (not_lt.mp h2) (not_lt.mp h1)
      linarith
    have : (⌊m⌋ : ℚ) < (K : ℚ) := lt_of_lt_of_le hlt h
    have : ⌊m⌋ < K := by exact_mod_cast this
    omega

theorem roundDoublePos_eq (x : ℚ) :
    roundDoublePos x =
      (roundHalfEven (x * (2 : ℚ) ^ (52 - binade x)) : ℚ) * (2 : ℚ) ^ (binade x - 52) := by
  unfold roundDoublePos
  rw [scaleByPow2_eq, scaleByPow2_eq]

/-- Rounding does not cross a natural number below `2 ^ 53`, from above. -/
theorem roundDoublePos_le_nat (x : ℚ) (hx : 0 < x) (N : Nat) (hN : N ≤ 2 ^ 53)
    (h : x ≤ (N : ℚ)) : roundDoublePos x ≤ (N : ℚ) := by
  have he := binade_le x hx
  have h2 : (0 : ℚ) < 2 := by norm_num
  have h2ne : (2 : ℚ) ≠ 0 := by norm_num
  have hN' : (N : ℚ) ≤ (2 : ℚ) ^ (53 : Int) := by
    have h53 : ((N : Nat) : ℚ) ≤ ((2 ^ 53 : Nat) : ℚ) := by exact_mod_cast hN
    have e53 : ((2 ^ 53 : Nat) : ℚ) = (2 : ℚ) ^ (53 : Int) := by norm_num
    rw [e53] at h53
    exact h53
  have hle53 : binade x ≤ 53 := by
    by_contra hc
    have hc' : (54 : Int) ≤ binade x := by omega
    have : (2 : ℚ) ^ (54 : Int) ≤ (2 : ℚ) ^ binade x :=
      zpow_le_zpow_right₀ (by norm_num) hc'
    have h3 : (2 : ℚ) ^ (53 : Int) < (2 : ℚ) ^ (54 : Int) := by norm_num
    linarith
  rw [roundDoublePos_eq]
  by_cases hcase : binade x ≤ 52
  · -- N * 2^(52 - e) is an integer
    obtain ⟨j, hj⟩ := Int.eq_ofNat_of_zero_le (by omega : 0 ≤ 52 - binade x)
    have hK : x * (2 : ℚ) ^ (52 - binade x) ≤ ((N * 2 ^ j : Nat) : Int) := by
      rw [hj]
      push_cast
      rw [zpow_natCast]
      exact mul_le_mul_of_nonneg_right h (by positivity)
    have hr := roundHalfEven_le _ _ hK
    have hr' : (roundHalfEven (x * (2 : ℚ) ^ (52 - binade x)) : ℚ) ≤ (N : ℚ) * (2 : ℚ) ^ j := by
      have : ((roundHalfEven (x * (2 : ℚ) ^ (52 - binade x)) : Int) : ℚ) ≤
          (((N * 2 ^ j : Nat) : Int) : ℚ) := by exact_mod_cast hr
      simpa using this
    have hpow : (2 : ℚ) ^ (binade x - 52) = ((2 : ℚ) ^ j)⁻¹ := by
      have : binade x - 52 = -(j : Int) := by omega
      rw [this, zpow_neg, zpow_natCast]
    rw [hpow]
    have hjpos : (0 : ℚ) < (2 : ℚ) ^ j := by positivity
    rw [← div_eq_mul_inv, div_le_iff₀ hjpos]
    exact hr'
  · have he53 : binade x = 53 := by omega
    rw [he53] at he ⊢
    have hxeq : x = (2 : ℚ) ^ (53 : Int) := le_antisymm (h.trans hN') he
    have hNeq : (N : ℚ) = (2 : ℚ) ^ (53 : Int) := le_antisymm hN' (he.trans h)
    have hK : x * (2 : ℚ) ^ ((52 : Int) - 53) ≤ ((2 ^ 52 : Nat) : Int) := by
      rw [hxeq]
      norm_num
    have hr := roundHalfEven_le _ _ hK
    have hr' : (roundHalfEven (x * (2 : ℚ) ^ ((52 : Int) - 53)) : ℚ) ≤ (2 : ℚ) ^ 52 := by
      have : ((roundHalfEven (x * (2 : ℚ) ^ ((52 : Int) - 53)) : Int) : ℚ) ≤
          (((2 ^ 52 : Nat) : Int) : ℚ) := by exact_mod_cast hr
      simpa using this
    rw [hNeq]
    have : (2 : ℚ) ^ ((53 : Int) - 52) = 2 := by norm_num
    rw [this]
    have : (2 : ℚ) ^ (53 : Int) = (2 : ℚ) ^ 52 * 2 := by norm_num
    rw [this]
    exact mul_le_mul_of_nonneg_right hr' (by norm_num)

/-- Rounding does not cross a natural number below `2 ^ 53`, from below. -/
theorem le_roundDoublePos_nat (x : ℚ) (hx : 0 < x) (N : Nat) (hN : N ≤ 2 ^ 53)
    (h : (N : ℚ) ≤ x) : (N : ℚ) ≤ roundDoublePos x := by
  have he := binade_le x hx
  have hN' : (N : ℚ) ≤ (2 : ℚ) ^ (53 : Int) := by
    have h53 : ((N : Nat) : ℚ) ≤ ((2 ^ 53 : Nat) : ℚ) := by exact_mod_cast hN
    have e53 : ((2 ^ 53 : Nat) : ℚ) = (2 : ℚ) ^ (53 : Int) := by norm_num
    rw [e53] at h53
    exact h53
  rw [roundDoublePos_eq]
  by_cases hcase : binade x ≤ 52
  · obtain ⟨j, hj⟩ := Int.eq_ofNat_of_zero_le (by omega : 0 ≤ 52 - binade x)
    have hK : (((N * 2 ^ j : Nat) : Int) : ℚ) ≤ x * (2 : ℚ) ^ (52 - binade x) := by
      rw [hj]
      push_cast
      rw [zpow_natCast]
      exact mul_le_mul_of_nonneg_right h (by positivity)
    have hr := le_roundHalfEven _ _ hK
    have hr' : (N : ℚ) * (2 : ℚ) ^ j ≤ (roundHalfEven (x * (2 : ℚ) ^ (52 - binade x)) : ℚ) := by
      have : (((N * 2 ^ j : Nat) : Int) : ℚ) ≤
          ((roundHalfEven (x * (2 : ℚ) ^ (52 - binade x)) : Int) : ℚ) := by exact_mod_cast hr
      simpa using this
    have hpow : (2 : ℚ) ^ (binade x - 52) = ((2 : ℚ) ^ j)⁻¹ := by
      have : binade x - 52 = -(j : Int) := by omega
      rw [this, zpow_neg, zpow_natCast]
    rw [hpow]
    have hjpos : (0 : ℚ) < (2 : ℚ) ^ j := by positivity
    rw [← div_eq_mul_inv, le_div_iff₀ hjpos]
    exact hr'
  · have hge : (53 : Int) ≤ binade x := by omega
    have hm : (((2 ^ 52 : Nat) : Int) : ℚ) ≤ x * (2 : ℚ) ^ (52 - binade x) := by
      have h1 : (2 : ℚ) ^ binade x * (2 : ℚ) ^ (52 - binade x) ≤ x * (2 : ℚ) ^ (52 - binade x) :=
        mul_le_mul_of_nonneg_right he (by positivity)
      have h2 : (2 : ℚ) ^ binade x * (2 : ℚ) ^ (52 - binade x) = (2 : ℚ) ^ (52 : Int) := by
        rw [← zpow_add₀ (by norm_num : (2 : ℚ) ≠ 0)]
        congr 1
        omega
      rw [h2] at h1
      have : (((2 ^ 52 : Nat) : Int) : ℚ) = (2 : ℚ) ^ (52 : Int) := by norm_num
      rw [this]
      exact h1
    have hr := le_roundHalfEven _ _ hm
    have hr' : (2 : ℚ) ^ (52 : Int) ≤ (roundHalfEven (x * (2 : ℚ) ^ (52 - binade x)) : ℚ) := by
      have : (((2 ^ 52 : Nat) : Int) : ℚ) ≤
          ((roundHalfEven (x * (2 : ℚ) ^ (52 - binade x)) : Int) : ℚ) := by exact_mod_cast hr
      have h52 : (((2 ^ 52 : Nat) : Int) : ℚ) = (2 : ℚ) ^ (52 : Int) := by norm_num
      rw [h52] at this
      exact this
    have h3 : (2 : ℚ) ^ (52 : Int) * (2 : ℚ) ^ (binade x - 52) ≤
        (roundHalfEven (x * (2 : ℚ) ^ (52 - binade x)) : ℚ) * (2 : ℚ) ^ (binade x - 52) :=
      mul_le_mul_of_nonneg_right hr' (by positivity)
    have h4 : (2 : ℚ) ^ (52 : Int) * (2 : ℚ) ^ (binade x - 52) = (2 : ℚ) ^ binade x := by
      rw [← zpow_add₀ (by norm_num : (2 : ℚ) ≠ 0)]
      congr 1
      omega
    rw [h4] at h3
    have h5 : (2 : ℚ) ^ (53 : Int) ≤ (2 : ℚ) ^ binade x :=
      zpow_le_zpow_right₀ (by norm_num) hge
    linarith

theorem roundDouble_le_nat (x : ℚ) (hx : 0 ≤ x) (N : Nat) (hN : N ≤ 2 ^ 53)
    (h : x ≤ (N : ℚ)) : roundDouble x ≤ (N : ℚ) := by
  unfold roundDouble
  split_ifs with h0 hpos
  · exact Nat.cast_nonneg N
  · exact roundDoublePos_le_nat x hpos N hN h
  · exact absurd (lt_of_le_of_ne hx (Ne.symm h0)) hpos

theorem le_roundDouble_nat (x : ℚ) (N : Nat) (hN : N ≤ 2 ^ 53)
    (h : (N : ℚ) ≤ x) : (N : ℚ) ≤ roundDouble x := by
  have hx : 0 ≤ x := (Nat.cast_nonneg N).trans h
  unfold roundDouble
  split_ifs with h0 hpos
  · rw [h0] at h
    exact h
  · exact le_roundDoublePos_nat x hpos N hN h
  · exact absurd (lt_of_le_of_ne hx (Ne.symm h0)) hpos

theorem roundDouble_nonneg (x : ℚ) (hx : 0 ≤ x) : 0 ≤ roundDouble x := by
  have := le_roundDouble_nat x 0 (by norm_num) (by simpa using hx)
  simpa using this

/-- The naturals up to `2 ^ 53` are doubles. -/
theorem roundDouble_natCast (N : Nat) (hN : N ≤ 2 ^ 53) : roundDouble (N : ℚ) = (N : ℚ) :=
  le_antisymm (roundDouble_le_nat _ (Nat.cast_nonneg N) N hN le_rfl)
    (le_roundDouble_nat _ N hN le_rfl)

/-! ### The token bucket claims -/

/-- C6, the code at the failing input: the bucket the limiter creates for the
client name `Cat Facts` (default limits: capacity 20, 10 tokens per second)
serves twenty `consume(1)` calls on the immediate path, five each at 0, 10, 20
and 30 ms, and is left with the double `0.29999999999999893`. Two more
`consume(1)` calls start at 40 ms: each finds less than one token, keeps the
shortage `0.6000000000000011` and sets a timer of 60 ms. At 100 ms the interval
refill brings the bucket just below 1 token; the first call to resume refills
(nothing is added) and deducts its shortage, the second does the same and
leaves `tokens = -0.2000000000000033`, below the range `[0, capacity]`. The
limiter admits every one of these calls (at most five are in progress at a
time) and ends with that bucket. -/
theorem TokenBucket.overlapping_consumes_go_negative :
    (RateLimiter.new.getBucket "Cat Facts" 0).1 = some TokenBucket.defaultBucket ∧
      TokenBucket.defaultBucket.capacity = 20 ∧
      TokenBucket.defaultBucket.allImmediate TokenBucket.burstTimes = true ∧
      TokenBucket.afterBurst.tokens = 168884986026393 / 562949953421312 ∧
      (TokenBucket.afterBurst.consumeStart 1 40).1 = some TokenBucket.burstShortage ∧
      ((TokenBucket.afterBurst.consumeStart 1 40).2.consumeStart 1 40).1 =
        some TokenBucket.burstShortage ∧
      ⌊TokenBucket.afterBurst.waitTime 1 40⌋ = 60 ∧
      ⌊(TokenBucket.afterBurst.consumeStart 1 40).2.waitTime 1 40⌋ = 60 ∧
      TokenBucket.burstAtWake.tokens = 4503599627370491 / 4503599627370496 ∧
      (TokenBucket.burstAtWake.consumeResume TokenBucket.burstShortage 100).tokens =
        3602879701896377 / 9007199254740992 ∧
      ((TokenBucket.burstAtWake.consumeResume TokenBucket.burstShortage 100).consumeResume
        TokenBucket.burstShortage 100).tokens = -450359962737057 / 2251799813685248 ∧
      ¬ (0 ≤ ((TokenBucket.burstAtWake.consumeResume TokenBucket.burstShortage 100).consumeResume
        TokenBucket.burstShortage 100).tokens) ∧
      RateLimiter.new.admitted RateLimiter.burstEvents = true ∧
      mapGet (RateLimiter.new.run RateLimiter.burstEvents).buckets "Cat Facts" =
        some (some ((TokenBucket.burstAtWake.consumeResume
          TokenBucket.burstShortage 100).consumeResume TokenBucket.burstShortage 100)) := by
  refine ⟨by decide!, by decide!, by decide!, by decide!, by decide!, by decide!, by decide!,
    by decide!, by decide!, by decide!, by decide!, by decide!, by decide!, by decide!⟩

/-- C7, the code at the failing input: the drained `catfact` bucket holds 0
tokens; a `consume(1)` started at 100 ms finds 1/2 token, waits the 100 ms it
computes, resumes at 200 ms where the refilled level is 1, and leaves 1/2 token:
it deducted the shortage 1/2, not the 1 token asked for (level minus n is 0). -/
theorem TokenBucket.consume_waiting_deducts_shortage :
    TokenBucket.drained.tokens = 0 ∧
      TokenBucket.drained.immediate 1 100 = false ∧
      TokenBucket.drained.waitTime 1 100 = 100 ∧
      (TokenBucket.drained.refill 200).tokens = 1 ∧
      (TokenBucket.drained.consume 1 100 [] 200).tokens = 1 / 2 ∧
      (TokenBucket.drained.consume 1 100 [] 200).tokens ≠
        (TokenBucket.drained.refill 200).tokens - 1 := by
  decide!

/-- Counterexample to C8 as stated: the bucket the limiter creates for the
default limits (capacity 20, 10 tokens per second, created at 0) holds 18 tokens
after two `consume(1)` calls at 0. Refilled by the interval at 100 ms and by a
call at 176 ms it holds the double `19.76`; a single refill at 176 ms gives the
next double below, `19.759999999999998`. The `lastRefill` values agree. -/
theorem TokenBucket.refill_twice_rounds_differently :
    (TokenBucket.defaultBucket.startAll [0, 0]).tokens = 18 ∧
      (TokenBucket.defaultBucket.startAll [0, 0]).tokens ≤
        (TokenBucket.defaultBucket.startAll [0, 0]).capacity ∧
      (TokenBucket.defaultBucket.startAll [0, 0]).lastRefill = 0 ∧
      (((TokenBucket.defaultBucket.startAll [0, 0]).refill 100).refill 176).tokens =
        5561945539802563 / 281474976710656 ∧
      ((TokenBucket.defaultBucket.startAll [0, 0]).refill 176).tokens =
        2780972769901281 / 140737488355328 ∧
      (((TokenBucket.defaultBucket.startAll [0, 0]).refill 100).refill 176).tokens ≠
        ((TokenBucket.defaultBucket.startAll [0, 0]).refill 176).tokens ∧
      (((TokenBucket.defaultBucket.startAll [0, 0]).refill 100).refill 176).lastRefill =
        ((TokenBucket.defaultBucket.startAll [0, 0]).refill 176).lastRefill := by
  refine ⟨by decide!, by decide!, by decide!, by decide!, by decide!, by decide!, by decide!⟩

/-- C8, as amended: for every bucket with refillRate >= 0 and clock values
`t1 <= t2`, `refill` at `t1` and then at `t2` leaves the same `lastRefill`,
capacity and rate as a single `refill` at `t2`; it leaves the same `tokens`
too whenever none of the divisions, products and sums of the three `refill`
calls is rounded. -/
theorem TokenBucket.refill_is_lazy (b : TokenBucket) (t1 t2 : Int)
    (hrate : 0 ≤ b.refillRate) (h12 : t1 ≤ t2) :
    ((b.refill t1).refill t2).lastRefill = (b.refill t2).lastRefill ∧
      ((b.refill t1).refill t2).capacity = (b.refill t2).capacity ∧
      ((b.refill t1).refill t2).refillRate = (b.refill t2).refillRate ∧
      (b.refillIsExact t1 → (b.refill t1).refillIsExact t2 → b.refillIsExact t2 →
        (b.refill t1).refill t2 = b.refill t2) := by
  refine ⟨rfl, rfl, rfl, ?_⟩
  intro h1 h2 h3
  obtain ⟨cap, tok, rate, last⟩ := b
  simp only at hrate
  obtain ⟨h1a, h1b, h1c⟩ := h1
  obtain ⟨h3a, h3b, h3c⟩ := h3
  simp only at h1a h1b h1c h3a h3b h3c
  simp only [TokenBucket.refillIsExact, TokenBucket.refill, h1a, h1b, h1c] at h2
  obtain ⟨h2a, h2b, h2c⟩ := h2
  simp only [TokenBucket.refill, h1a, h1b, h1c, h2a, h2b, h2c, h3a, h3b, h3c,
    TokenBucket.mk.injEq, and_true, true_and]
  have hb : 0 ≤ ((t2 - t1 : Int) : ℚ) / 1000 * rate := by
    have : (0 : ℚ) ≤ ((t2 - t1 : Int) : ℚ) := by exact_mod_cast sub_nonneg.mpr h12
    positivity
  have hsum : ((t2 - last : Int) : ℚ) / 1000 * rate =
      ((t1 - last : Int) : ℚ) / 1000 * rate + ((t2 - t1 : Int) : ℚ) / 1000 * rate := by
    push_cast
    ring
  rw [hsum]
  rcases le_total (tok + ((t1 - last : Int) : ℚ) / 1000 * rate) cap with h | h
  · rw [min_eq_right h, add_assoc]
  · rw [min_eq_left h, min_eq_left (by linarith), min_eq_left (by linarith)]

/-- Witness for C8 as amended: the default bucket after five `consume(1)` calls
at 0 holds 15 tokens; refilled at 125 ms (16.25 tokens) and at 375 ms it holds
18.75 tokens, below its capacity 20, as after a single refill at 375 ms. -/
theorem TokenBucket.refill_is_lazy_witness :
    ((TokenBucket.defaultBucket.startAll [0, 0, 0, 0, 0]).refill 125).refill 375 =
        (TokenBucket.defaultBucket.startAll [0, 0, 0, 0, 0]).refill 375 ∧
      ((TokenBucket.defaultBucket.startAll [0, 0, 0, 0, 0]).refill 125).tokens = 65 / 4 ∧
      ((TokenBucket.defaultBucket.startAll [0, 0, 0, 0, 0]).refill 375).tokens = 75 / 4 :=
  ⟨(TokenBucket.refill_is_lazy (TokenBucket.defaultBucket.startAll [0, 0, 0, 0, 0]) 125 375
      (by decide!) (by decide)).2.2.2
      (by unfold TokenBucket.refillIsExact; decide!)
      (by unfold TokenBucket.refillIsExact; decide!)
      (by unfold TokenBucket.refillIsExact; decide!), by decide!, by decide!⟩

/-! ### Helper lemmas for the request cache -/

section MapLemmas

variable {β : Type}

theorem mapGet_mapDelete_self (m : List (CacheKey × β)) (k : CacheKey) :
    mapGet (mapDelete m k) k = none := by
  induction m with
  | nil => rfl
  | cons p m ih =>
    obtain ⟨a, b⟩ := p
    by_cases h : a = k
    · simpa [mapGet, mapDelete, h] using ih
    · have hk : (k == a) = false := by simpa using fun e : k = a => h e.symm
      simpa [mapGet, mapDelete, h, List.lookup_cons, hk] using ih

theorem mapGet_mapDelete_ne (m : List (CacheKey × β)) (k w : CacheKey) (h : w ≠ k) :
    mapGet (mapDelete m k) w = mapGet m w := by
  induction m with
  | nil => rfl
  | cons p m ih =>
    obtain ⟨a, b⟩ := p
    by_cases ha : a = k
    · have hw : (w == k) = false := by simpa using h
      simpa [mapGet, mapDelete, ha, List.lookup_cons, hw] using ih
    · by_cases hwa : w = a
      · simp [mapGet, mapDelete, ha, List.lookup_cons, hwa]
      · have hw : (w == a) = false := by simpa using hwa
        simpa [mapGet, mapDelete, ha, List.lookup_cons, hw] using ih

theorem mapGet_eq_none_of_not_mem (m : List (CacheKey × β)) (k : CacheKey)
    (h : k ∉ m.map Prod.fst) : mapGet m k = none := by
  induction m with
  | nil => rfl
  | cons p m ih =>
    obtain ⟨a, b⟩ := p
    simp only [List.map_cons, List.mem_cons, not_or] at h
    have hk : (k == a) = false := by simpa using h.1
    simpa [mapGet, List.lookup_cons, hk] using ih h.2

theorem mem_keys_of_mapGet (m : List (CacheKey × β)) (k : CacheKey) (v : β)
    (h : mapGet m k = some v) : k ∈ m.map Prod.fst := by
  by_contra hk
  rw [mapGet_eq_none_of_not_mem m k hk] at h
  cases h

theorem mapGet_append_singleton (m : List (CacheKey × β)) (k w : CacheKey) (v : β) :
    mapGet (m ++ [(k, v)]) w = (mapGet m w).orElse (fun _ => if w = k then some v else none) := by
  induction m with
  | nil =>
    by_cases h : w = k
    · simp [mapGet, List.lookup_cons, h]
    · have hw : (w == k) = false := by simpa using h
      simp [mapGet, List.lookup_cons, hw, h]
  | cons p m ih =>
    obtain ⟨a, b⟩ := p
    by_cases h : w = a
    · simp [mapGet, List.lookup_cons, h]
    · have hw : (w == a) = false := by simpa using h
      simpa [mapGet, List.lookup_cons, hw] using ih

theorem mapGet_mapSet_self (m : List (CacheKey × β)) (k : CacheKey) (v : β) :
    mapGet (mapSet m k v) k = some v := by
  unfold mapSet
  split_ifs with hin
  · induction m with
    | nil => simp at hin
    | cons p m ih =>
      obtain ⟨a, b⟩ := p
      by_cases h : a = k
      · simp [mapGet, List.lookup_cons, h]
      · have hk : (k == a) = false := by simpa using fun e : k = a => h e.symm
        have hin2 : k ∈ m.map Prod.fst := by
          simp only [List.map_cons, List.mem_cons] at hin
          rcases hin with e | e
          · exact absurd e.symm h
          · exact e
        simpa [mapGet, List.lookup_cons, h, hk] using ih hin2
  · rw [mapGet_append_singleton, mapGet_eq_none_of_not_mem m k hin]
    simp

theorem mapGet_mapSet_ne (m : List (CacheKey × β)) (k w : CacheKey) (v : β) (h : w ≠ k) :
    mapGet (mapSet m k v) w = mapGet m w := by
  unfold mapSet
  split_ifs with hin
  · clear hin
    induction m with
    | nil => rfl
    | cons p m ih =>
      obtain ⟨a, b⟩ := p
      by_cases ha : a = k
      · have hw : (w == k) = false := by simpa using h
        simpa [mapGet, List.lookup_cons, ha, hw] using ih
      · by_cases hwa : w = a
        · simp [mapGet, List.lookup_cons, ha, hwa]
        · have hw : (w == a) = false := by simpa using hwa
          simpa [mapGet, List.lookup_cons, ha, hw] using ih
  · rw [mapGet_append_singleton]
    simp [h]

theorem keys_mapDelete (m : List (CacheKey × β)) (k : CacheKey) :
    (mapDelete m k).map Prod.fst = (m.map Prod.fst).filter (fun x => decide (x ≠ k)) := by
  induction m with
  | nil => rfl
  | cons p m ih =>
    obtain ⟨a, b⟩ := p
    by_cases h : a = k
    · simpa [mapDelete, h] using ih
    · simpa [mapDelete, h] using ih

theorem keys_mapSet (m : List (CacheKey × β)) (k : CacheKey) (v : β) :
    (mapSet m k v).map Prod.fst =
      if k ∈ m.map Prod.fst then m.map Prod.fst else m.map Prod.fst ++ [k] := by
  unfold mapSet
  split_ifs with hin
  · clear hin
    induction m with
    | nil => rfl
    | cons p m ih =>
      obtain ⟨a, b⟩ := p
      by_cases h : a = k
      · simpa [h] using ih
      · simpa [h] using ih
  · simp

end MapLemmas

namespace RequestCache

variable {α : Type}

theorem deleteKey_accessOrder (c : RequestCache α) (k : CacheKey) :
    (c.deleteKey k).accessOrder = c.accessOrder.erase k := rfl

theorem deleteKey_keys (c : RequestCache α) (k : CacheKey) :
    (c.deleteKey k).keys = c.keys.filter (fun x => decide (x ≠ k)) :=
  keys_mapDelete c.cache k

theorem deleteKey_maxSize (c : RequestCache α) (k : CacheKey) :
    (c.deleteKey k).maxSize = c.maxSize := rfl

theorem evictLRU_eq_deleteKey (c : RequestCache α) (h : CacheKey) (t : List CacheKey)
    (hao : c.accessOrder = h :: t) : c.evictLRU = c.deleteKey h := by
  obtain ⟨ms, ttl, cache, ao⟩ := c
  simp only at hao
  subst hao
  simp [evictLRU, deleteKey, removeFromAccessOrder]

theorem evictLRU_accessOrder (c : RequestCache α) :
    c.evictLRU.accessOrder = c.accessOrder.tail := by
  unfold evictLRU
  split <;> simp_all

theorem evictLRU_maxSize (c : RequestCache α) : c.evictLRU.maxSize = c.maxSize := by
  unfold evictLRU
  split <;> rfl

theorem Synced.deleteKey {c : RequestCache α} (hs : c.Synced) (k : CacheKey) :
    (c.deleteKey k).Synced := by
  obtain ⟨h1, h2, h3⟩ := hs
  refine ⟨?_, ?_, ?_⟩
  · rw [deleteKey_accessOrder]
    exact h1.erase k
  · rw [deleteKey_keys]
    exact h2.filter _
  · intro x
    rw [deleteKey_accessOrder, deleteKey_keys, h1.mem_erase_iff, List.mem_filter, h3 x]
    simp [and_comm]

theorem Synced.evictLRU {c : RequestCache α} (hs : c.Synced) : c.evictLRU.Synced := by
  cases hao : c.accessOrder with
  | nil =>
    have : c.evictLRU = c := by
      unfold RequestCache.evictLRU
      simp [hao]
    rw [this]
    exact hs
  | cons h t =>
    rw [evictLRU_eq_deleteKey c h t hao]
    exact hs.deleteKey h

/-- The second half of `set`: store the entry, then move the key to the most
recent end. -/
theorem Synced.store {c : RequestCache α} (hs : c.Synced) (k : CacheKey)
    (e : CacheEntry α) :
    (({ c with cache := mapSet c.cache k e } : RequestCache α).updateAccessOrder k).Synced := by
  obtain ⟨h1, h2, h3⟩ := hs
  have hkeys : (({ c with cache := mapSet c.cache k e } : RequestCache α).updateAccessOrder k).keys
      = if k ∈ c.keys then c.keys else c.keys ++ [k] := keys_mapSet c.cache k e
  have hao : (({ c with cache := mapSet c.cache k e } : RequestCache α).updateAccessOrder k).accessOrder
      = c.accessOrder.erase k ++ [k] := rfl
  refine ⟨?_, ?_, ?_⟩
  · rw [hao]
    refine List.Nodup.append (h1.erase k) (List.nodup_singleton k) ?_
    intro x hx hx2
    rw [List.mem_singleton] at hx2
    subst hx2
    exact (h1.not_mem_erase) hx
  · rw [hkeys]
    split_ifs with hin
    · exact h2
    · refine List.Nodup.append h2 (List.nodup_singleton k) ?_
      intro x hx hx2
      rw [List.mem_singleton] at hx2
      subst hx2
      exact hin hx
  · intro x
    rw [hao, hkeys, List.mem_append, h1.mem_erase_iff, List.mem_singleton, h3 x]
    split_ifs with hin
    · by_cases hx : x = k
      · simp [hx, hin]
      · simp [hx]
    · by_cases hx : x = k
      · simp [hx]
      · simp [hx]

theorem Synced.touch {c : RequestCache α} (hs : c.Synced) (k : CacheKey) (hk : k ∈ c.keys) :
    (c.updateAccessOrder k).Synced := by
  obtain ⟨h1, h2, h3⟩ := hs
  have hao : (c.updateAccessOrder k).accessOrder = c.accessOrder.erase k ++ [k] := rfl
  refine ⟨?_, h2, ?_⟩
  · rw [hao]
    refine List.Nodup.append (h1.erase k) (List.nodup_singleton k) ?_
    intro x hx hx2
    rw [List.mem_singleton] at hx2
    subst hx2
    exact (h1.not_mem_erase) hx
  · intro x
    have hkeys : (c.updateAccessOrder k).keys = c.keys := rfl
    rw [hao, hkeys, List.mem_append, h1.mem_erase_iff, List.mem_singleton, h3 x]
    by_cases hx : x = k
    · simp [hx, hk]
    · simp [hx]

theorem Synced.set {c : RequestCache α} (hs : c.Synced) (k : CacheKey) (v : α)
    (owner : String) (ttl : Option Int) (t1 t2 : Int) :
    (c.set k v owner ttl t1 t2).Synced := by
  unfold RequestCache.set
  simp only
  split_ifs
  · exact hs.evictLRU.store k _
  · exact hs.store k _

theorem Synced.get {c : RequestCache α} (hs : c.Synced) (k : CacheKey) (now : Int) :
    (c.get k now).2.Synced := by
  unfold RequestCache.get
  cases hget : mapGet c.cache k with
  | none => exact hs
  | some entry =>
    simp only
    split_ifs
    · exact hs.deleteKey k
    · exact hs.touch k (mem_keys_of_mapGet c.cache k entry hget)

/-- A property that every `deleteKey` keeps is kept by the loops of `cleanup`
and `invalidate`. -/
theorem foldl_deleteKey_preserves (P : RequestCache α → Prop)
    (hP : ∀ acc k, P acc → P (acc.deleteKey k))
    (cond : CacheKey × CacheEntry α → Prop) [DecidablePred cond]
    (l : List (CacheKey × CacheEntry α)) :
    ∀ c : RequestCache α, P c →
      P (l.foldl (fun acc p => if cond p then acc.deleteKey p.1 else acc) c) := by
  induction l with
  | nil => intro c hc; exact hc
  | cons p l ih =>
    intro c hc
    rw [List.foldl_cons]
    apply ih
    split_ifs
    · exact hP c p.1 hc
    · exact hc

theorem cleanup_preserves (P : RequestCache α → Prop)
    (hP : ∀ acc k, P acc → P (acc.deleteKey k)) (c : RequestCache α) (now : Int)
    (hc : P c) : P (c.cleanup now) :=
  foldl_deleteKey_preserves P hP (fun p => now > p.2.expiresAt) c.cache c hc

theorem invalidate_preserves (P : RequestCache α → Prop)
    (hP : ∀ acc k, P acc → P (acc.deleteKey k)) (c : RequestCache α) (apiName : String)
    (hc : P c) : P (c.invalidate apiName) :=
  foldl_deleteKey_preserves P hP (fun p => p.2.apiName = apiName) c.cache c hc

theorem Synced.apply {c : RequestCache α} (hs : c.Synced) (op : CacheOp α) :
    (op.apply c).Synced := by
  cases op with
  | set k v owner ttl t1 t2 => exact hs.set k v owner ttl t1 t2
  | get k now => exact hs.get k now
  | invalidate apiName =>
    exact invalidate_preserves Synced (fun _ k h => h.deleteKey k) c apiName hs
  | cleanup now => exact cleanup_preserves Synced (fun _ k h => h.deleteKey k) c now hs
  | clear => exact ⟨List.nodup_nil, List.nodup_nil, fun _ => Iff.rfl⟩
  | evictLRU => exact hs.evictLRU

theorem run_append (c : RequestCache α) (ops : List (CacheOp α)) (op : CacheOp α) :
    c.run (ops ++ [op]) = op.apply (c.run ops) := by
  simp [run, List.foldl_append]

theorem Synced.run {c : RequestCache α} (hs : c.Synced) (ops : List (CacheOp α)) :
    (c.run ops).Synced := by
  induction ops using List.reverseRecOn with
  | nil => exact hs
  | append_singleton ops op ih =>
    rw [run_append]
    exact ih.apply op

theorem synced_new (options : RequestCacheOptions) :
    (RequestCache.new options : RequestCache α).Synced :=
  ⟨List.nodup_nil, List.nodup_nil, fun _ => Iff.rfl⟩

theorem Reachable.synced {c : RequestCache α} (h : c.Reachable) : c.Synced := by
  obtain ⟨options, ops, rfl⟩ := h
  exact (synced_new options).run ops

theorem apply_maxSize (c : RequestCache α) (op : CacheOp α) :
    (op.apply c).maxSize = c.maxSize := by
  cases op with
  | set k v owner ttl t1 t2 =>
    simp only [CacheOp.apply, RequestCache.set]
    split_ifs
    · exact evictLRU_maxSize c
    · rfl
  | get k now =>
    simp only [CacheOp.apply, RequestCache.get]
    split
    · rfl
    · split_ifs <;> rfl
  | invalidate apiName =>
    exact invalidate_preserves (fun x => x.maxSize = c.maxSize) (fun _ _ h => h) c apiName rfl
  | cleanup now =>
    exact cleanup_preserves (fun x => x.maxSize = c.maxSize) (fun _ _ h => h) c now rfl
  | clear => rfl
  | evictLRU => exact evictLRU_maxSize c

theorem run_maxSize (c : RequestCache α) (ops : List (CacheOp α)) :
    (c.run ops).maxSize = c.maxSize := by
  induction ops using List.reverseRecOn with
  | nil => rfl
  | append_singleton ops op ih => rw [run_append, apply_maxSize, ih]

theorem new_maxSize_ne_zero (options : RequestCacheOptions) :
    (RequestCache.new options : RequestCache α).maxSize ≠ 0 := by
  obtain ⟨ms, ttl⟩ := options
  cases ms with
  | none => simp [RequestCache.new, orDefaultInt]
  | some v =>
    simp only [RequestCache.new, orDefaultInt]
    split_ifs with h
    · decide
    · exact h

end RequestCache

namespace RequestCache

variable {α : Type}

theorem lastTouch_append (c0 : RequestCache α) (ops : List (CacheOp α)) (op : CacheOp α)
    (k : CacheKey) :
    lastTouch c0 (ops ++ [op]) k =
      if op.touches (c0.run ops) = some k then ops.length + 1 else lastTouch c0 ops k := by
  simp [lastTouch, lastTouchRev, List.reverse_append]

theorem lastTouch_le (c0 : RequestCache α) (ops : List (CacheOp α)) (k : CacheKey) :
    lastTouch c0 ops k ≤ ops.length := by
  induction ops using List.reverseRecOn with
  | nil => simp [lastTouch, lastTouchRev]
  | append_singleton ops op ih =>
    rw [lastTouch_append, List.length_append, List.length_singleton]
    split_ifs
    · exact le_rfl
    · omega

theorem set_accessOrder (c : RequestCache α) (k : CacheKey) (v : α) (owner : String)
    (ttl : Option Int) (t1 t2 : Int) :
    (c.set k v owner ttl t1 t2).accessOrder =
      (if (c.cache.length : Int) ≥ c.maxSize then c.accessOrder.tail else c.accessOrder).erase k
        ++ [k] := by
  unfold RequestCache.set
  simp only
  split_ifs
  · show c.evictLRU.accessOrder.erase k ++ [k] = _
    rw [evictLRU_accessOrder]
  · rfl

/-- What one call does to the recency list: either it sets or reads no key and
leaves a sublist, or it puts the key it touched last, after a sublist without
that key. -/
theorem accessOrder_shape (c : RequestCache α) (hn : c.accessOrder.Nodup) (op : CacheOp α) :
    (op.touches c = none ∧ (op.apply c).accessOrder.Sublist c.accessOrder) ∨
      (∃ k l, op.touches c = some k ∧ (op.apply c).accessOrder = l ++ [k] ∧
        l.Sublist c.accessOrder ∧ k ∉ l) := by
  cases op with
  | set k v owner ttl t1 t2 =>
    right
    refine ⟨k, _, rfl, set_accessOrder c k v owner ttl t1 t2, ?_, ?_⟩
    · split_ifs
      · exact (List.erase_sublist _ _).trans (List.tail_sublist _)
      · exact List.erase_sublist _ _
    · split_ifs
      · exact (hn.sublist (List.tail_sublist _)).not_mem_erase
      · exact hn.not_mem_erase
  | get k now =>
    cases hget : mapGet c.cache k with
    | none =>
      left
      simp only [CacheOp.touches, CacheOp.apply, RequestCache.get, hget]
      exact ⟨by simp, List.Sublist.refl _⟩
    | some entry =>
      simp only [CacheOp.touches, CacheOp.apply, RequestCache.get, hget]
      by_cases hexp : now > entry.expiresAt
      · left
        simp only [hexp, if_true]
        exact ⟨by simp, List.erase_sublist _ _⟩
      · right
        simp only [hexp, if_false]
        exact ⟨k, c.accessOrder.erase k, by simp, rfl, List.erase_sublist _ _, hn.not_mem_erase⟩
  | invalidate apiName =>
    left
    refine ⟨rfl, ?_⟩
    exact invalidate_preserves (fun x => x.accessOrder.Sublist c.accessOrder)
      (fun _ k h => (List.erase_sublist _ _).trans h) c apiName (List.Sublist.refl _)
  | cleanup now =>
    left
    refine ⟨rfl, ?_⟩
    exact cleanup_preserves (fun x => x.accessOrder.Sublist c.accessOrder)
      (fun _ k h => (List.erase_sublist _ _).trans h) c now (List.Sublist.refl _)
  | clear =>
    left
    exact ⟨rfl, List.nil_sublist _⟩
  | evictLRU =>
    left
    refine ⟨rfl, ?_⟩
    show c.evictLRU.accessOrder.Sublist c.accessOrder
    rw [evictLRU_accessOrder]
    exact List.tail_sublist _

/-- Along every history from a synced cache with an empty recency list, the
recency list is ordered by the position of the last set or successful get, and
every key in it has been set or read. -/
theorem history_ordered (c0 : RequestCache α) (hs : c0.Synced) (h0 : c0.accessOrder = [])
    (ops : List (CacheOp α)) :
    (c0.run ops).accessOrder.Pairwise (fun a b => lastTouch c0 ops a < lastTouch c0 ops b) ∧
      ∀ k ∈ (c0.run ops).accessOrder, 0 < lastTouch c0 ops k := by
  induction ops using List.reverseRecOn with
  | nil => simp [run, h0]
  | append_singleton ops op ih =>
    obtain ⟨ihp, ihpos⟩ := ih
    have hn : (c0.run ops).accessOrder.Nodup := (hs.run ops).1
    rw [run_append]
    rcases accessOrder_shape (c0.run ops) hn op with ⟨hnone, hsub⟩ | ⟨k, l, hsome, hao, hsub, hk⟩
    · have hstamp : ∀ x, lastTouch c0 (ops ++ [op]) x = lastTouch c0 ops x := by
        intro x
        rw [lastTouch_append, hnone]
        simp
      constructor
      · refine (ihp.sublist hsub).imp ?_
        intro a b hab
        rw [hstamp a, hstamp b]
        exact hab
      · intro x hx
        rw [hstamp x]
        exact ihpos x (hsub.subset hx)
    · have hstamp : ∀ x, x ≠ k → lastTouch c0 (ops ++ [op]) x = lastTouch c0 ops x := by
        intro x hx
        rw [lastTouch_append, hsome]
        simp [Ne.symm hx]
      have hstampk : lastTouch c0 (ops ++ [op]) k = ops.length + 1 := by
        rw [lastTouch_append, hsome]
        simp
      have hne : ∀ x ∈ l, x ≠ k := fun x hx e => hk (e ▸ hx)
      rw [hao]
      constructor
      · rw [List.pairwise_append]
        refine ⟨?_, List.pairwise_singleton _ _, ?_⟩
        · refine (ihp.sublist hsub).imp_of_mem ?_
          intro a b ha hb hab
          rw [hstamp a (hne a ha), hstamp b (hne b hb)]
          exact hab
        · intro a ha b hb
          rw [List.mem_singleton] at hb
          subst hb
          rw [hstamp a (hne a ha), hstampk]
          exact Nat.lt_succ_of_le (lastTouch_le c0 ops a)
      · intro x hx
        rw [List.mem_append, List.mem_singleton] at hx
        rcases hx with hx | hx
        · rw [hstamp x (hne x hx)]
          exact ihpos x (hsub.subset hx)
        · subst hx
          rw [hstampk]
          exact Nat.succ_pos _

end RequestCache

/-! ### The request cache claims -/

/-- C9: for every reachable cache state (a full cache included), key `k`,
payload `v` and ttl: after `set(k, v, owner, ttl)` whose expiry clock read is
`t0`, a `get(k)` at time `t` with no call in between returns `v` when
`t <= t0 + ttl`; when `t > t0 + ttl` it returns a miss and leaves `k` neither in
the entry map nor in the recency list. The sign of `ttl` plays no role. -/
theorem RequestCache.get_after_set {α : Type} (c : RequestCache α) (hreach : c.Reachable)
    (k : CacheKey) (v : α) (owner : String) (ttl tc t0 t : Int) :
    (t ≤ t0 + ttl → ((c.set k v owner (some ttl) tc t0).get k t).1 = some v) ∧
      (t > t0 + ttl →
        ((c.set k v owner (some ttl) tc t0).get k t).1 = none ∧
        mapGet ((c.set k v owner (some ttl) tc t0).get k t).2.cache k = none ∧
        k ∉ ((c.set k v owner (some ttl) tc t0).get k t).2.keys ∧
        k ∉ ((c.set k v owner (some ttl) tc t0).get k t).2.accessOrder) := by
  have hsync : (c.set k v owner (some ttl) tc t0).Synced :=
    hreach.synced.set k v owner (some ttl) tc t0
  have hentry : mapGet (c.set k v owner (some ttl) tc t0).cache k =
      some { key := k, apiName := owner, data := v, createdAt := tc, expiresAt := t0 + ttl,
             hits := 0 } := by
    unfold RequestCache.set
    exact mapGet_mapSet_self _ k _
  constructor
  · intro ht
    have hnot : ¬ (t > t0 + ttl) := not_lt.mpr ht
    simp only [RequestCache.get, hentry, hnot, if_false]
  · intro ht
    simp only [RequestCache.get, hentry, ht, if_true, true_and]
    refine ⟨mapGet_mapDelete_self _ k, ?_, ?_⟩
    · rw [RequestCache.deleteKey_keys]
      simp
    · rw [RequestCache.deleteKey_accessOrder]
      exact hsync.1.not_mem_erase

/-- Witness for C9: a cache of size 1 already holding another key. -/
theorem RequestCache.get_after_set_witness :
    (((((RequestCache.new { maxSize := some 1 } : RequestCache String).run
        [.set "k1" "old" "users" none 0 0]).set "k2" "v" "posts" (some 50) 10 10).get "k2" 60).1
        = some "v") ∧
      (((((RequestCache.new { maxSize := some 1 } : RequestCache String).run
        [.set "k1" "old" "users" none 0 0]).set "k2" "v" "posts" (some 50) 10 10).get "k2" 61).1
        = none) :=
  have h := RequestCache.get_after_set
    ((RequestCache.new { maxSize := some 1 } : RequestCache String).run
      [.set "k1" "old" "users" none 0 0])
    ⟨{ maxSize := some 1 }, [.set "k1" "old" "users" none 0 0], rfl⟩
    "k2" "v" "posts" 50 10 10
  ⟨(h 60).1 (by decide), ((h 61).2 (by decide)).1⟩

/-- C10: a cache reached from construction by any sequence of calls (`set` and
`get`, and also `invalidate`, `cleanup`, `clear`, `evictLRU`) holds exactly
`maxSize` entries; `set` of a key `k` not yet present then removes exactly one
entry `lru`, the one whose most recent set or successful get is older than that
of every other entry, keeps every other entry unchanged, and holds `k` with the
new entry; the number of entries is unchanged. -/
theorem RequestCache.set_evicts_least_recent {α : Type} (options : RequestCacheOptions)
    (ops : List (CacheOp α)) (c : RequestCache α)
    (hc : c = (RequestCache.new options).run ops)
    (hfull : (c.cache.length : Int) = c.maxSize)
    (k : CacheKey) (hnew : k ∉ c.keys)
    (v : α) (owner : String) (ttl : Option Int) (t1 t2 : Int) :
    ∃ lru, lru ∈ c.keys ∧
      0 < RequestCache.lastTouch (RequestCache.new options) ops lru ∧
      (∀ w ∈ c.keys, w ≠ lru →
        RequestCache.lastTouch (RequestCache.new options) ops lru <
          RequestCache.lastTouch (RequestCache.new options) ops w) ∧
      mapGet (c.set k v owner ttl t1 t2).cache lru = none ∧
      (∀ w, w ∈ (c.set k v owner ttl t1 t2).keys ↔ (w = k ∨ (w ∈ c.keys ∧ w ≠ lru))) ∧
      (∀ w, w ≠ lru → w ≠ k →
        mapGet (c.set k v owner ttl t1 t2).cache w = mapGet c.cache w) ∧
      mapGet (c.set k v owner ttl t1 t2).cache k =
        some { key := k, apiName := owner, data := v, createdAt := t1,
               expiresAt := t2 + ttl.getD c.defaultTTL, hits := 0 } ∧
      (c.set k v owner ttl t1 t2).cache.length = c.cache.length := by
  have hsync : c.Synced := hc ▸ (RequestCache.synced_new options).run ops
  obtain ⟨hord, hpos⟩ := RequestCache.history_ordered (RequestCache.new options : RequestCache α)
    (RequestCache.synced_new options) rfl ops
  rw [← hc] at hord hpos
  have hms : c.maxSize ≠ 0 := by
    rw [hc, RequestCache.run_maxSize]
    exact RequestCache.new_maxSize_ne_zero options
  obtain ⟨hn1, hn2, hmem⟩ := hsync
  -- the recency list is not empty
  cases hao : c.accessOrder with
  | nil =>
    exfalso
    have hkeys : c.keys = [] := by
      apply List.eq_nil_iff_forall_not_mem.mpr
      intro x hx
      have := (hmem x).mpr hx
      rw [hao] at this
      cases this
    have hlen : c.cache.length = 0 := by
      have := congrArg List.length hkeys
      simpa [RequestCache.keys] using this
    rw [hlen] at hfull
    exact hms hfull.symm
  | cons lru rest =>
    have hlru : lru ∈ c.keys := (hmem lru).mp (by rw [hao]; exact List.mem_cons_self _ _)
    have hne : lru ≠ k := fun e => hnew (e ▸ hlru)
    have hset : (c.set k v owner ttl t1 t2).cache =
        mapSet (mapDelete c.cache lru) k
          { key := k, apiName := owner, data := v, createdAt := t1,
            expiresAt := t2 + ttl.getD c.defaultTTL, hits := 0 } := by
      unfold RequestCache.set
      simp only [ge_iff_le, hfull, le_refl, if_true]
      rw [RequestCache.evictLRU_eq_deleteKey c lru rest hao]
      rfl
    have hkeys' : (c.set k v owner ttl t1 t2).keys =
        c.keys.filter (fun x => decide (x ≠ lru)) ++ [k] := by
      unfold RequestCache.keys
      rw [hset, keys_mapSet, keys_mapDelete]
      have : k ∉ List.filter (fun x => decide (x ≠ lru)) (List.map Prod.fst c.cache) := fun h =>
        hnew (List.mem_filter.mp h).1
      rw [if_neg this]
    rw [hao, List.pairwise_cons] at hord
    refine ⟨lru, hlru, hpos lru (by rw [hao]; exact List.mem_cons_self _ _), ?_, ?_, ?_, ?_, ?_, ?_⟩
    · intro w hw hwne
      have hw' : w ∈ lru :: rest := hao ▸ (hmem w).mpr hw
      rcases List.mem_cons.mp hw' with e | e
      · exact absurd e hwne
      · exact hord.1 w e
    · rw [hset, mapGet_mapSet_ne _ k lru _ hne]
      exact mapGet_mapDelete_self _ lru
    · intro w
      rw [hkeys', List.mem_append, List.mem_filter, List.mem_singleton]
      simp only [decide_eq_true_eq]
      tauto
    · intro w hw1 hw2
      rw [hset, mapGet_mapSet_ne _ k w _ hw2]
      exact mapGet_mapDelete_ne _ lru w hw1
    · rw [hset]
      exact mapGet_mapSet_self _ k _
    · have h1 : (c.set k v owner ttl t1 t2).cache.length = (c.set k v owner ttl t1 t2).keys.length := by
        simp [RequestCache.keys]
      have h2 : c.cache.length = c.keys.length := by simp [RequestCache.keys]
      have h3 : c.keys.filter (fun x => decide (x ≠ lru)) = c.keys.erase lru := by
        rw [hn2.erase_eq_filter lru]
        apply List.filter_congr
        intro x _
        simp only [bne, ne_eq, decide_not]
        rfl
      rw [h1, h2, hkeys', h3, List.length_append, List.length_erase_of_mem hlru,
        List.length_singleton]
      have : 0 < c.keys.length := List.length_pos_of_mem hlru
      omega

/-- Witness for C10: a cache of size 2 after `set a`, `set b`, `get a`; the
`set` of the new key `c` evicts `b`. -/
theorem RequestCache.set_evicts_least_recent_witness :
    ∃ lru, lru ∈ RequestCache.sampleFull.keys ∧
      0 < RequestCache.lastTouch (RequestCache.new { maxSize := some 2 })
        RequestCache.sampleHistory lru ∧
      (∀ w ∈ RequestCache.sampleFull.keys, w ≠ lru →
        RequestCache.lastTouch (RequestCache.new { maxSize := some 2 })
            RequestCache.sampleHistory lru <
          RequestCache.lastTouch (RequestCache.new { maxSize := some 2 })
            RequestCache.sampleHistory w) ∧
      mapGet (RequestCache.sampleFull.set "c" "3" "posts" (some 50) 3 3).cache lru = none ∧
      (∀ w, w ∈ (RequestCache.sampleFull.set "c" "3" "posts" (some 50) 3 3).keys ↔
        (w = "c" ∨ (w ∈ RequestCache.sampleFull.keys ∧ w ≠ lru))) ∧
      (∀ w, w ≠ lru → w ≠ "c" →
        mapGet (RequestCache.sampleFull.set "c" "3" "posts" (some 50) 3 3).cache w =
          mapGet RequestCache.sampleFull.cache w) ∧
      mapGet (RequestCache.sampleFull.set "c" "3" "posts" (some 50) 3 3).cache "c" =
        some { key := "c", apiName := "posts", data := "3", createdAt := 3,
               expiresAt := 3 + (some 50 : Option Int).getD RequestCache.sampleFull.defaultTTL,
               hits := 0 } ∧
      (RequestCache.sampleFull.set "c" "3" "posts" (some 50) 3 3).cache.length =
        RequestCache.sampleFull.cache.length :=
  RequestCache.set_evicts_least_recent { maxSize := some 2 } RequestCache.sampleHistory
    RequestCache.sampleFull rfl (by decide) "c" (by decide) "3" "posts" (some 50) 3 3

/-! ### The size bound of the request cache -/

namespace RequestCache

variable {α : Type}

theorem mapDelete_length_le {β : Type} (m : List (CacheKey × β)) (k : CacheKey) :
    (mapDelete m k).length ≤ m.length :=
  List.length_filter_le _ _

theorem mapSet_length_le {β : Type} (m : List (CacheKey × β)) (k : CacheKey) (v : β) :
    (mapSet m k v).length ≤ m.length + 1 := by
  unfold mapSet
  split_ifs <;> simp

theorem deleteKey_length_le (c : RequestCache α) (k : CacheKey) :
    (c.deleteKey k).cache.length ≤ c.cache.length :=
  mapDelete_length_le c.cache k

theorem cache_length_eq_keys (c : RequestCache α) : c.cache.length = c.keys.length := by
  simp [RequestCache.keys]

/-- On a synced cache that is not empty, `evictLRU` removes exactly one entry. -/
theorem Synced.evictLRU_length {c : RequestCache α} (hs : c.Synced) (hne : 0 < c.cache.length) :
    c.evictLRU.cache.length + 1 = c.cache.length := by
  obtain ⟨_, hn2, hmem⟩ := hs
  cases hao : c.accessOrder with
  | nil =>
    exfalso
    obtain ⟨x, hx⟩ := List.exists_mem_of_length_pos (by rwa [cache_length_eq_keys] at hne)
    have := (hmem x).mpr hx
    rw [hao] at this
    cases this
  | cons h t =>
    have hh : h ∈ c.keys := (hmem h).mp (by rw [hao]; exact List.mem_cons_self _ _)
    rw [evictLRU_eq_deleteKey c h t hao, cache_length_eq_keys, cache_length_eq_keys,
      deleteKey_keys]
    have h3 : c.keys.filter (fun x => decide (x ≠ h)) = c.keys.erase h := by
      rw [hn2.erase_eq_filter h]
      apply List.filter_congr
      intro x _
      simp only [bne, ne_eq, decide_not]
      rfl
    rw [h3, List.length_erase_of_mem hh]
    have : 0 < c.keys.length := List.length_pos_of_mem hh
    omega

theorem set_cache_length_le (c : RequestCache α) (hs : c.Synced)
    (hle : (c.cache.length : Int) ≤ c.maxSize) (hmax : 1 ≤ c.maxSize)
    (k : CacheKey) (v : α) (owner : String) (ttl : Option Int) (t1 t2 : Int) :
    ((c.set k v owner ttl t1 t2).cache.length : Int) ≤ c.maxSize := by
  unfold RequestCache.set
  simp only
  by_cases hfull : (c.cache.length : Int) ≥ c.maxSize
  · rw [if_pos hfull]
    have hpos : 0 < c.cache.length := by omega
    have hev := hs.evictLRU_length hpos
    have hset := mapSet_length_le c.evictLRU.cache k
      ({ key := k, apiName := owner, data := v, createdAt := t1,
         expiresAt := t2 + ttl.getD c.defaultTTL, hits := 0 } : CacheEntry α)
    show ((mapSet c.evictLRU.cache k _).length : Int) ≤ c.maxSize
    omega
  · rw [if_neg hfull]
    have hset := mapSet_length_le c.cache k
      ({ key := k, apiName := owner, data := v, createdAt := t1,
         expiresAt := t2 + ttl.getD c.defaultTTL, hits := 0 } : CacheEntry α)
    show ((mapSet c.cache k _).length : Int) ≤ c.maxSize
    omega

theorem apply_cache_length_le (c : RequestCache α) (hs : c.Synced)
    (hle : (c.cache.length : Int) ≤ c.maxSize) (hmax : 1 ≤ c.maxSize) (op : CacheOp α) :
    ((op.apply c).cache.length : Int) ≤ c.maxSize := by
  cases op with
  | set k v owner ttl t1 t2 => exact set_cache_length_le c hs hle hmax k v owner ttl t1 t2
  | get k now =>
    simp only [CacheOp.apply]
    cases hget : mapGet c.cache k with
    | none =>
      simp only [RequestCache.get, hget]
      exact hle
    | some entry =>
      simp only [RequestCache.get, hget]
      by_cases hexp : now > entry.expiresAt
      · simp only [hexp, if_true]
        have := deleteKey_length_le c k
        omega
      · simp only [hexp, if_false]
        exact hle
  | invalidate apiName =>
    have := invalidate_preserves (fun x => x.cache.length ≤ c.cache.length)
      (fun acc k h => (deleteKey_length_le acc k).trans h) c apiName le_rfl
    simp only [CacheOp.apply]
    omega
  | cleanup now =>
    have := cleanup_preserves (fun x => x.cache.length ≤ c.cache.length)
      (fun acc k h => (deleteKey_length_le acc k).trans h) c now le_rfl
    simp only [CacheOp.apply]
    omega
  | clear =>
    simp only [CacheOp.apply, RequestCache.clear, List.length_nil]
    omega
  | evictLRU =>
    simp only [CacheOp.apply]
    cases hao : c.accessOrder with
    | nil =>
      have : c.evictLRU = c := by
        unfold RequestCache.evictLRU
        simp [hao]
      rw [this]
      exact hle
    | cons h t =>
      rw [evictLRU_eq_deleteKey c h t hao]
      have := deleteKey_length_le c h
      omega

theorem run_cache_length_le (c : RequestCache α) (hs : c.Synced)
    (hle : (c.cache.length : Int) ≤ c.maxSize) (hmax : 1 ≤ c.maxSize)
    (ops : List (CacheOp α)) :
    ((c.run ops).cache.length : Int) ≤ c.maxSize := by
  induction ops using List.reverseRecOn with
  | nil => exact hle
  | append_singleton ops op ih =>
    rw [run_append]
    have hm := run_maxSize c ops
    have := apply_cache_length_le (c.run ops) (hs.run ops) (hm ▸ ih) (hm ▸ hmax) op
    rwa [hm] at this

end RequestCache

/-- C11: for every RequestCache constructed with `maxSize = m >= 1` and every
sequence of `set`, `get`, `invalidate`, `cleanup` and `clear` calls (`evictLRU`
calls too), the number of stored entries is at most `m` after every call, that
is after each initial part of the sequence. -/
theorem RequestCache.size_le_maxSize {α : Type} (options : RequestCacheOptions) (m : Int)
    (hm : options.maxSize = some m) (h1 : 1 ≤ m) (ops : List (CacheOp α)) (i : Nat) :
    ((((RequestCache.new options : RequestCache α).run (ops.take i)).cache.length : Nat) : Int)
      ≤ m := by
  have hnew : (RequestCache.new options : RequestCache α).maxSize = m := by
    have hne : m ≠ 0 := by omega
    simp [RequestCache.new, orDefaultInt, hm, hne]
  have := RequestCache.run_cache_length_le (RequestCache.new options : RequestCache α)
    (RequestCache.synced_new options) (by rw [hnew]; simp [RequestCache.new]; omega)
    (by rw [hnew]; exact h1) (ops.take i)
  rwa [hnew] at this

/-- Witness for C11: a cache of size 2 after three `set` calls on three keys. -/
theorem RequestCache.size_le_maxSize_witness :
    ((((RequestCache.new { maxSize := some 2 } : RequestCache String).run
      ([CacheOp.set "a" "1" "users" none 0 0, CacheOp.set "b" "2" "users" none 1 1,
        CacheOp.set "c" "3" "users" none 2 2].take 3)).cache.length : Nat) : Int) ≤ 2 :=
  RequestCache.size_le_maxSize { maxSize := some 2 } 2 rfl (by decide)
    [CacheOp.set "a" "1" "users" none 0 0, CacheOp.set "b" "2" "users" none 1 1,
      CacheOp.set "c" "3" "users" none 2 2] 3

/-! ### Stale answers and the time to live of coalesced requests -/

/-- C12, the code at the failing input: `usersCache` holds an entry for the key
that expired at 100. An `executeWithCache` call at time 200 whose fetcher fails
with `HTTP 500` fails with that error: its `get` has purged the expired entry
before the fetcher ran, so the fallback finds no entry. -/
theorem RequestCache.executeWithCache_expired_entry_propagates :
    (mapGet usersCache.cache usersKey).map (fun e => (e.data.truthy, e.expiresAt))
        = some (true, 100) ∧
      (RequestCache.executeWithCache JsVal.truthy sampleKey usersCache "users"
          (.error { message := "HTTP 500" }) BaseAPIClient.emptyParams none
          (CacheClock.fixed 200)).1 = .error { message := "HTTP 500" } ∧
      mapGet (RequestCache.executeWithCache JsVal.truthy sampleKey usersCache "users"
          (.error { message := "HTTP 500" }) BaseAPIClient.emptyParams none
          (CacheClock.fixed 200)).2.cache usersKey = none := by
  refine ⟨rfl, rfl, rfl⟩

/-- C13, the code at the failing input: the breaker of `users` is Open and
refuses at time 2000, the cache holds the `users` payload, expired at 100;
`fetch` fails with the circuit-open error, and the entry is gone afterwards. With
the entry still live (`get` at time 50) the same call answers with the payload
tagged `fromCache` and `stale`. -/
theorem BaseAPIClient.fetch_refused_expired_entry_fails :
    (usersOpenBreaker.canExecute 2000).1 = false ∧
      (mapGet usersCache.cache usersKey).map (fun e => (e.data.truthy, e.expiresAt))
        = some (true, 100) ∧
      (match (BaseAPIClient.fetch sampleKey usersRefusedClient (.ok samplePayload)
          (FetchClock.fixed 2000)).1 with
        | .error e => e = BaseAPIClient.circuitOpenError "users"
        | .ok _ => False) ∧
      mapGet (BaseAPIClient.fetch sampleKey usersRefusedClient (.ok samplePayload)
          (FetchClock.fixed 2000)).2.cache.cache usersKey = none ∧
      (match (BaseAPIClient.fetch sampleKey usersRefusedClient (.ok samplePayload)
          { FetchClock.fixed 2000 with cache := CacheClock.fixed 50 }).1 with
        | .ok r => r.fromCache = true ∧ r.stale = true
        | .error _ => False) := by
  refine ⟨rfl, rfl, rfl, rfl, ?_⟩
  exact ⟨rfl, rfl⟩

/-- C14, the code at the failing input: a `coalesce` call with fourth argument
5000 on an empty cache with the default ttl 60000, whose fetch succeeds at time
1000, stores the entry with expiry 61000, not 6000; so does `fetch` of a client
whose `cacheTTL` is 5000. -/
theorem Coalescer.coalesce_drops_ttl :
    (mapGet (((Coalescer.start JsVal.truthy sampleKey
            ({ cache := RequestCache.new {} } : Coalescer JsVal) 1 "users"
            BaseAPIClient.emptyParams (some 5000) 0 0).settle 0 (.ok samplePayload)
            1000 1000 1000).cache.cache) usersKey).map (fun e => e.expiresAt)
        = some 61000 ∧
      (mapGet (RequestCache.coalesceAlone JsVal.truthy sampleKey (RequestCache.new {}) "users"
          (.ok samplePayload) BaseAPIClient.emptyParams (some 5000)
          (CacheClock.fixed 1000)).2.cache usersKey).map (fun e => e.expiresAt) = some 61000 ∧
      (mapGet (BaseAPIClient.fetch sampleKey usersFreshClient (.ok samplePayload)
          (FetchClock.fixed 1000)).2.cache.cache usersKey).map (fun e => e.expiresAt)
        = some 61000 ∧
      (1000 : Int) + usersFreshClient.cacheTTL = 6000 := by
  refine ⟨rfl, rfl, rfl, rfl⟩

/-! ### Request coalescing -/

namespace Coalescer

variable {α : Type}

/-- A call that finds a promise in flight for its key only joins it. -/
theorem start_join (truthy : α → Bool) (generateKey : String → String → CacheKey)
    (s : Coalescer α) (caller : Nat) (apiName params : String) (extra : Option Int)
    (nowGet nowAge : Int) (promise : Nat)
    (h : mapGet s.inFlightRequests (generateKey apiName params) = some promise) :
    start truthy generateKey s caller apiName params extra nowGet nowAge =
      { s with awaiting := s.awaiting ++ [(caller, promise)] } := by
  simp only [start, h]

theorem startAll_join (truthy : α → Bool) (generateKey : String → String → CacheKey)
    (apiName params : String) (promise : Nat)
    (joiners : List (Nat × Option Int × Int × Int)) :
    ∀ s : Coalescer α, mapGet s.inFlightRequests (generateKey apiName params) = some promise →
      startAll truthy generateKey s apiName params joiners =
        { s with awaiting := s.awaiting ++ joiners.map (fun j => (j.1, promise)) } := by
  induction joiners with
  | nil =>
    intro s _
    simp [startAll]
  | cons j rest ih =>
    intro s h
    obtain ⟨caller, extra, nowGet, nowAge⟩ := j
    simp only [startAll]
    rw [start_join truthy generateKey s caller apiName params extra nowGet nowAge promise h,
      ih { s with awaiting := s.awaiting ++ [(caller, promise)] } h]
    simp

/-- A call that finds no promise in flight for its key and misses the cache
invokes its fetcher and registers a new pending promise. -/
theorem start_miss (truthy : α → Bool) (generateKey : String → String → CacheKey)
    (s : Coalescer α) (caller : Nat) (apiName params : String) (extra : Option Int)
    (nowGet nowAge : Int)
    (h1 : mapGet s.inFlightRequests (generateKey apiName params) = none)
    (h2 : (RequestCache.executeWithCacheStart truthy s.cache (generateKey apiName params)
      nowGet nowAge).1 = .ok none) :
    start truthy generateKey s caller apiName params extra nowGet nowAge =
      { s with
        cache := (RequestCache.executeWithCacheStart truthy s.cache
          (generateKey apiName params) nowGet nowAge).2
        promises := s.promises ++ [.pending (generateKey apiName params) apiName none]
        fetcherCalls := s.fetcherCalls ++ [caller]
        inFlightRequests :=
          mapSet s.inFlightRequests (generateKey apiName params) s.promises.length
        awaiting := s.awaiting ++ [(caller, s.promises.length)] } := by
  simp only [start, h1]
  rcases hres : RequestCache.executeWithCacheStart truthy s.cache (generateKey apiName params)
    nowGet nowAge with ⟨r, c1⟩
  rw [hres] at h2
  simp only at h2
  subst h2
  rfl

end Coalescer

/-- C15: `n >= 1` `coalesce` calls with the same owner and params, the first by
`first` and the others by `joiners`, are started one after the other while no
promise is in flight for their key and the key is not cached (the first call's
cache lookup misses); then the first call's fetcher settles with `fetched`, and
the callers resume. The fetcher was invoked exactly once, by the first call; all
`n` callers received one and the same outcome, the result or the error of the
first call's `executeWithCache`; and the key is no longer in flight. -/
theorem Coalescer.coalesce_shares_one_fetch {α : Type} (truthy : α → Bool)
    (generateKey : String → String → CacheKey) (s0 : Coalescer α)
    (apiName params : String) (first : Nat × Option Int × Int × Int)
    (joiners : List (Nat × Option Int × Int × Int)) (fetched : Except JsError α)
    (nowCreated nowExpires nowAge : Int)
    (hwf : ∀ w ∈ s0.awaiting, w.2 < s0.promises.length)
    (hfree : mapGet s0.inFlightRequests (generateKey apiName params) = none)
    (hmiss : (RequestCache.executeWithCacheStart truthy s0.cache (generateKey apiName params)
      first.2.2.1 first.2.2.2).1 = .ok none) :
    (Coalescer.startAll truthy generateKey s0 apiName params (first :: joiners)).fetcherCalls
        = s0.fetcherCalls ++ [first.1] ∧
      ((((Coalescer.startAll truthy generateKey s0 apiName params (first :: joiners)).settle
          s0.promises.length fetched nowCreated nowExpires nowAge).deliver
          s0.promises.length).fetcherCalls = s0.fetcherCalls ++ [first.1]) ∧
      (∃ outcome,
        outcome = (RequestCache.executeWithCacheSettle
          (RequestCache.executeWithCacheStart truthy s0.cache (generateKey apiName params)
            first.2.2.1 first.2.2.2).2
          (generateKey apiName params) apiName none fetched nowCreated nowExpires nowAge).1 ∧
        (((Coalescer.startAll truthy generateKey s0 apiName params (first :: joiners)).settle
          s0.promises.length fetched nowCreated nowExpires nowAge).deliver
          s0.promises.length).delivered =
            s0.delivered ++ (first :: joiners).map (fun c => (c.1, outcome))) ∧
      mapGet (((Coalescer.startAll truthy generateKey s0 apiName params (first :: joiners)).settle
          s0.promises.length fetched nowCreated nowExpires nowAge).deliver
          s0.promises.length).inFlightRequests (generateKey apiName params) = none := by
  obtain ⟨caller, extra, nowGet, nowAge0⟩ := first
  simp only at hmiss
  have hstart := Coalescer.start_miss truthy generateKey s0 caller apiName params extra nowGet
    nowAge0 hfree hmiss
  have hall : Coalescer.startAll truthy generateKey s0 apiName params
      ((caller, extra, nowGet, nowAge0) :: joiners) =
      { cache := (RequestCache.executeWithCacheStart truthy s0.cache
          (generateKey apiName params) nowGet nowAge0).2
        inFlightRequests :=
          mapSet s0.inFlightRequests (generateKey apiName params) s0.promises.length
        promises := s0.promises ++ [.pending (generateKey apiName params) apiName none]
        fetcherCalls := s0.fetcherCalls ++ [caller]
        awaiting := (s0.awaiting ++ [(caller, s0.promises.length)]) ++
          joiners.map (fun j => (j.1, s0.promises.length))
        delivered := s0.delivered } := by
    simp only [Coalescer.startAll]
    rw [hstart]
    exact Coalescer.startAll_join truthy generateKey apiName params s0.promises.length joiners _
      (mapGet_mapSet_self _ _ _)
  rw [hall]
  have hfilter : s0.awaiting.filter (fun w => decide (w.2 = s0.promises.length)) = [] := by
    rw [List.filter_eq_nil_iff]
    intro w hw
    have := hwf w hw
    simp only [decide_eq_true_eq]
    omega
  have hjoin : (joiners.map (fun j => (j.1, s0.promises.length))).filter
      (fun w => decide (w.2 = s0.promises.length)) =
      joiners.map (fun j => (j.1, s0.promises.length)) := by
    rw [List.filter_eq_self]
    intro w hw
    rw [List.mem_map] at hw
    obtain ⟨j, _, rfl⟩ := hw
    simp
  refine ⟨rfl, ?_, ?_, ?_⟩
  · simp [Coalescer.settle, Coalescer.deliver]
  · refine ⟨_, rfl, ?_⟩
    simp [Coalescer.settle, Coalescer.deliver, List.filter_append, hfilter, hjoin]
  · simp [Coalescer.settle, Coalescer.deliver, mapGet_mapDelete_self]

/-- Witness for C15: five callers on an empty cache with nothing in flight. -/
theorem Coalescer.coalesce_shares_one_fetch_witness :
    (Coalescer.startAll JsVal.truthy sampleKey
        ({ cache := RequestCache.new {} } : Coalescer JsVal) "users" BaseAPIClient.emptyParams
        [(1, some 5000, 0, 0), (2, some 5000, 1, 1), (3, some 5000, 2, 2), (4, some 5000, 3, 3),
          (5, some 5000, 4, 4)]).fetcherCalls = [1] :=
  (Coalescer.coalesce_shares_one_fetch JsVal.truthy sampleKey
    ({ cache := RequestCache.new {} } : Coalescer JsVal) "users" BaseAPIClient.emptyParams
    (1, some 5000, 0, 0)
    [(2, some 5000, 1, 1), (3, some 5000, 2, 2), (4, some 5000, 3, 3), (5, some 5000, 4, 4)]
    (.ok samplePayload) 1000 1000 1000
    (fun w hw => absurd hw (List.not_mem_nil w)) rfl rfl).1

/-! ### Exponential backoff -/

namespace ExponentialBackoff

variable {α : Type}

/-- One iteration of the loop of `execute` whose attempt succeeds. -/
theorem executeLoop_ok (b : ExponentialBackoff) (fn : Nat → Except JsError α)
    (random : Nat → ℚ) (remaining attempt : Nat) (lastError : Option JsError)
    (waits : List Int) (result : α) (h : fn attempt = .ok result) :
    executeLoop b fn random (remaining + 1) attempt lastError waits =
      { outcome := .ok result, calls := attempt + 1, waits := waits } := by
  rw [executeLoop]
  simp only [h]

/-- One iteration of the loop of `execute` whose attempt fails. -/
theorem executeLoop_error (b : ExponentialBackoff) (fn : Nat → Except JsError α)
    (random : Nat → ℚ) (remaining attempt : Nat) (lastError : Option JsError)
    (waits : List Int) (e : JsError) (h : fn attempt = .error e) :
    executeLoop b fn random (remaining + 1) attempt lastError waits =
      if attempt = b.maxRetries ∨ shouldRetry e = false then
        { outcome := .error (some e), calls := attempt + 1, waits := waits }
      else
        executeLoop b fn random remaining (attempt + 1) (some e)
          (waits ++ [b.calculateDelay attempt (random attempt)]) := by
  rw [executeLoop]
  simp only [h]
  by_cases h1 : attempt = b.maxRetries
  · simp [h1]
  · cases h2 : shouldRetry e <;> simp [h1]

theorem executeLoop_calls_le (b : ExponentialBackoff) (fn : Nat → Except JsError α)
    (random : Nat → ℚ) (remaining : Nat) :
    ∀ (attempt : Nat) (lastError : Option JsError) (waits : List Int),
      attempt + remaining = b.maxRetries + 1 →
      (executeLoop b fn random remaining attempt lastError waits).calls ≤ b.maxRetries + 1 := by
  induction remaining with
  | zero =>
    intro attempt lastError waits h
    simp only [executeLoop]
    omega
  | succ n ih =>
    intro attempt lastError waits h
    cases hfn : fn attempt with
    | ok result =>
      rw [executeLoop_ok b fn random n attempt lastError waits result hfn]
      simp only
      omega
    | error e =>
      rw [executeLoop_error b fn random n attempt lastError waits e hfn]
      split_ifs
      · simp only
        omega
      · exact ih (attempt + 1) (some e) _ (by omega)

theorem executeLoop_all_fail (b : ExponentialBackoff) (fn : Nat → Except JsError α)
    (random : Nat → ℚ)
    (hfail : ∀ i, i ≤ b.maxRetries → ∃ e, fn i = .error e ∧ shouldRetry e = true)
    (remaining : Nat) :
    ∀ (attempt : Nat) (lastError : Option JsError) (waits : List Int),
      attempt + (remaining + 1) = b.maxRetries + 1 →
      (executeLoop b fn random (remaining + 1) attempt lastError waits).calls
          = b.maxRetries + 1 ∧
        (∃ e, fn b.maxRetries = .error e ∧
          (executeLoop b fn random (remaining + 1) attempt lastError waits).outcome
            = .error (some e)) ∧
        (executeLoop b fn random (remaining + 1) attempt lastError waits).waits.length
          = waits.length + remaining := by
  induction remaining with
  | zero =>
    intro attempt lastError waits h
    have hatt : attempt = b.maxRetries := by omega
    obtain ⟨e, he, _⟩ := hfail attempt (by omega)
    rw [executeLoop_error b fn random 0 attempt lastError waits e he, if_pos (Or.inl hatt)]
    rw [hatt] at he
    exact ⟨by simp only [hatt], ⟨e, he, rfl⟩, by simp⟩
  | succ n ih =>
    intro attempt lastError waits h
    have hatt : attempt ≠ b.maxRetries := by omega
    obtain ⟨e, he, hretry⟩ := hfail attempt (by omega)
    rw [executeLoop_error b fn random (n + 1) attempt lastError waits e he,
      if_neg (by simp [hatt, hretry])]
    obtain ⟨h1, h2, h3⟩ := ih (attempt + 1) (some e)
      (waits ++ [b.calculateDelay attempt (random attempt)]) (by omega)
    refine ⟨h1, h2, ?_⟩
    rw [h3, List.length_append, List.length_singleton]
    omega

end ExponentialBackoff

/-- C16: for every backoff with `maxRetries = m` and every `fn`, `execute`
invokes `fn` at most `m + 1` times; when `fn` fails in every attempt with an
error that `shouldRetry` accepts, `fn` is invoked exactly `m + 1` times, `m`
delays are waited, and `execute` fails with the error of the last attempt. -/
theorem ExponentialBackoff.execute_attempts {α : Type} (b : ExponentialBackoff)
    (fn : Nat → Except JsError α) (random : Nat → ℚ) :
    (b.execute fn random).calls ≤ b.maxRetries + 1 ∧
      ((∀ i, i ≤ b.maxRetries → ∃ e, fn i = .error e ∧ ExponentialBackoff.shouldRetry e = true) →
        (b.execute fn random).calls = b.maxRetries + 1 ∧
        (∃ e, fn b.maxRetries = .error e ∧ (b.execute fn random).outcome = .error (some e)) ∧
        (b.execute fn random).waits.length = b.maxRetries) := by
  constructor
  · exact ExponentialBackoff.executeLoop_calls_le b fn random (b.maxRetries + 1) 0 none []
      (by omega)
  · intro hfail
    have := ExponentialBackoff.executeLoop_all_fail b fn random hfail b.maxRetries 0 none []
      (by omega)
    simpa [ExponentialBackoff.execute] using this

/-- C17: if the first attempt of `fn` fails with an error that `shouldRetry`
rejects, `execute` invokes `fn` exactly once, waits for nothing and fails with
that error (for `maxRetries >= 1`, and for `maxRetries = 0` as well). -/
theorem ExponentialBackoff.execute_non_retryable {α : Type} (b : ExponentialBackoff)
    (fn : Nat → Except JsError α) (random : Nat → ℚ) (e : JsError)
    (hfn : fn 0 = .error e) (hno : ExponentialBackoff.shouldRetry e = false) :
    (b.execute fn random).calls = 1 ∧ (b.execute fn random).waits = [] ∧
      (b.execute fn random).outcome = .error (some e) := by
  unfold ExponentialBackoff.execute
  rw [ExponentialBackoff.executeLoop_error b fn random b.maxRetries 0 none [] e hfn,
    if_pos (Or.inr hno)]
  exact ⟨rfl, rfl, rfl⟩

/-- Witness for C17: the client's backoff (3 retries) and a request that is
answered `HTTP 404`. -/
theorem ExponentialBackoff.execute_non_retryable_witness :
    (clientBackoff.execute
      (fun _ => (.error { message := httpStatusMessage 404 } : Except JsError JsVal))
      (fun _ => 1 / 2)).calls = 1 :=
  (ExponentialBackoff.execute_non_retryable clientBackoff
    (fun _ => (.error { message := httpStatusMessage 404 } : Except JsError JsVal))
    (fun _ => 1 / 2) { message := httpStatusMessage 404 } rfl (by decide)).1

/-- Witness for C16: the client's backoff (3 retries) and a request answered
`HTTP 500` in every attempt: four invocations. -/
theorem ExponentialBackoff.execute_attempts_witness :
    (clientBackoff.execute
      (fun _ => (.error { message := httpStatusMessage 500 } : Except JsError JsVal))
      (fun _ => 1 / 2)).calls = 3 + 1 :=
  ((ExponentialBackoff.execute_attempts clientBackoff
    (fun _ => (.error { message := httpStatusMessage 500 } : Except JsError JsVal))
    (fun _ => 1 / 2)).2 (fun _ _ => ⟨{ message := httpStatusMessage 500 }, rfl, by decide⟩)).1

theorem ExponentialBackoff.shouldRetry_status_table :
    ∀ c, c < 600 → 100 ≤ c →
      (ExponentialBackoff.shouldRetry { code := none, message := httpStatusMessage c } = false ↔
        (400 ≤ c ∧ c ≤ 499 ∧ c ≠ 429)) := by
  decide!

theorem ExponentialBackoff.shouldRetry_other_code (code : Option String) (message : String)
    (h1 : code ≠ some "ETIMEDOUT") (h2 : code ≠ some "ECONNRESET")
    (h3 : code ≠ some "ENOTFOUND") :
    ExponentialBackoff.shouldRetry { code := code, message := message } =
      ExponentialBackoff.shouldRetry { code := none, message := message } := by
  simp [ExponentialBackoff.shouldRetry, h1, h2, h3]

/-- C18: for every error whose code is none of the three network codes (no code
at all included) and whose message is `HTTP c` with `100 <= c <= 599`,
`shouldRetry` returns false exactly when `400 <= c <= 499` and `c != 429`, and
true otherwise; for every error whose code is `ETIMEDOUT`, `ECONNRESET` or
`ENOTFOUND` it returns true whatever the message is. -/
theorem ExponentialBackoff.shouldRetry_classifies :
    (∀ (c : Nat) (code : Option String), 100 ≤ c → c ≤ 599 →
        code ≠ some "ETIMEDOUT" → code ≠ some "ECONNRESET" → code ≠ some "ENOTFOUND" →
        (ExponentialBackoff.shouldRetry { code := code, message := httpStatusMessage c } = false ↔
          (400 ≤ c ∧ c ≤ 499 ∧ c ≠ 429)) ∧
        (ExponentialBackoff.shouldRetry { code := code, message := httpStatusMessage c } = true ↔
          ¬ (400 ≤ c ∧ c ≤ 499 ∧ c ≠ 429))) ∧
      (∀ (code message : String),
        code = "ETIMEDOUT" ∨ code = "ECONNRESET" ∨ code = "ENOTFOUND" →
        ExponentialBackoff.shouldRetry { code := some code, message := message } = true) := by
  constructor
  · intro c code hlo hhi h1 h2 h3
    rw [ExponentialBackoff.shouldRetry_other_code code _ h1 h2 h3]
    have htab := ExponentialBackoff.shouldRetry_status_table c (by omega) hlo
    refine ⟨htab, ?_⟩
    rw [← htab]
    cases ExponentialBackoff.shouldRetry { code := none, message := httpStatusMessage c } <;> simp
  · rintro code message (h | h | h) <;> simp [ExponentialBackoff.shouldRetry, h]

/-! ### The delay of a retry -/

theorem ExponentialBackoff.calculateDelay_no_jitter (b : ExponentialBackoff) (i : Nat) (r s : ℚ)
    (hj : b.jitter = false) : b.calculateDelay i r = b.calculateDelay i s := by
  simp [ExponentialBackoff.calculateDelay, hj]

theorem ExponentialBackoff.calculateDelay_table :
    (List.range 5).map (fun i =>
        (exampleBackoff false).calculateDelay i 0) = [1000, 2000, 4000, 8000, 10000] := by
  decide!

/-- The capped delay of `calculateDelay` before the jitter: for a positive
natural base delay and a natural ceiling up to `2 ^ 53` and a natural factor the
double arithmetic gives the exact minimum. -/
theorem ExponentialBackoff.capped_delay_exact (base factor maxd i : Nat)
    (hb1 : 1 ≤ base) (hmaxd : maxd ≤ 2 ^ 53) :
    min (roundDouble ((base : ℚ) * mathPow (factor : ℚ) i)) (maxd : ℚ) =
      ((min maxd (base * factor ^ i) : Nat) : ℚ) := by
  have hcast : ((factor : ℚ)) ^ i = ((factor ^ i : Nat) : ℚ) := by push_cast; rfl
  have hmq : (maxd : ℚ) ≤ ((2 ^ 53 : Nat) : ℚ) := by exact_mod_cast hmaxd
  by_cases hp : base * factor ^ i ≤ 2 ^ 53
  · have hf : factor ^ i ≤ 2 ^ 53 := le_trans (Nat.le_mul_of_pos_left _ hb1) hp
    have hpow : mathPow (factor : ℚ) i = ((factor ^ i : Nat) : ℚ) := by
      unfold mathPow
      rw [hcast]
      exact roundDouble_natCast _ hf
    have hprod : roundDouble ((base : ℚ) * mathPow (factor : ℚ) i) =
        ((base * factor ^ i : Nat) : ℚ) := by
      rw [hpow, ← Nat.cast_mul]
      exact roundDouble_natCast _ hp
    rw [hprod, min_comm]
    push_cast
    rfl
  · have hp' : 2 ^ 53 ≤ base * factor ^ i := by omega
    have hpowge : ((factor ^ i : Nat) : ℚ) ≤ mathPow (factor : ℚ) i ∨
        ((2 ^ 53 : Nat) : ℚ) ≤ mathPow (factor : ℚ) i := by
      by_cases hf : factor ^ i ≤ 2 ^ 53
      · left
        unfold mathPow
        rw [hcast, roundDouble_natCast _ hf]
      · right
        unfold mathPow
        rw [hcast]
        apply le_roundDouble_nat _ _ le_rfl
        have : 2 ^ 53 ≤ factor ^ i := by omega
        exact_mod_cast this
    have hbq : (1 : ℚ) ≤ (base : ℚ) := by exact_mod_cast hb1
    have hprodge : ((2 ^ 53 : Nat) : ℚ) ≤ (base : ℚ) * mathPow (factor : ℚ) i := by
      rcases hpowge with h | h
      · have h1 : ((base * factor ^ i : Nat) : ℚ) ≤ (base : ℚ) * mathPow (factor : ℚ) i := by
          push_cast
          exact mul_le_mul_of_nonneg_left (by exact_mod_cast h) (by positivity)
        have h2 : ((2 ^ 53 : Nat) : ℚ) ≤ ((base * factor ^ i : Nat) : ℚ) := by
          exact_mod_cast hp'
        exact h2.trans h1
      · have h0 : (0 : ℚ) ≤ mathPow (factor : ℚ) i := le_trans (Nat.cast_nonneg _) h
        calc ((2 ^ 53 : Nat) : ℚ) ≤ mathPow (factor : ℚ) i := h
          _ = 1 * mathPow (factor : ℚ) i := (one_mul _).symm
          _ ≤ (base : ℚ) * mathPow (factor : ℚ) i := mul_le_mul_of_nonneg_right hbq h0
    have hround : ((2 ^ 53 : Nat) : ℚ) ≤ roundDouble ((base : ℚ) * mathPow (factor : ℚ) i) :=
      le_roundDouble_nat _ _ le_rfl hprodge
    have hmin : min maxd (base * factor ^ i) = maxd := Nat.min_eq_left (by omega)
    rw [hmin, min_eq_right (hmq.trans hround)]

/-- C19: for every attempt index `i`, every positive integer `baseDelay`, every
natural number `factor` and every natural number `maxDelay` up to `2 ^ 53`, the
range in which a double holds every integer, and every random draw `r` in
`[0, 1)`, `calculateDelay(i)`, computed in double arithmetic, is an integer `d`
with
`0 <= d <= min(maxDelay, baseDelay * factor^i) <= maxDelay`; with jitter disabled
`d` equals `min(maxDelay, baseDelay * factor^i)`. With baseDelay 1000, factor 2,
maxDelay 10000 and jitter disabled the delays for `i = 0, 1, 2, 3, 4` are 1000,
2000, 4000, 8000, 10000. -/
theorem ExponentialBackoff.calculateDelay_bounds (b : ExponentialBackoff)
    (base factor maxd : Nat) (i : Nat) (r : ℚ)
    (hbase : b.baseDelay = (base : ℚ)) (hfactor : b.factor = (factor : ℚ))
    (hmaxd : b.maxDelay = (maxd : ℚ))
    (hbase0 : 0 < base) (hmaxd53 : maxd ≤ 2 ^ 53)
    (hr0 : 0 ≤ r) (hr1 : r < 1) :
    0 ≤ b.calculateDelay i r ∧
      b.calculateDelay i r ≤ ((min maxd (base * factor ^ i) : Nat) : Int) ∧
      min maxd (base * factor ^ i) ≤ maxd ∧
      (b.jitter = false →
        b.calculateDelay i r = ((min maxd (base * factor ^ i) : Nat) : Int)) ∧
      (List.range 5).map (fun j =>
        (exampleBackoff false).calculateDelay j r) = [1000, 2000, 4000, 8000, 10000] := by
  have hmin : min (roundDouble (b.baseDelay * mathPow b.factor i)) b.maxDelay =
      ((min maxd (base * factor ^ i) : Nat) : ℚ) := by
    rw [hbase, hfactor, hmaxd]
    exact ExponentialBackoff.capped_delay_exact base factor maxd i hbase0 hmaxd53
  have hnn : (0 : ℚ) ≤ ((min maxd (base * factor ^ i) : Nat) : ℚ) := Nat.cast_nonneg _
  have hle53 : min maxd (base * factor ^ i) ≤ 2 ^ 53 := le_trans (min_le_left _ _) hmaxd53
  have hprod0 : 0 ≤ r * ((min maxd (base * factor ^ i) : Nat) : ℚ) := mul_nonneg hr0 hnn
  have hprod1 : r * ((min maxd (base * factor ^ i) : Nat) : ℚ) ≤
      ((min maxd (base * factor ^ i) : Nat) : ℚ) := by nlinarith
  have hj0 : 0 ≤ roundDouble (r * ((min maxd (base * factor ^ i) : Nat) : ℚ)) :=
    roundDouble_nonneg _ hprod0
  have hj1 : roundDouble (r * ((min maxd (base * factor ^ i) : Nat) : ℚ)) ≤
      ((min maxd (base * factor ^ i) : Nat) : ℚ) :=
    roundDouble_le_nat _ hprod0 _ hle53 hprod1
  refine ⟨?_, ?_, min_le_left _ _, ?_, ?_⟩
  · simp only [ExponentialBackoff.calculateDelay, hmin]
    split_ifs
    · exact Int.floor_nonneg.mpr hj0
    · exact Int.floor_nonneg.mpr hnn
  · simp only [ExponentialBackoff.calculateDelay, hmin]
    split_ifs
    · have h1 : ((⌊roundDouble (r * ((min maxd (base * factor ^ i) : Nat) : ℚ))⌋ : Int) : ℚ) ≤
          roundDouble (r * ((min maxd (base * factor ^ i) : Nat) : ℚ)) := Int.floor_le _
      have h3 : ((⌊roundDouble (r * ((min maxd (base * factor ^ i) : Nat) : ℚ))⌋ : Int) : ℚ) ≤
          (((min maxd (base * factor ^ i) : Nat) : Int) : ℚ) := by
        push_cast
        push_cast at h1 hj1
        linarith
      exact_mod_cast h3
    · rw [Int.floor_natCast]
  · intro hj
    simp only [ExponentialBackoff.calculateDelay, hmin, hj, Bool.false_eq_true, if_false]
    exact Int.floor_natCast _
  · have hrw : ∀ j, (exampleBackoff false).calculateDelay j r =
        (exampleBackoff false).calculateDelay j 0 :=
      fun j => ExponentialBackoff.calculateDelay_no_jitter _ j r 0 rfl
    simp only [hrw]
    exact ExponentialBackoff.calculateDelay_table

/-- Witness for C19: the client's backoff (base 1000, factor 2, ceiling 10000)
at attempt 2 with the draw `0.3`; at attempt 0 the product `0.3 * 1000`, whose
exact value lies below 300, is rounded to 300 and the delay is 300. -/
theorem ExponentialBackoff.calculateDelay_bounds_witness :
    0 ≤ clientBackoff.calculateDelay 2 (roundDouble (3 / 10)) ∧
      clientBackoff.calculateDelay 2 (roundDouble (3 / 10)) ≤
        ((min 10000 (1000 * 2 ^ 2) : Nat) : Int) ∧
      clientBackoff.calculateDelay 0 (roundDouble (3 / 10)) = 300 :=
  have h := ExponentialBackoff.calculateDelay_bounds clientBackoff 1000 2 10000 2
    (roundDouble (3 / 10)) (by decide!) (by decide!) (by decide!) (by norm_num) (by norm_num)
    (by decide!) (by decide!)
  ⟨h.1, h.2.1, by decide!⟩

/-! ### The best-effort strategy -/

theorem collectSettled_eq {α : Type} (results : List (Settled α)) :
    ∀ (index : Nat) (successful : List α) (failed : List FailedAPI),
      collectSettled results index successful failed =
        (successful ++ fulfilledValues results, failed ++ rejectedFrom results index) := by
  induction results with
  | nil =>
    intro index successful failed
    simp [collectSettled, fulfilledValues, rejectedFrom]
  | cons r rest ih =>
    intro index successful failed
    cases r with
    | fulfilled value => simp [collectSettled, fulfilledValues, rejectedFrom, ih]
    | rejected reason => simp [collectSettled, fulfilledValues, rejectedFrom, ih]

theorem fulfilledValues_eq_filterMap {α : Type} (results : List (Settled α)) :
    fulfilledValues results = results.filterMap Settled.value? := by
  induction results with
  | nil => rfl
  | cons r rest ih =>
    cases r with
    | fulfilled value => simp [fulfilledValues, Settled.value?, ih]
    | rejected reason => simp [fulfilledValues, Settled.value?, ih]

theorem rejectedFrom_eq_filterMap {α : Type} (results : List (Settled α)) :
    ∀ start, rejectedFrom results start =
      (List.range results.length).filterMap (fun i => failedAt results start i) := by
  induction results with
  | nil =>
    intro start
    simp [rejectedFrom]
  | cons r rest ih =>
    intro start
    have hshift : ∀ i, failedAt (r :: rest) start (i + 1) = failedAt rest (start + 1) i := by
      intro i
      simp only [failedAt, List.get?_cons_succ]
      cases rest.get? i with
      | none => rfl
      | some x =>
        cases x with
        | fulfilled v => rfl
        | rejected e => simp only [Option.some.injEq, FailedAPI.mk.injEq, and_true]; omega
    rw [List.length_cons, List.range_succ_eq_map, List.filterMap_cons, List.filterMap_map]
    have hcomp : (fun i => failedAt (r :: rest) start i) ∘ Nat.succ =
        fun i => failedAt rest (start + 1) i := by
      funext i
      exact hshift i
    rw [hcomp, ← ih (start + 1)]
    cases r with
    | fulfilled value => simp [rejectedFrom, failedAt]
    | rejected reason => simp [rejectedFrom, failedAt]

theorem fulfilled_add_rejected_length {α : Type} (results : List (Settled α)) :
    ∀ start, (fulfilledValues results).length + (rejectedFrom results start).length
      = results.length := by
  induction results with
  | nil => intro start; rfl
  | cons r rest ih =>
    intro start
    cases r with
    | fulfilled value =>
      simp only [fulfilledValues, rejectedFrom, List.length_cons]
      have := ih (start + 1)
      omega
    | rejected reason =>
      simp only [fulfilledValues, rejectedFrom, List.length_cons]
      have := ih (start + 1)
      omega

theorem rejectedFrom_length {α : Type} (results : List (Settled α)) :
    ∀ start, (rejectedFrom results start).length = results.countP (fun x => x.value?.isNone) := by
  induction results with
  | nil => intro start; rfl
  | cons r rest ih =>
    intro start
    cases r with
    | fulfilled value => simp [rejectedFrom, Settled.value?, ih]
    | rejected reason => simp [rejectedFrom, Settled.value?, ih]

/-- C20: for every list of settled outcomes (a rejection reason being an `Error`
object), `BestEffortStrategy.aggregate` does not fail and returns `data` = the
values of the fulfilled outcomes in input order, `successful` = their number,
`failed` = the number of rejected outcomes, and `failedAPIs` = one
`{index, reason}` per rejected outcome, in increasing index order, `reason` being
that outcome's error message; hence `successful + failed` is the number of
outcomes, and 10 outcomes of which 2 are rejected give `successful = 8` and
`failed = 2`. -/
theorem BestEffortStrategy.aggregate_spec {α : Type} (results : List (Settled α)) :
    ∃ r, BestEffortStrategy.aggregate results = .ok r ∧
      r.data = results.filterMap Settled.value? ∧
      r.successful = (results.filterMap Settled.value?).length ∧
      r.failedAPIs = (List.range results.length).filterMap (fun i => failedAt results 0 i) ∧
      r.failed = r.failedAPIs.length ∧
      r.failed = results.countP (fun x => x.value?.isNone) ∧
      r.successful + r.failed = results.length ∧
      (results.length = 10 → results.countP (fun x => x.value?.isNone) = 2 →
        r.successful = 8 ∧ r.failed = 2) := by
  have hlen := fulfilled_add_rejected_length results 0
  have hrej := rejectedFrom_length results 0
  refine ⟨_, by simp only [BestEffortStrategy.aggregate, collectSettled_eq]; rfl, ?_, ?_, ?_, rfl,
    ?_, ?_, ?_⟩
  · simp [fulfilledValues_eq_filterMap]
  · simp [fulfilledValues_eq_filterMap]
  · simp [rejectedFrom_eq_filterMap]
  · simpa using hrej
  · simpa using hlen
  · intro h10 h2
    simp only [List.nil_append]
    omega

/-! ### The all-or-nothing strategy -/

theorem exists_rejected_iff_countP {α : Type} (results : List (Settled α)) :
    (∃ r ∈ results, r.value? = none) ↔ 0 < results.countP (fun x => x.value?.isNone) := by
  rw [List.countP_pos_iff]
  constructor
  · rintro ⟨r, hr, h⟩
    exact ⟨r, hr, by simp [h]⟩
  · rintro ⟨r, hr, h⟩
    exact ⟨r, hr, by simpa using h⟩

theorem AllOrNothingStrategy.aggregate_eq {α : Type} (results : List (Settled α)) :
    AllOrNothingStrategy.aggregate results =
      if (rejectedFrom results 0).length > 0 then
        .error (AllOrNothingStrategy.failureError (rejectedFrom results 0).length)
      else
        .ok { data := fulfilledValues results, successful := (fulfilledValues results).length,
              failed := 0, failedAPIs := [] } := by
  simp only [AllOrNothingStrategy.aggregate, collectSettled_eq, List.nil_append]

/-- C21: for every list of settled outcomes, `AllOrNothingStrategy.aggregate`
fails if and only if at least one outcome is rejected; when no outcome is
rejected its result is equal to the result of `BestEffortStrategy.aggregate` on
the same list. -/
theorem AllOrNothingStrategy.fails_iff_rejected {α : Type} (results : List (Settled α)) :
    ((∃ e, AllOrNothingStrategy.aggregate results = .error e) ↔
        (∃ r ∈ results, r.value? = none)) ∧
      ((∀ r ∈ results, r.value? ≠ none) →
        AllOrNothingStrategy.aggregate results = BestEffortStrategy.aggregate results) := by
  have hlen := rejectedFrom_length results 0
  rw [exists_rejected_iff_countP, AllOrNothingStrategy.aggregate_eq]
  constructor
  · by_cases h : (rejectedFrom results 0).length > 0
    · rw [if_pos h]
      constructor
      · intro _
        omega
      · intro _
        exact ⟨_, rfl⟩
    · rw [if_neg h]
      constructor
      · rintro ⟨e, he⟩
        cases he
      · intro hpos
        omega
  · intro hall
    have hzero : results.countP (fun x => x.value?.isNone) = 0 := by
      rw [List.countP_eq_zero]
      intro r hr
      have := hall r hr
      cases hv : r.value? with
      | none => exact absurd hv this
      | some v => simp
    have h0 : (rejectedFrom results 0).length = 0 := by omega
    have hnil : rejectedFrom results 0 = [] := List.length_eq_zero.mp h0
    rw [if_neg (by omega)]
    simp only [BestEffortStrategy.aggregate, collectSettled_eq, List.nil_append, hnil,
      List.length_nil]

/-- C22, as amended: for every list with `k >= 1` rejected outcomes,
`AllOrNothingStrategy.aggregate` fails with the error whose message is
`All or Nothing: k APIs fallaron` and which has no other content: it states the
number of failures, not their indices or reasons. -/
theorem AllOrNothingStrategy.error_states_count {α : Type} (results : List (Settled α))
    (h : 0 < results.countP (fun x => x.value?.isNone)) :
    AllOrNothingStrategy.aggregate results =
      .error { code := none,
               message := "All or Nothing: " ++
                 toString (results.countP (fun x => x.value?.isNone)) ++ " APIs fallaron" } := by
  have hlen := rejectedFrom_length results 0
  rw [AllOrNothingStrategy.aggregate_eq, if_pos (by omega), hlen]
  rfl

/-- Witness for C22 as amended: ten outcomes, those at positions 3 and 7
rejected. -/
theorem AllOrNothingStrategy.error_states_count_witness :
    AllOrNothingStrategy.aggregate tenOutcomes =
      .error { code := none, message := "All or Nothing: 2 APIs fallaron" } :=
  AllOrNothingStrategy.error_states_count tenOutcomes (by decide)

/-- Counterexample to C22 as stated: two lists whose rejected outcomes differ in
position and in reason make `aggregate` fail with one and the same error, so the
error names neither the indices nor the reasons. -/
theorem AllOrNothingStrategy.error_hides_failures :
    AllOrNothingStrategy.aggregate
        [Settled.rejected { message := "Timeout" }, Settled.fulfilled "a"] =
      AllOrNothingStrategy.aggregate
        [Settled.fulfilled "a", Settled.rejected { message := "HTTP 500" }] ∧
      AllOrNothingStrategy.aggregate
        [Settled.rejected { message := "Timeout" }, Settled.fulfilled "a"] =
      .error { code := none, message := "All or Nothing: 1 APIs fallaron" } ∧
      rejectedFrom [Settled.rejected { message := "Timeout" }, Settled.fulfilled "a"] 0 =
        [{ index := 0, reason := "Timeout" }] ∧
      rejectedFrom [Settled.fulfilled "a", Settled.rejected { message := "HTTP 500" }] 0 =
        [{ index := 1, reason := "HTTP 500" }] :=
  ⟨rfl, rfl, rfl, rfl⟩

/-! ### The cached-fallback strategy -/

namespace CachedFallbackStrategy

theorem visit_cache_other (st : FallbackState) (result : Settled JsVal) (index : Nat)
    (now : Int) (k : Nat) (hk : k ≠ index) : (visit st result index now).cache k = st.cache k := by
  cases result with
  | fulfilled value => simp [visit, setCache, Function.update_noteq hk]
  | rejected reason =>
    simp only [visit, getCache]
    cases hc : st.cache index with
    | none => simp
    | some cached =>
      simp only
      by_cases hage : now - cached.timestamp > TTL
      · simp [hage, Function.update_noteq hk]
      · simp only [hage, if_false]
        split_ifs <;> rfl

theorem visit_cache_self (st : FallbackState) (result : Settled JsVal) (index : Nat)
    (now : Int) :
    (visit st result index now).cache index = entryAfter result now (st.cache index) := by
  cases result with
  | fulfilled value => simp [visit, setCache, entryAfter]
  | rejected reason =>
    simp only [visit, getCache, entryAfter]
    cases hc : st.cache index with
    | none => simp [hc]
    | some cached =>
      simp only
      by_cases hage : now - cached.timestamp > TTL
      · simp [hage]
      · simp only [hage, if_false]
        split_ifs <;> exact hc

theorem collect_cache_outside (clock : Nat → Int) (results : List (Settled JsVal)) :
    ∀ (index : Nat) (st : FallbackState) (k : Nat), (k < index ∨ index + results.length ≤ k) →
      (collect clock results index st).cache k = st.cache k := by
  induction results with
  | nil => intro index st k _; rfl
  | cons r rest ih =>
    intro index st k hk
    simp only [collect]
    rw [ih (index + 1) _ k (by simp only [List.length_cons] at hk; omega)]
    exact visit_cache_other st r index (clock index) k
      (by simp only [List.length_cons] at hk; omega)

theorem collect_cache_at (clock : Nat → Int) (results : List (Settled JsVal)) :
    ∀ (index : Nat) (st : FallbackState) (j : Nat) (r : Settled JsVal),
      results.get? j = some r →
      (collect clock results index st).cache (index + j) =
        entryAfter r (clock (index + j)) (st.cache (index + j)) := by
  induction results with
  | nil => intro index st j r h; simp at h
  | cons r0 rest ih =>
    intro index st j r h
    simp only [collect]
    cases j with
    | zero =>
      simp only [List.get?_cons_zero, Option.some.injEq] at h
      subst h
      rw [collect_cache_outside clock rest (index + 1) _ (index + 0) (Or.inl (by omega))]
      exact visit_cache_self st r0 index (clock index)
    | succ n =>
      simp only [List.get?_cons_succ] at h
      have := ih (index + 1) (visit st r0 index (clock index)) n r h
      have hidx : index + 1 + n = index + (n + 1) := by omega
      rw [hidx] at this
      rw [this, visit_cache_other st r0 index (clock index) (index + (n + 1)) (by omega)]

theorem aggregate_cache_at (cache : FallbackCache) (results : List (Settled JsVal))
    (clock : Nat → Int) (i : Nat) :
    (aggregate cache results clock).2 i =
      match results.get? i with
      | some r => entryAfter r (clock i) (cache i)
      | none => cache i := by
  simp only [aggregate, aggregateLoop]
  cases h : results.get? i with
  | none =>
    simp only
    rw [collect_cache_outside clock results 0 _ i
      (Or.inr (by have := List.get?_eq_none.mp h; omega))]
  | some r =>
    simp only
    have := collect_cache_at clock results 0
      { successful := [], failed := [], fromCache := [], cache := cache } i r h
    simpa using this

theorem collect_append (clock : Nat → Int) (a b : List (Settled JsVal)) :
    ∀ (index : Nat) (st : FallbackState),
      collect clock (a ++ b) index st = collect clock b (index + a.length) (collect clock a index st) := by
  induction a with
  | nil => intro index st; simp [collect]
  | cons r rest ih =>
    intro index st
    have h := ih (index + 1) (visit st r index (clock index))
    have hidx : index + 1 + rest.length = index + (rest.length + 1) := by omega
    rw [hidx] at h
    simpa only [List.cons_append, collect, List.length_cons] using h

/-- The loop only appends to its arrays: one element to `successful` or to
`failed` per outcome, the failures and cache hits with the positions visited. -/
theorem collect_grows (clock : Nat → Int) (results : List (Settled JsVal)) :
    ∀ (index : Nat) (st : FallbackState),
      ∃ s2 f2 c2, (collect clock results index st).successful = st.successful ++ s2 ∧
        (collect clock results index st).failed = st.failed ++ f2 ∧
        (collect clock results index st).fromCache = st.fromCache ++ c2 ∧
        (∀ f ∈ f2, index ≤ f.index ∧ f.index < index + results.length) ∧
        s2.length + f2.length = results.length := by
  induction results with
  | nil =>
    intro index st
    exact ⟨[], [], [], by simp [collect], by simp [collect], by simp [collect], by simp, rfl⟩
  | cons r rest ih =>
    intro index st
    simp only [collect]
    obtain ⟨s2, f2, c2, h1, h2, h3, h4, h5⟩ := ih (index + 1) (visit st r index (clock index))
    have hv : ∃ s1 f1 c1, (visit st r index (clock index)).successful = st.successful ++ s1 ∧
        (visit st r index (clock index)).failed = st.failed ++ f1 ∧
        (visit st r index (clock index)).fromCache = st.fromCache ++ c1 ∧
        (∀ f ∈ f1, f.index = index) ∧ s1.length + f1.length = 1 := by
      cases r with
      | fulfilled value =>
        exact ⟨[value], [], [], by simp [visit], by simp [visit], by simp [visit], by simp, rfl⟩
      | rejected reason =>
        simp only [visit]
        rcases hg : getCache st.cache index (clock index) with ⟨_ | cached, cache1⟩
        · exact ⟨[], [_], [], by simp, rfl, by simp, by simp, rfl⟩
        · by_cases ht : cached.truthy = true
          · simp only [ht, if_true]
            exact ⟨[_], [], [_], rfl, by simp, rfl, by simp, rfl⟩
          · simp only [ht, if_false]
            exact ⟨[], [_], [], by simp, rfl, by simp, by simp, rfl⟩
    obtain ⟨s1, f1, c1, g1, g2, g3, g4, g5⟩ := hv
    refine ⟨s1 ++ s2, f1 ++ f2, c1 ++ c2, ?_, ?_, ?_, ?_, ?_⟩
    · rw [h1, g1, List.append_assoc]
    · rw [h2, g2, List.append_assoc]
    · rw [h3, g3, List.append_assoc]
    · intro f hf
      rw [List.mem_append] at hf
      rcases hf with hf | hf
      · have := g4 f hf
        simp only [List.length_cons]
        omega
      · have := h4 f hf
        simp only [List.length_cons]
        omega
    · simp only [List.length_append, List.length_cons]
      omega

end CachedFallbackStrategy

theorem List.split_at_get? {α : Type} (l : List α) :
    ∀ (i : Nat) (r : α), l.get? i = some r → ∃ pre post, l = pre ++ r :: post ∧ pre.length = i := by
  induction l with
  | nil => intro i r h; simp at h
  | cons a rest ih =>
    intro i r h
    cases i with
    | zero =>
      simp only [List.get?_cons_zero, Option.some.injEq] at h
      exact ⟨[], rest, by simp [h], rfl⟩
    | succ n =>
      simp only [List.get?_cons_succ] at h
      obtain ⟨pre, post, h1, h2⟩ := ih n r h
      exact ⟨a :: pre, post, by simp [h1], by simp [h2]⟩

namespace CachedFallbackStrategy

/-- An `aggregate` call whose outcome at `i` is not fulfilled leaves the entry
of `i` as it is or drops it. -/
theorem aggregate_entry_not_fulfilled (cache : FallbackCache) (results : List (Settled JsVal))
    (clock : Nat → Int) (i : Nat)
    (h : ∀ w, results.get? i ≠ some (.fulfilled w)) :
    (aggregate cache results clock).2 i = none ∨
      ((aggregate cache results clock).2 i = cache i ∧
        ∀ en, cache i = some en → results.get? i ≠ none → clock i - en.timestamp ≤ TTL) := by
  rw [aggregate_cache_at]
  cases hr : results.get? i with
  | none => exact Or.inr ⟨rfl, fun _ _ hne => absurd rfl hne⟩
  | some r =>
    cases r with
    | fulfilled w => exact absurd hr (h w)
    | rejected reason =>
      simp only [entryAfter]
      cases hc : cache i with
      | none => exact Or.inl rfl
      | some cached =>
        simp only
        by_cases hage : clock i - cached.timestamp > TTL
        · simp [hage]
        · simp only [hage, if_false]
          refine Or.inr ⟨trivial, ?_⟩
          intro en hen _
          simp only [Option.some.injEq] at hen
          subst hen
          omega

theorem aggregate_entry_kept (cache : FallbackCache) (results : List (Settled JsVal))
    (clock : Nat → Int) (i : Nat) (en : FallbackEntry)
    (h : ∀ w, results.get? i ≠ some (.fulfilled w)) (hc : cache i = some en)
    (hage : clock i - en.timestamp ≤ TTL) :
    (aggregate cache results clock).2 i = some en := by
  rw [aggregate_cache_at]
  cases hr : results.get? i with
  | none => exact hc
  | some r =>
    cases r with
    | fulfilled w => exact absurd hr (h w)
    | rejected reason =>
      have hn : ¬ (clock i - en.timestamp > TTL) := by omega
      simp [entryAfter, hc, hn]

theorem afterCalls_entry_kept (i : Nat) (en : FallbackEntry)
    (mids : List (List (Settled JsVal) × (Nat → Int))) :
    ∀ cache : FallbackCache, cache i = some en →
      (∀ call ∈ mids, (∀ w, call.1.get? i ≠ some (.fulfilled w)) ∧
        call.2 i - en.timestamp ≤ TTL) →
      afterCalls cache mids i = some en := by
  induction mids with
  | nil => intro cache hc _; exact hc
  | cons call rest ih =>
    intro cache hc h
    simp only [afterCalls]
    obtain ⟨h1, h2⟩ := h call (List.mem_cons_self _ _)
    exact ih _ (aggregate_entry_kept cache call.1 call.2 i en h1 hc h2)
      (fun c hcm => h c (List.mem_cons_of_mem _ hcm))

theorem afterCalls_entry_same_or_none (i : Nat) (entry : Option FallbackEntry)
    (mids : List (List (Settled JsVal) × (Nat → Int))) :
    ∀ cache : FallbackCache, (cache i = entry ∨ cache i = none) →
      (∀ call ∈ mids, ∀ w, call.1.get? i ≠ some (.fulfilled w)) →
      (afterCalls cache mids i = entry ∨ afterCalls cache mids i = none) := by
  induction mids with
  | nil => intro cache hc _; exact hc
  | cons call rest ih =>
    intro cache hc h
    simp only [afterCalls]
    apply ih _ _ (fun c hcm => h c (List.mem_cons_of_mem _ hcm))
    rcases aggregate_entry_not_fulfilled cache call.1 call.2 i (h call (List.mem_cons_self _ _))
      with h0 | ⟨h1, _⟩
    · exact Or.inr h0
    · rw [h1]
      exact hc

/-- The final call when the entry of `i` is live and truthy. -/
theorem aggregate_uses_live_entry (cache : FallbackCache) (results : List (Settled JsVal))
    (clock : Nat → Int) (i : Nat) (v : JsVal) (t0 : Int) (e : JsError)
    (hc : cache i = some { data := v, timestamp := t0 }) (hv : v.truthy = true)
    (hage : clock i - t0 ≤ TTL) (hr : results.get? i = some (.rejected e)) :
    ∃ before after,
      (aggregateLoop cache results clock).successful =
        before ++ [v.spreadWith "fromCache" (.bool true)] ++ after ∧
      before.length +
        ((aggregateLoop cache results clock).failed.filter (fun f => decide (f.index < i))).length
          = i ∧
      (∀ f ∈ (aggregateLoop cache results clock).failed, f.index ≠ i) ∧
      i ∈ (aggregateLoop cache results clock).fromCache := by
  obtain ⟨pre, post, hsplit, hlen⟩ := List.split_at_get? results i _ hr
  subst hsplit
  simp only [aggregateLoop]
  rw [collect_append, collect]
  simp only [Nat.zero_add, hlen]
  obtain ⟨s1, f1, c1, g1, g2, g3, g4, g5⟩ := collect_grows clock pre 0
    { successful := [], failed := [], fromCache := [], cache := cache }
  have hci : (collect clock pre 0
      { successful := [], failed := [], fromCache := [], cache := cache }).cache i = cache i :=
    collect_cache_outside clock pre 0 _ i (Or.inr (by omega))
  have hn : ¬ (clock i - t0 > TTL) := by omega
  have hvisit : visit (collect clock pre 0
      { successful := [], failed := [], fromCache := [], cache := cache }) (.rejected e) i (clock i)
      = { successful := s1 ++ [v.spreadWith "fromCache" (.bool true)]
          failed := f1
          fromCache := c1 ++ [i]
          cache := (collect clock pre 0
            { successful := [], failed := [], fromCache := [], cache := cache }).cache } := by
    simp only [visit, getCache, hci, hc, hn, if_false, hv, if_true]
    simp only [List.nil_append] at g1 g2 g3
    rw [g1, g2, g3]
  rw [hvisit]
  obtain ⟨s2, f2, c2, k1, k2, k3, k4, _⟩ := collect_grows clock post (i + 1)
    { successful := s1 ++ [v.spreadWith "fromCache" (.bool true)]
      failed := f1
      fromCache := c1 ++ [i]
      cache := (collect clock pre 0
        { successful := [], failed := [], fromCache := [], cache := cache }).cache }
  simp only at k1 k2 k3
  have hf1 : ∀ f ∈ f1, f.index < i := by
    intro f hf
    have := g4 f hf
    omega
  have hf2 : ∀ f ∈ f2, i + 1 ≤ f.index := fun f hf => (k4 f hf).1
  refine ⟨s1, s2, ?_, ?_, ?_, ?_⟩
  · rw [k1]
  · rw [k2, List.filter_append, List.length_append]
    have e1 : f1.filter (fun f => decide (f.index < i)) = f1 := by
      rw [List.filter_eq_self]
      intro f hf
      simpa using hf1 f hf
    have e2 : f2.filter (fun f => decide (f.index < i)) = [] := by
      rw [List.filter_eq_nil_iff]
      intro f hf
      have := hf2 f hf
      simp only [decide_eq_true_eq]
      omega
    rw [e1, e2]
    simp only [List.length_nil, Nat.zero_add, Nat.add_zero] at g5 ⊢
    omega
  · intro f hf
    rw [k2, List.mem_append] at hf
    rcases hf with hf | hf
    · have := hf1 f hf
      omega
    · have := hf2 f hf
      omega
  · rw [k3]
    simp

/-- The final call when the entry of `i` is missing or older than `TTL`. -/
theorem aggregate_records_failure (cache : FallbackCache) (results : List (Settled JsVal))
    (clock : Nat → Int) (i : Nat) (e : JsError)
    (hc : cache i = none ∨ ∃ en, cache i = some en ∧ clock i - en.timestamp > TTL)
    (hr : results.get? i = some (.rejected e)) :
    ({ index := i, reason := e.message } : FailedAPI) ∈
      (aggregateLoop cache results clock).failed := by
  obtain ⟨pre, post, hsplit, hlen⟩ := List.split_at_get? results i _ hr
  subst hsplit
  simp only [aggregateLoop]
  rw [collect_append, collect]
  simp only [Nat.zero_add, hlen]
  have hci : (collect clock pre 0
      { successful := [], failed := [], fromCache := [], cache := cache }).cache i = cache i :=
    collect_cache_outside clock pre 0 _ i (Or.inr (by omega))
  have hvisit : ({ index := i, reason := e.message } : FailedAPI) ∈
      (visit (collect clock pre 0
        { successful := [], failed := [], fromCache := [], cache := cache })
        (.rejected e) i (clock i)).failed := by
    rcases hc with hnone | ⟨en, hen, hage⟩
    · simp [visit, getCache, hci, hnone]
    · simp [visit, getCache, hci, hen, hage]
  obtain ⟨s2, f2, c2, _, k2, _, _, _⟩ := collect_grows clock post (i + 1)
    (visit (collect clock pre 0
      { successful := [], failed := [], fromCache := [], cache := cache })
      (.rejected e) i (clock i))
  rw [k2]
  exact List.mem_append_left _ hvisit

end CachedFallbackStrategy

/-- C23: the outcome at position `i` is fulfilled with a value `v` in an
`aggregate` call at time `t0 = clock0 i`, is not fulfilled in the calls
`mids` that follow (on any instances: the cache is static), and is rejected with
`e` in a later call at time `t1 = clock1 i`. When `t1 - t0 <= 300000` (and the
clock of the calls in between was not ahead of `t1`) the later result holds
`{...v, fromCache: true}` at `i`'s place in `data` (after as many elements as
there are positions before `i` that did not fail), `i` is absent from
`failedAPIs` and is in the `fromCache` list, whose length is the `fromCache`
count, and `successful` is the length of `data`. When `t1 - t0 > 300000`, `i` is
recorded in `failedAPIs` with its reason; so it is when position `i` never
succeeded since the static cache was created. The value `v` is truthy: the
fulfilled values `aggregateAPIs` hands to the strategy are the objects
`BaseAPIClient.fetch` returns, and every object is truthy. -/
theorem CachedFallbackStrategy.fallback_within_ttl (c0 : FallbackCache) (i : Nat) (v : JsVal)
    (e : JsError) (results0 results1 : List (Settled JsVal)) (clock0 clock1 : Nat → Int)
    (mids : List (List (Settled JsVal) × (Nat → Int)))
    (hfirst : results0.get? i = some (.fulfilled v))
    (hmids : ∀ call ∈ mids, ∀ w, call.1.get? i ≠ some (.fulfilled w))
    (hfinal : results1.get? i = some (.rejected e)) :
    (v.truthy = true → clock1 i - clock0 i ≤ CachedFallbackStrategy.TTL →
        (∀ call ∈ mids, call.2 i ≤ clock1 i) →
        ∃ before after,
          (CachedFallbackStrategy.aggregate
            (CachedFallbackStrategy.afterCalls c0 ((results0, clock0) :: mids))
            results1 clock1).1.data =
              before ++ [v.spreadWith "fromCache" (.bool true)] ++ after ∧
          before.length + ((CachedFallbackStrategy.aggregate
            (CachedFallbackStrategy.afterCalls c0 ((results0, clock0) :: mids))
            results1 clock1).1.failedAPIs.filter (fun f => decide (f.index < i))).length = i ∧
          (∀ f ∈ (CachedFallbackStrategy.aggregate
            (CachedFallbackStrategy.afterCalls c0 ((results0, clock0) :: mids))
            results1 clock1).1.failedAPIs, f.index ≠ i) ∧
          i ∈ (CachedFallbackStrategy.aggregateLoop
            (CachedFallbackStrategy.afterCalls c0 ((results0, clock0) :: mids))
            results1 clock1).fromCache ∧
          (CachedFallbackStrategy.aggregate
            (CachedFallbackStrategy.afterCalls c0 ((results0, clock0) :: mids))
            results1 clock1).1.fromCache =
              (CachedFallbackStrategy.aggregateLoop
                (CachedFallbackStrategy.afterCalls c0 ((results0, clock0) :: mids))
                results1 clock1).fromCache.length ∧
          (CachedFallbackStrategy.aggregate
            (CachedFallbackStrategy.afterCalls c0 ((results0, clock0) :: mids))
            results1 clock1).1.successful =
              (CachedFallbackStrategy.aggregate
                (CachedFallbackStrategy.afterCalls c0 ((results0, clock0) :: mids))
                results1 clock1).1.data.length) ∧
      (clock1 i - clock0 i > CachedFallbackStrategy.TTL →
        ({ index := i, reason := e.message } : FailedAPI) ∈
          (CachedFallbackStrategy.aggregate
            (CachedFallbackStrategy.afterCalls c0 ((results0, clock0) :: mids))
            results1 clock1).1.failedAPIs) ∧
      (∀ calls : List (List (Settled JsVal) × (Nat → Int)),
        (∀ call ∈ calls, ∀ w, call.1.get? i ≠ some (.fulfilled w)) →
        ({ index := i, reason := e.message } : FailedAPI) ∈
          (CachedFallbackStrategy.aggregate
            (CachedFallbackStrategy.afterCalls CachedFallbackStrategy.emptyCache calls)
            results1 clock1).1.failedAPIs) := by
  have hstored : (CachedFallbackStrategy.aggregate c0 results0 clock0).2 i =
      some { data := v, timestamp := clock0 i } := by
    rw [CachedFallbackStrategy.aggregate_cache_at, hfirst]
    rfl
  refine ⟨?_, ?_, ?_⟩
  · intro hv hage hclock
    have hkept : CachedFallbackStrategy.afterCalls c0 ((results0, clock0) :: mids) i =
        some { data := v, timestamp := clock0 i } := by
      simp only [CachedFallbackStrategy.afterCalls]
      apply CachedFallbackStrategy.afterCalls_entry_kept i _ mids _ hstored
      intro call hcall
      refine ⟨hmids call hcall, ?_⟩
      have := hclock call hcall
      simp only
      omega
    obtain ⟨before, after, h1, h2, h3, h4⟩ :=
      CachedFallbackStrategy.aggregate_uses_live_entry _ results1 clock1 i v (clock0 i) e hkept hv
        hage hfinal
    exact ⟨before, after, h1, h2, h3, h4, rfl, rfl⟩
  · intro hage
    have hstate := CachedFallbackStrategy.afterCalls_entry_same_or_none i
      (some { data := v, timestamp := clock0 i }) mids _ (Or.inl hstored) hmids
    apply CachedFallbackStrategy.aggregate_records_failure _ results1 clock1 i e _ hfinal
    simp only [CachedFallbackStrategy.afterCalls]
    rcases hstate with h | h
    · exact Or.inr ⟨_, h, hage⟩
    · exact Or.inl h
  · intro calls hcalls
    have hstate := CachedFallbackStrategy.afterCalls_entry_same_or_none i none calls
      CachedFallbackStrategy.emptyCache (Or.inl rfl) hcalls
    apply CachedFallbackStrategy.aggregate_records_failure _ results1 clock1 i e _ hfinal
    rcases hstate with h | h <;> exact Or.inl h

/-- Witness for C23: the payload is fulfilled at position 1 at time 0
and position 1 is rejected at time 300000, exactly five minutes later. -/
theorem CachedFallbackStrategy.fallback_within_ttl_witness :
    ∃ before after,
      (CachedFallbackStrategy.aggregate
        (CachedFallbackStrategy.afterCalls CachedFallbackStrategy.emptyCache
          ((fallbackFirst, fun _ => 0) :: []))
        fallbackLater (fun _ => 300000)).1.data =
          before ++ [samplePayload.spreadWith "fromCache" (.bool true)] ++ after ∧
      before.length + ((CachedFallbackStrategy.aggregate
        (CachedFallbackStrategy.afterCalls CachedFallbackStrategy.emptyCache
          ((fallbackFirst, fun _ => 0) :: []))
        fallbackLater (fun _ => 300000)).1.failedAPIs.filter
          (fun f => decide (f.index < 1))).length = 1 ∧
      (∀ f ∈ (CachedFallbackStrategy.aggregate
        (CachedFallbackStrategy.afterCalls CachedFallbackStrategy.emptyCache
          ((fallbackFirst, fun _ => 0) :: []))
        fallbackLater (fun _ => 300000)).1.failedAPIs, f.index ≠ 1) ∧
      1 ∈ (CachedFallbackStrategy.aggregateLoop
        (CachedFallbackStrategy.afterCalls CachedFallbackStrategy.emptyCache
          ((fallbackFirst, fun _ => 0) :: []))
        fallbackLater (fun _ => 300000)).fromCache ∧
      (CachedFallbackStrategy.aggregate
        (CachedFallbackStrategy.afterCalls CachedFallbackStrategy.emptyCache
          ((fallbackFirst, fun _ => 0) :: []))
        fallbackLater (fun _ => 300000)).1.fromCache =
          (CachedFallbackStrategy.aggregateLoop
            (CachedFallbackStrategy.afterCalls CachedFallbackStrategy.emptyCache
              ((fallbackFirst, fun _ => 0) :: []))
            fallbackLater (fun _ => 300000)).fromCache.length ∧
      (CachedFallbackStrategy.aggregate
        (CachedFallbackStrategy.afterCalls CachedFallbackStrategy.emptyCache
          ((fallbackFirst, fun _ => 0) :: []))
        fallbackLater (fun _ => 300000)).1.successful =
          (CachedFallbackStrategy.aggregate
            (CachedFallbackStrategy.afterCalls CachedFallbackStrategy.emptyCache
              ((fallbackFirst, fun _ => 0) :: []))
            fallbackLater (fun _ => 300000)).1.data.length :=
  (CachedFallbackStrategy.fallback_within_ttl CachedFallbackStrategy.emptyCache 1 samplePayload
    { message := "Timeout" } fallbackFirst fallbackLater (fun _ => 0) (fun _ => 300000) []
    rfl (fun _ h => absurd h (List.not_mem_nil _)) rfl).1 rfl (by decide)
    (fun _ h => absurd h (List.not_mem_nil _))

/-- Every object `BaseAPIClient.fetch` returns is truthy, so the test
`if (cached)` of the strategy passes for every value `aggregateAPIs` stored. -/
theorem FetchResult.toJsVal_truthy (r : FetchResult) : (FetchResult.toJsVal r).truthy = true :=
  rfl

/-! ### The aggregation service -/

theorem AllOrNothingStrategy.aggregate_error_iff {α : Type} (results : List (Settled α)) :
    (∃ e, AllOrNothingStrategy.aggregate results = .error e) ↔
      (∃ r ∈ results, r.value? = none) := by
  have hlen := rejectedFrom_length results 0
  rw [exists_rejected_iff_countP, AllOrNothingStrategy.aggregate_eq]
  by_cases h : (rejectedFrom results 0).length > 0
  · rw [if_pos h]
    constructor
    · intro _
      omega
    · intro _
      exact ⟨_, rfl⟩
  · rw [if_neg h]
    constructor
    · rintro ⟨e, he⟩
      cases he
    · intro h2
      omega

/-- Once the strategy is created, `aggregateAPIs` fails exactly when the
strategy does: what the pool answers does not matter. -/
theorem APIAggregatorService.aggregateAPIs_error_iff (strategyName : String)
    (strategy : Strategy) (outcomes : List FetchOutcome) (cache : FallbackCache)
    (clock : Nat → Int) (pool : Option (WorkerTask → Except JsError JsVal))
    (hs : AggregationStrategyFactory.createStrategy strategyName = .ok strategy) :
    (∃ e, (APIAggregatorService.aggregateAPIs strategyName outcomes cache clock pool).1
        = .error e) ↔
      (∃ e, (strategy.aggregate (outcomes.map APIAggregatorService.fetchWithTimeout)
        cache clock).1 = .error e) := by
  simp only [APIAggregatorService.aggregateAPIs, hs]
  rcases hagg : strategy.aggregate (outcomes.map APIAggregatorService.fetchWithTimeout)
    cache clock with ⟨res, cache1⟩
  cases res with
  | error e => simp
  | ok aggregated =>
    simp only
    cases pool with
    | none => simp
    | some execute =>
      simp only
      split_ifs
      · cases execute (APIAggregatorService.aggregateTask aggregated.data) <;> simp
      · simp

theorem Except.ok_or_error {ε α : Type} (x : Except ε α) :
    (∃ a, x = .ok a) ∨ (∃ e, x = .error e) := by
  cases x with
  | ok a => exact Or.inl ⟨a, rfl⟩
  | error e => exact Or.inr ⟨e, rfl⟩

theorem APIAggregatorService.exists_not_fulfilled_iff (outcomes : List FetchOutcome) :
    (∃ r ∈ outcomes.map APIAggregatorService.fetchWithTimeout, r.value? = none) ↔
      (∃ o ∈ outcomes, ∀ v, o ≠ .fulfilled v) := by
  constructor
  · rintro ⟨r, hr, hnone⟩
    obtain ⟨o, ho, rfl⟩ := List.mem_map.mp hr
    refine ⟨o, ho, ?_⟩
    intro v hv
    subst hv
    simp [APIAggregatorService.fetchWithTimeout, Settled.value?] at hnone
  · rintro ⟨o, ho, hne⟩
    refine ⟨_, List.mem_map_of_mem _ ho, ?_⟩
    cases o with
    | fulfilled v => exact absurd rfl (hne v)
    | rejected e => rfl
    | timedOut => rfl

/-- C24: for every list of per-upstream outcomes (fulfilled, rejected with an
Error, or timed out), every state of the static cache, every clock and every
pool (absent, or settling each submitted task with a message or with an error),
`aggregateAPIs` returns a result under `best-effort` and under
`cached-fallback`; under `all-or-nothing` it fails if and only if at least one
upstream is not fulfilled, and returns a result otherwise. -/
theorem APIAggregatorService.fails_only_all_or_nothing (outcomes : List FetchOutcome)
    (cache : FallbackCache) (clock : Nat → Int)
    (pool : Option (WorkerTask → Except JsError JsVal)) :
    (∃ r, (APIAggregatorService.aggregateAPIs "best-effort" outcomes cache clock pool).1
        = .ok r) ∧
      (∃ r, (APIAggregatorService.aggregateAPIs "cached-fallback" outcomes cache clock pool).1
        = .ok r) ∧
      ((∃ e, (APIAggregatorService.aggregateAPIs "all-or-nothing" outcomes cache clock pool).1
        = .error e) ↔ (∃ o ∈ outcomes, ∀ v, o ≠ .fulfilled v)) ∧
      ((∃ r, (APIAggregatorService.aggregateAPIs "all-or-nothing" outcomes cache clock pool).1
        = .ok r) ↔ (∀ o ∈ outcomes, ∃ v, o = .fulfilled v)) := by
  have hbe : AggregationStrategyFactory.createStrategy "best-effort" = .ok .bestEffort := rfl
  have hcf : AggregationStrategyFactory.createStrategy "cached-fallback" = .ok .cachedFallback :=
    rfl
  have han : AggregationStrategyFactory.createStrategy "all-or-nothing" = .ok .allOrNothing :=
    rfl
  have hiff : (∃ e, (APIAggregatorService.aggregateAPIs "all-or-nothing" outcomes cache clock
      pool).1 = .error e) ↔ (∃ o ∈ outcomes, ∀ v, o ≠ .fulfilled v) := by
    rw [APIAggregatorService.aggregateAPIs_error_iff _ _ outcomes cache clock pool han,
      ← APIAggregatorService.exists_not_fulfilled_iff, ← AllOrNothingStrategy.aggregate_error_iff]
    simp only [Strategy.aggregate]
    cases AllOrNothingStrategy.aggregate (outcomes.map APIAggregatorService.fetchWithTimeout)
      <;> simp
  refine ⟨?_, ?_, hiff, ?_⟩
  · rcases Except.ok_or_error
      (APIAggregatorService.aggregateAPIs "best-effort" outcomes cache clock pool).1 with h | h
    · exact h
    · rw [APIAggregatorService.aggregateAPIs_error_iff _ _ outcomes cache clock pool hbe] at h
      obtain ⟨e, he⟩ := h
      simp [Strategy.aggregate, BestEffortStrategy.aggregate] at he
  · rcases Except.ok_or_error
      (APIAggregatorService.aggregateAPIs "cached-fallback" outcomes cache clock pool).1
      with h | h
    · exact h
    · rw [APIAggregatorService.aggregateAPIs_error_iff _ _ outcomes cache clock pool hcf] at h
      obtain ⟨e, he⟩ := h
      simp [Strategy.aggregate] at he
  · constructor
    · rintro ⟨r, hr⟩ o ho
      by_contra hne
      have : ∃ e, (APIAggregatorService.aggregateAPIs "all-or-nothing" outcomes cache clock
          pool).1 = .error e := hiff.mpr ⟨o, ho, fun v hv => hne ⟨v, hv⟩⟩
      obtain ⟨e, he⟩ := this
      rw [hr] at he
      cases he
    · intro hall
      rcases Except.ok_or_error
        (APIAggregatorService.aggregateAPIs "all-or-nothing" outcomes cache clock pool).1
        with h | h
      · exact h
      · obtain ⟨o, ho, hne⟩ := hiff.mp h
        obtain ⟨v, hv⟩ := hall o ho
        exact absurd hv (hne v)

/-- When the promise of `execute(task)` rejects (the `error` event of the
worker), `aggregateAPIs` keeps the array of the strategy. -/
theorem APIAggregatorService.rejected_offload_keeps_data (outcomes : List FetchOutcome)
    (clock : Nat → Int) (execute : WorkerTask → Except JsError JsVal)
    (h : ∀ task, ∃ e, execute task = .error e) :
    (APIAggregatorService.aggregateAPIs "best-effort" outcomes
        CachedFallbackStrategy.emptyCache clock (some execute)).1 =
      (APIAggregatorService.aggregateAPIs "best-effort" outcomes
        CachedFallbackStrategy.emptyCache clock none).1 := by
  have hbe : AggregationStrategyFactory.createStrategy "best-effort" = .ok .bestEffort := rfl
  simp only [APIAggregatorService.aggregateAPIs, hbe, Strategy.aggregate,
    BestEffortStrategy.aggregate]
  split_ifs with hlen
  · obtain ⟨e, he⟩ := h (APIAggregatorService.aggregateTask
      (collectSettled (outcomes.map APIAggregatorService.fetchWithTimeout) 0 [] []).1)
    simp only [he]
  · rfl

/-- C25, the code against the claim: the upstream `users` answers with a JSON
array, `fetch` returns an item whose `data` is `undefined`, the strategy hands
the one-element list to the pool, `aggregateData` raises on it inside the
worker, the worker posts `{ error: message }`, the promise of `execute` is
fulfilled with it, and `aggregateAPIs` returns that object as `data` in place of
the unprocessed list. -/
theorem APIAggregatorService.worker_raise_replaces_data :
    (BaseAPIClient.fetch sampleKey usersFreshClient (.ok usersArrayBody)
        (FetchClock.fixed 1000)).1.map FetchResult.toJsVal = .ok usersArrayItem ∧
      aggregateData sampleBuilt (.arr [usersArrayItem]) =
        .error { message := "Cannot convert undefined or null to object" } ∧
      (APIAggregatorService.aggregateAPIs "best-effort" [.fulfilled usersArrayItem]
        CachedFallbackStrategy.emptyCache (fun _ => 1000)
        (some (APIAggregatorService.workingPool sampleBuilt "iso"))).1.map (fun r => r.data) =
          .ok (.obj [("error", .str "Cannot convert undefined or null to object")]) ∧
      (APIAggregatorService.aggregateAPIs "best-effort" [.fulfilled usersArrayItem]
        CachedFallbackStrategy.emptyCache (fun _ => 1000) none).1.map (fun r => r.data) =
          .ok (.arr [usersArrayItem]) := by
  refine ⟨rfl, rfl, rfl, rfl⟩

/-! ### The worker pool -/

namespace WorkerThreadPool

theorem Inv.new (size : Nat) : Inv (WorkerThreadPool.new size) [] where
  fifo := rfl
  saturated := fun h => absurd rfl h
  idle_nodup := List.nodup_range size
  busy_nodup := List.nodup_nil
  idle_not_busy := fun _ _ h => absurd h (List.not_mem_nil _)

theorem submittedJobs_append (a b : List PoolEvent) :
    submittedJobs (a ++ b) = submittedJobs a ++ submittedJobs b := by
  induction a with
  | nil => rfl
  | cons e rest ih =>
    cases e <;> simp [submittedJobs, ih]

theorem busyWorkers_filter (p : WorkerThreadPool) (worker : Nat) :
    (p.listeners.filter (fun l => decide (l.1 ≠ worker))).map (fun l => l.1) =
      p.busyWorkers.filter (fun w => decide (w ≠ worker)) := by
  simp only [busyWorkers, List.filter_map]
  rfl

theorem lookup_mem_busy (p : WorkerThreadPool) (worker job : Nat)
    (h : p.listeners.lookup worker = some job) : worker ∈ p.busyWorkers := by
  simp only [busyWorkers, List.mem_map]
  have hm : (worker, job) ∈ p.listeners := by
    generalize p.listeners = ls at h
    induction ls with
    | nil => simp at h
    | cons l rest ih =>
      obtain ⟨a, b⟩ := l
      by_cases hab : worker = a
      · subst hab
        simp only [List.lookup_cons, beq_self_eq_true] at h
        simp only [Option.some.injEq] at h
        subst h
        exact List.mem_cons_self _ _
      · have hbeq : (worker == a) = false := by simpa using hab
        simp only [List.lookup_cons, hbeq] at h
        exact List.mem_cons_of_mem _ (ih h)
  exact ⟨(worker, job), hm, rfl⟩

/-- A call `execute(job)` on a reachable pool. -/
theorem Inv.execute {p : WorkerThreadPool} {submitted : List Nat} (h : Inv p submitted)
    (job : Nat) : ∃ p1, p.execute job = .ok p1 ∧ Inv p1 (submitted ++ [job]) := by
  cases hav : p.availableWorkers with
  | nil =>
    refine ⟨{ p with taskQueue := p.taskQueue ++ [job] }, ?_, ?_⟩
    · simp [WorkerThreadPool.execute, hav]
    · refine ⟨?_, ?_, ?_, ?_, ?_⟩
      · have := h.fifo
        simp only [started] at this ⊢
        rw [← List.append_assoc, this]
      · intro _
        exact hav
      · exact h.idle_nodup
      · exact h.busy_nodup
      · exact h.idle_not_busy
  | cons worker rest =>
    have hq : p.taskQueue = [] := by
      by_contra hne
      have := h.saturated hne
      rw [hav] at this
      cases this
    have hnd := h.idle_nodup
    rw [hav] at hnd
    have hnb := h.idle_not_busy
    rw [hav] at hnb
    refine ⟨{ p with availableWorkers := rest
                     listeners := p.listeners ++ [(worker, job)]
                     posted := p.posted ++ [(worker, job)] }, ?_, ?_⟩
    · simp [WorkerThreadPool.execute, runTask, hav]
    · refine ⟨?_, ?_, ?_, ?_, ?_⟩
      · have := h.fifo
        simp only [started, hq, List.append_nil, List.map_append, List.map_cons,
          List.map_nil] at this ⊢
        rw [this]
      · intro hne
        exact absurd hq hne
      · exact (List.nodup_cons.mp hnd).2
      · simp only [busyWorkers, List.map_append, List.map_cons, List.map_nil]
        rw [List.nodup_append]
        refine ⟨h.busy_nodup, List.nodup_singleton _, ?_⟩
        intro a ha hb
        simp only [List.mem_singleton] at hb
        subst hb
        exact hnb a (List.mem_cons_self _ _) ha
      · intro w hw
        simp only [busyWorkers, List.map_append, List.map_cons, List.map_nil, List.mem_append,
          List.mem_singleton, not_or]
        refine ⟨hnb w (List.mem_cons_of_mem _ hw), ?_⟩
        intro hwe
        subst hwe
        exact (List.nodup_cons.mp hnd).1 hw

/-- A `message` or `error` event on a reachable pool. -/
theorem Inv.complete {p : WorkerThreadPool} {submitted : List Nat} (h : Inv p submitted)
    (worker : Nat) (resolved : Bool) :
    ∃ p1, p.complete worker resolved = .ok p1 ∧ Inv p1 submitted := by
  cases hl : p.listeners.lookup worker with
  | none => exact ⟨p, by simp [WorkerThreadPool.complete, hl], h⟩
  | some job =>
    have hbusy : worker ∈ p.busyWorkers := lookup_mem_busy p worker job hl
    have hnotidle : worker ∉ p.availableWorkers := fun hw => h.idle_not_busy worker hw hbusy
    have hfilter_nodup : (p.busyWorkers.filter (fun w => decide (w ≠ worker))).Nodup :=
      h.busy_nodup.filter _
    have hnot_in_filter : worker ∉ p.busyWorkers.filter (fun w => decide (w ≠ worker)) := by
      simp [List.mem_filter]
    cases hq : p.taskQueue with
    | nil =>
      refine ⟨{ p with availableWorkers := p.availableWorkers ++ [worker]
                       listeners := p.listeners.filter (fun l => l.1 ≠ worker)
                       settled := p.settled ++ [(job, resolved)] }, ?_, ?_⟩
      · simp [WorkerThreadPool.complete, hl, hq]
      · refine ⟨?_, ?_, ?_, ?_, ?_⟩
        · have := h.fifo
          simp only [started, hq] at this ⊢
          exact this
        · intro hne
          exact absurd hq hne
        · simp only
          rw [List.nodup_append]
          refine ⟨h.idle_nodup, List.nodup_singleton _, ?_⟩
          intro a ha hb
          simp only [List.mem_singleton] at hb
          subst hb
          exact hnotidle ha
        · simp only [busyWorkers]
          have := busyWorkers_filter p worker
          simp only [busyWorkers] at this hfilter_nodup
          rw [this]
          exact hfilter_nodup
        · intro w hw
          simp only [List.mem_append, List.mem_singleton] at hw
          have hbf := busyWorkers_filter p worker
          simp only [busyWorkers] at hbf ⊢
          rw [hbf]
          rcases hw with hw | hw
          · intro hmem
            exact h.idle_not_busy w hw (List.mem_of_mem_filter hmem)
          · subst hw
            exact hnot_in_filter
    | cons nextJob rest =>
      have hav : p.availableWorkers = [] := h.saturated (by simp [hq])
      refine ⟨{ p with availableWorkers := []
                       taskQueue := rest
                       listeners := p.listeners.filter (fun l => l.1 ≠ worker) ++
                         [(worker, nextJob)]
                       posted := p.posted ++ [(worker, nextJob)]
                       settled := p.settled ++ [(job, resolved)] }, ?_, ?_⟩
      · simp [WorkerThreadPool.complete, hl, hq, hav, runTask]
      · refine ⟨?_, ?_, ?_, ?_, ?_⟩
        · have := h.fifo
          simp only [started, hq, List.map_append, List.map_cons, List.map_nil,
            List.append_assoc, List.singleton_append] at this ⊢
          exact this
        · intro _
          rfl
        · exact List.nodup_nil
        · have hbf := busyWorkers_filter p worker
          simp only [busyWorkers, List.map_append, List.map_cons, List.map_nil] at hbf ⊢
          rw [hbf, List.nodup_append]
          refine ⟨hfilter_nodup, List.nodup_singleton _, ?_⟩
          intro a ha hb
          simp only [List.mem_singleton] at hb
          subst hb
          exact hnot_in_filter ha
        · intro w hw
          exact absurd hw (List.not_mem_nil _)

/-- An `exit` event on a reachable pool. -/
theorem Inv.exit {p : WorkerThreadPool} {submitted : List Nat} (h : Inv p submitted)
    (worker : Nat) (code : Int) : Inv (p.exit worker code) submitted := by
  by_cases hc : code = 0
  · simp only [WorkerThreadPool.exit, hc, ne_eq, not_true_eq_false, if_false]
    exact h
  · simp only [WorkerThreadPool.exit, ne_eq, hc, not_false_eq_true, if_true]
    refine ⟨h.fifo, ?_, ?_, h.busy_nodup, ?_⟩
    · intro hne
      simp only at hne ⊢
      rw [h.saturated hne]
      rfl
    · exact h.idle_nodup.filter _
    · intro w hw
      exact h.idle_not_busy w (List.mem_of_mem_filter hw)

theorem Inv.step {p : WorkerThreadPool} {submitted : List Nat} (h : Inv p submitted)
    (event : PoolEvent) :
    ∃ p1, p.step event = .ok p1 ∧ Inv p1 (submitted ++ submittedJobs [event]) := by
  cases event with
  | execute job => exact h.execute job
  | message worker =>
    simpa [WorkerThreadPool.step, submittedJobs] using h.complete worker true
  | error worker =>
    simpa [WorkerThreadPool.step, submittedJobs] using h.complete worker false
  | exit worker code =>
    exact ⟨p.exit worker code, rfl, by simpa [submittedJobs] using h.exit worker code⟩

theorem Inv.run_events (events : List PoolEvent) :
    ∀ {p : WorkerThreadPool} {submitted : List Nat}, Inv p submitted →
      ∃ p1, p.run events = .ok p1 ∧ Inv p1 (submitted ++ submittedJobs events) := by
  induction events with
  | nil =>
    intro p submitted h
    exact ⟨p, rfl, by simpa [submittedJobs] using h⟩
  | cons event rest ih =>
    intro p submitted h
    obtain ⟨p1, h1, hinv1⟩ := h.step event
    obtain ⟨p2, h2, hinv2⟩ := ih hinv1
    refine ⟨p2, ?_, ?_⟩
    · simp only [WorkerThreadPool.run, h1, h2]
    · have : submittedJobs (event :: rest) = submittedJobs [event] ++ submittedJobs rest :=
        submittedJobs_append [event] rest
      rw [this, ← List.append_assoc]
      exact hinv2

end WorkerThreadPool

/-- C26: for every pool size and every sequence of `execute` calls and `message`,
`error` and `exit` events, no call raises and the pool reached satisfies: the
jobs handed to a worker so far, in dispatch order, followed by the queue are
exactly the submitted jobs in submission order, so jobs start in submission
order; jobs wait in the queue only while no worker is idle; no worker is idle
and busy at once or runs two jobs. From such a pool, `execute` hands the job to
the first idle worker when there is one and appends it to the queue otherwise;
a completion on a busy worker settles its job, and then hands the oldest queued
job to that worker if the queue is not empty, and otherwise appends the worker
to the idle list. -/
theorem WorkerThreadPool.fifo_dispatch (size : Nat) (events : List PoolEvent) :
    ∃ p, (WorkerThreadPool.new size).run events = .ok p ∧
      p.started ++ p.taskQueue = submittedJobs events ∧
      p.started <+: submittedJobs events ∧
      (p.taskQueue ≠ [] → p.availableWorkers = []) ∧
      p.availableWorkers.Nodup ∧ p.busyWorkers.Nodup ∧
      (∀ w ∈ p.availableWorkers, w ∉ p.busyWorkers) ∧
      (∀ job worker rest, p.availableWorkers = worker :: rest →
        p.execute job = .ok { p with availableWorkers := rest
                                     listeners := p.listeners ++ [(worker, job)]
                                     posted := p.posted ++ [(worker, job)] }) ∧
      (∀ job, p.availableWorkers = [] →
        p.execute job = .ok { p with taskQueue := p.taskQueue ++ [job] }) ∧
      (∀ worker job resolved nextJob rest, p.listeners.lookup worker = some job →
        p.taskQueue = nextJob :: rest →
        p.complete worker resolved =
          .ok { p with taskQueue := rest
                       listeners := p.listeners.filter (fun l => l.1 ≠ worker) ++
                         [(worker, nextJob)]
                       posted := p.posted ++ [(worker, nextJob)]
                       settled := p.settled ++ [(job, resolved)] }) ∧
      (∀ worker job resolved, p.listeners.lookup worker = some job → p.taskQueue = [] →
        p.complete worker resolved =
          .ok { p with availableWorkers := p.availableWorkers ++ [worker]
                       listeners := p.listeners.filter (fun l => l.1 ≠ worker)
                       settled := p.settled ++ [(job, resolved)] }) := by
  obtain ⟨p, hrun, hinv⟩ := WorkerThreadPool.Inv.run_events events (WorkerThreadPool.Inv.new size)
  simp only [List.nil_append] at hinv
  refine ⟨p, hrun, hinv.fifo, ⟨p.taskQueue, hinv.fifo⟩, hinv.saturated, hinv.idle_nodup,
    hinv.busy_nodup, hinv.idle_not_busy, ?_, ?_, ?_, ?_⟩
  · intro job worker rest hav
    simp [WorkerThreadPool.execute, WorkerThreadPool.runTask, hav]
  · intro job hav
    simp [WorkerThreadPool.execute, hav]
  · intro worker job resolved nextJob rest hl hq
    have hav : p.availableWorkers = [] := hinv.saturated (by simp [hq])
    simp [WorkerThreadPool.complete, hl, hq, hav, WorkerThreadPool.runTask]
  · intro worker job resolved hl hq
    simp [WorkerThreadPool.complete, hl, hq]

/-- C27, the code against the claim: the client of `users` has four failures on
a closed breaker with threshold 5. A permitted `fetch()` whose request resolves
with the JSON value `null` runs `recordSuccess()` and then raises on
`result.data.data`, so the `catch` block runs `recordFailure()` too: the call
fails, and the breaker holds one failure and stays closed. `recordFailure()`
alone, which is what a rejected request runs, opens it. -/
theorem BaseAPIClient.null_payload_records_both :
    usersFailingClient.circuitBreaker.state = .CLOSED ∧
      usersFailingClient.circuitBreaker.failures = 4 ∧
      (BaseAPIClient.fetch sampleKey usersFailingClient (.ok .null) (FetchClock.fixed 2000)).1
        = .error { message := "Cannot read properties of null (reading \x27data\x27)" } ∧
      (BaseAPIClient.fetch sampleKey usersFailingClient (.ok .null)
        (FetchClock.fixed 2000)).2.circuitBreaker
        = (usersFailingClient.circuitBreaker.recordSuccess).recordFailure 2000 ∧
      (BaseAPIClient.fetch sampleKey usersFailingClient (.ok .null)
        (FetchClock.fixed 2000)).2.circuitBreaker.failures = 1 ∧
      (BaseAPIClient.fetch sampleKey usersFailingClient (.ok .null)
        (FetchClock.fixed 2000)).2.circuitBreaker.state = .CLOSED ∧
      (usersFailingClient.circuitBreaker.recordFailure 2000).state = .OPEN ∧
      (BaseAPIClient.fetch sampleKey usersFailingClient (.error { message := "HTTP 500" })
        (FetchClock.fixed 2000)).2.circuitBreaker
        = usersFailingClient.circuitBreaker.recordFailure 2000 := by
  refine ⟨rfl, rfl, rfl, rfl, rfl, rfl, rfl, rfl⟩

/-! ### The rate limiter -/

theorem List.lookup_some_mem {β : Type} (l : List (String × β)) (k : String) (v : β)
    (h : l.lookup k = some v) : (k, v) ∈ l := by
  induction l with
  | nil => simp at h
  | cons p rest ih =>
    obtain ⟨a, b⟩ := p
    by_cases hab : k = a
    · subst hab
      simp only [List.lookup_cons, beq_self_eq_true, Option.some.injEq] at h
      subst h
      exact List.mem_cons_self _ _
    · have hbeq : (k == a) = false := by simpa using hab
      simp only [List.lookup_cons, hbeq] at h
      exact List.mem_cons_of_mem _ (ih h)

namespace RateLimiter

/-- Every ceiling of the table is positive; the one of an inherited member is
undefined. -/
theorem getConfig_concurrent (apiName : String) :
    ((getConfig apiName).concurrent = none ∧ limits.lookup (baseName apiName) = none ∧
        baseName apiName ∈ objectPrototypeNames) ∨
      ∃ m, (getConfig apiName).concurrent = some m ∧ 0 < m := by
  have hall : ∀ p ∈ limits, ∃ m, p.2.concurrent = some m ∧ 0 < m := by decide
  simp only [getConfig]
  cases h : limits.lookup (baseName apiName) with
  | none =>
    by_cases hin : baseName apiName ∈ objectPrototypeNames
    · left
      simp [hin, inheritedMember]
    · right
      simp only [hin, if_false]
      exact ⟨5, rfl, by decide⟩
  | some config =>
    right
    exact hall _ (List.lookup_some_mem _ _ _ h)

theorem getBucket_activeRequests (rl : RateLimiter) (apiName : String) (created : Int) :
    (rl.getBucket apiName created).2.activeRequests = rl.activeRequests := by
  simp only [getBucket]
  cases mapGet rl.buckets apiName <;> rfl

theorem getBucket_buckets_ne (rl : RateLimiter) (apiName other : String) (created : Int)
    (h : other ≠ apiName) :
    mapGet (rl.getBucket apiName created).2.buckets other = mapGet rl.buckets other := by
  simp only [getBucket]
  cases mapGet rl.buckets apiName with
  | none => exact mapGet_mapSet_ne _ _ _ _ h
  | some b => rfl

theorem begin_activeRequests (rl : RateLimiter) (apiName : String) (clock : ExecuteClock) :
    (rl.begin apiName clock).activeRequests =
      mapSet rl.activeRequests apiName (some (rl.active apiName + 1)) := by
  simp only [RateLimiter.begin, active]
  exact getBucket_activeRequests _ apiName clock.created

theorem begin_buckets_ne (rl : RateLimiter) (apiName other : String) (clock : ExecuteClock)
    (h : other ≠ apiName) :
    mapGet (rl.begin apiName clock).buckets other = mapGet rl.buckets other := by
  simp only [RateLimiter.begin]
  rw [mapGet_mapSet_ne _ _ _ _ h]
  exact getBucket_buckets_ne _ apiName other clock.created h

theorem begin_active_self (rl : RateLimiter) (apiName : String) (clock : ExecuteClock) :
    (rl.begin apiName clock).active apiName = rl.active apiName + 1 := by
  rw [active, begin_activeRequests, mapGet_mapSet_self]
  rfl

theorem begin_active_ne (rl : RateLimiter) (apiName other : String) (clock : ExecuteClock)
    (h : other ≠ apiName) : (rl.begin apiName clock).active other = rl.active other := by
  rw [active, begin_activeRequests, mapGet_mapSet_ne _ _ _ _ h]
  rfl

theorem begin_count_ne (rl : RateLimiter) (apiName other : String) (clock : ExecuteClock)
    (h : other ≠ apiName) :
    mapGet (rl.begin apiName clock).activeRequests other = mapGet rl.activeRequests other := by
  rw [begin_activeRequests, mapGet_mapSet_ne _ _ _ _ h]

theorem finish_count_ne (rl : RateLimiter) (apiName other : String) (h : other ≠ apiName) :
    mapGet (rl.finish apiName).activeRequests other = mapGet rl.activeRequests other := by
  simp only [finish]
  exact mapGet_mapSet_ne _ _ _ _ h

theorem finish_active_ne (rl : RateLimiter) (apiName other : String) (h : other ≠ apiName) :
    (rl.finish apiName).active other = rl.active other := by
  rw [active, finish_count_ne rl apiName other h]
  rfl

theorem finish_count_self (rl : RateLimiter) (apiName : String) :
    mapGet (rl.finish apiName).activeRequests apiName =
      some (countMinusOne (mapGet rl.activeRequests apiName)) := by
  simp only [finish]
  exact mapGet_mapSet_self _ _ _

theorem tick_activeRequests (rl : RateLimiter) (apiName : String) (now : Int) :
    (rl.tick apiName now).activeRequests = rl.activeRequests := by
  simp only [tick]
  cases mapGet rl.buckets apiName <;> rfl

theorem resume_activeRequests (rl : RateLimiter) (apiName : String) (tokensShortage : ℚ)
    (wake : Int) : (rl.resume apiName tokensShortage wake).activeRequests = rl.activeRequests := by
  simp only [resume]
  cases mapGet rl.buckets apiName <;> rfl

theorem ticks_activeRequests (apiName : String) (ticks : List Int) :
    ∀ rl : RateLimiter,
      (ticks.foldl (fun acc now => acc.tick apiName now) rl).activeRequests =
        rl.activeRequests := by
  induction ticks with
  | nil => intro rl; rfl
  | cons t rest ih =>
    intro rl
    rw [List.foldl_cons, ih, tick_activeRequests]

theorem beforeRequest_activeRequests (rl : RateLimiter) (apiName : String)
    (clock : ExecuteClock) :
    (rl.beforeRequest apiName clock).activeRequests = (rl.begin apiName clock).activeRequests := by
  simp only [beforeRequest]
  cases rl.beginShortage apiName clock with
  | none => rfl
  | some tokensShortage =>
    simp only
    rw [resume_activeRequests, ticks_activeRequests]

theorem apply_count_ne (rl : RateLimiter) (event : RateEvent) (other : String)
    (h : event.counted ≠ some other) :
    mapGet (event.apply rl).activeRequests other = mapGet rl.activeRequests other := by
  cases event with
  | begin name clock =>
    have hne : other ≠ name := fun e => h (by rw [e]; rfl)
    exact begin_count_ne rl name other clock hne
  | finish name =>
    have hne : other ≠ name := fun e => h (by rw [e]; rfl)
    exact finish_count_ne rl name other hne
  | tick name now =>
    simp only [RateEvent.apply, tick_activeRequests]
  | resume name tokensShortage wake =>
    simp only [RateEvent.apply, resume_activeRequests]

theorem run_count_ne (events : List RateEvent) (other : String) :
    ∀ rl : RateLimiter, (∀ ev ∈ events, ev.counted ≠ some other) →
      mapGet (rl.run events).activeRequests other = mapGet rl.activeRequests other := by
  induction events with
  | nil => intro rl _; rfl
  | cons ev rest ih =>
    intro rl h
    simp only [run, List.foldl_cons]
    have h1 := ih (ev.apply rl) (fun e he => h e (List.mem_cons_of_mem _ he))
    simp only [run] at h1
    rw [h1]
    exact apply_count_ne rl ev other (h ev (List.mem_cons_self _ _))

/-- In a reachable limiter the stored count of a name is the number of its calls
in progress, or the entry is missing and no call is in progress. -/
theorem Reachable.count {rl : RateLimiter} {pending : String → Nat}
    (h : Reachable rl pending) (apiName : String) :
    mapGet rl.activeRequests apiName = some (some (pending apiName : Int)) ∨
      (mapGet rl.activeRequests apiName = none ∧ pending apiName = 0) := by
  induction h with
  | new => exact Or.inr ⟨rfl, rfl⟩
  | @begin rl0 pending0 name clock _ ih =>
    by_cases hn : apiName = name
    · subst hn
      left
      rw [begin_activeRequests, mapGet_mapSet_self, Function.update_same, active]
      rcases ih with h1 | ⟨h1, h2⟩
      · rw [h1]
        simp [countOrZero]
      · rw [h1, h2]
        simp [countOrZero]
    · rw [begin_count_ne rl0 name apiName clock hn, Function.update_noteq hn]
      exact ih
  | @finish rl0 pending0 name _ hpos ih =>
    by_cases hn : apiName = name
    · subst hn
      left
      rw [finish_count_self, Function.update_same]
      rcases ih with h1 | ⟨_, h2⟩
      · rw [h1]
        simp only [countMinusOne, Option.some.injEq]
        omega
      · omega
    · rw [finish_count_ne rl0 name apiName hn, Function.update_noteq hn]
      exact ih
  | @tick rl0 pending0 name now _ ih =>
    rw [tick_activeRequests]
    exact ih
  | @resume rl0 pending0 name tokensShortage wake _ ih =>
    rw [resume_activeRequests]
    exact ih

theorem Reachable.active_eq {rl : RateLimiter} {pending : String → Nat}
    (h : Reachable rl pending) (apiName : String) :
    rl.active apiName = (pending apiName : Int) := by
  rcases h.count apiName with h1 | ⟨h1, h2⟩
  · rw [active, h1]
    rfl
  · rw [active, h1, h2]
    rfl

end RateLimiter

/-- Counterexample to C28 as stated: two calls begin at time 0 on a new limiter,
for `jsonplaceholder-users` and for `jsonplaceholder-posts`, two names of the
same class. The limiter then holds two buckets with 19 tokens each and two
counters at 1; one shared bucket would hold 18 tokens and one shared counter
would be at 2. And the name `constructor-x`, whose prefix `constructor` is no
key of the table, does not get the `default` limits: it gets the member the
table inherits under that name, whose rate and ceiling are undefined. -/
theorem RateLimiter.buckets_per_name :
    RateLimiter.baseName "jsonplaceholder-users" = RateLimiter.baseName "jsonplaceholder-posts" ∧
      ((RateLimiter.new.begin "jsonplaceholder-users" (ExecuteClock.fixed 0)).begin
        "jsonplaceholder-posts" (ExecuteClock.fixed 0)).buckets.map
          (fun p => (p.1, p.2.map (fun b => b.tokens)))
        = [("jsonplaceholder-users", some 19), ("jsonplaceholder-posts", some 19)] ∧
      ((RateLimiter.new.begin "jsonplaceholder-users" (ExecuteClock.fixed 0)).begin
        "jsonplaceholder-posts" (ExecuteClock.fixed 0)).activeRequests
        = [("jsonplaceholder-users", some 1), ("jsonplaceholder-posts", some 1)] ∧
      RateLimiter.limits.lookup (RateLimiter.baseName "constructor-x") = none ∧
      RateLimiter.getConfig "constructor-x" = RateLimiter.inheritedMember ∧
      RateLimiter.getConfig "constructor-x" ≠ RateLimiter.defaultLimits := by
  refine ⟨by decide, by decide!, by decide!, by decide, by decide, by decide⟩

/-- C28, as amended: two different upstream names with the same class prefix
(the text before the first `-`) get the same limits from `getConfig`; the bucket
`getBucket` creates for a name has capacity twice the class rate and refills at
the class rate, and the slot test compares the count of the name with the class
ceiling. Bucket and counter are kept per full name: beginning or finishing a
call for one name leaves the bucket and the count of the other untouched. A name
whose prefix is no key of the table gets the `default` limits, unless the
prefix is the name of a member of `Object.prototype`: then it gets that member,
whose rate and ceiling are undefined. -/
theorem RateLimiter.limits_per_class (a b : String) (rl : RateLimiter) (clock : ExecuteClock)
    (hclass : RateLimiter.baseName a = RateLimiter.baseName b) (hne : a ≠ b) :
    RateLimiter.getConfig a = RateLimiter.getConfig b ∧
      (mapGet rl.buckets a = none →
        (rl.getBucket a clock.created).1 =
          (RateLimiter.getConfig b).requestsPerSecond.map
            (fun rate => TokenBucket.new (roundDouble (rate * 2)) rate clock.created)) ∧
      rl.slotFree a =
        (match (RateLimiter.getConfig b).concurrent with
          | some maxConcurrent => decide (rl.active a < maxConcurrent)
          | none => false) ∧
      mapGet (rl.begin a clock).buckets b = mapGet rl.buckets b ∧
      (rl.begin a clock).active b = rl.active b ∧
      (rl.begin a clock).active a = rl.active a + 1 ∧
      mapGet (rl.finish a).buckets b = mapGet rl.buckets b ∧
      (rl.finish a).active b = rl.active b ∧
      (∀ c, RateLimiter.limits.lookup (RateLimiter.baseName c) = none →
        RateLimiter.getConfig c =
          if RateLimiter.baseName c ∈ objectPrototypeNames then RateLimiter.inheritedMember
          else RateLimiter.defaultLimits) := by
  have hcfg : RateLimiter.getConfig a = RateLimiter.getConfig b := by
    simp only [RateLimiter.getConfig, hclass]
  refine ⟨hcfg, ?_, ?_, ?_, ?_, ?_, rfl, ?_, ?_⟩
  · intro hnone
    simp only [RateLimiter.getBucket, hnone, hcfg]
  · simp only [RateLimiter.slotFree, hcfg]
  · exact RateLimiter.begin_buckets_ne rl a b clock (Ne.symm hne)
  · exact RateLimiter.begin_active_ne rl a b clock (Ne.symm hne)
  · exact RateLimiter.begin_active_self rl a clock
  · exact RateLimiter.finish_active_ne rl a b (Ne.symm hne)
  · intro c hc
    simp only [RateLimiter.getConfig, hc]

/-- Witness for C28 as amended: the names `jsonplaceholder-users` and
`jsonplaceholder-posts` on a limiter where a call for the first began. -/
theorem RateLimiter.limits_per_class_witness :
    RateLimiter.getConfig "jsonplaceholder-users" = RateLimiter.getConfig "jsonplaceholder-posts" ∧
      mapGet ((RateLimiter.new.begin "jsonplaceholder-users" (ExecuteClock.fixed 0)).begin
        "jsonplaceholder-users" (ExecuteClock.fixed 10)).buckets "jsonplaceholder-posts" =
        mapGet (RateLimiter.new.begin "jsonplaceholder-users" (ExecuteClock.fixed 0)).buckets
          "jsonplaceholder-posts" :=
  ⟨(RateLimiter.limits_per_class "jsonplaceholder-users" "jsonplaceholder-posts"
      (RateLimiter.new.begin "jsonplaceholder-users" (ExecuteClock.fixed 0))
      (ExecuteClock.fixed 10) (by decide) (by decide)).1,
    (RateLimiter.limits_per_class "jsonplaceholder-users" "jsonplaceholder-posts"
      (RateLimiter.new.begin "jsonplaceholder-users" (ExecuteClock.fixed 0))
      (ExecuteClock.fixed 10) (by decide) (by decide)).2.2.2.1⟩

/-- C29: in every limiter that `execute` calls can produce, the active count of
a name is the number of its calls in progress, so it is never negative. A call
for `apiName` raises the count by one when it begins; the count stays there
while `bucket.consume(1)` waits and `requestFn` runs, whatever calls for other
names begin or finish and whatever refills and resumptions happen in the
meantime, and the `finally` block brings it back to the value before the call.
Every `execute` call that completes returns the outcome of `requestFn`,
fulfilled or rejected, with the count back at its previous value. With no call
for the name in progress the call completes, unless the ceiling of the name is
undefined (its prefix names a member of `Object.prototype`): then the slot test
never passes. -/
theorem RateLimiter.active_count_restored {α : Type} (rl : RateLimiter)
    (pending : String → Nat) (apiName : String) (requestFn : Except JsError α)
    (clock : ExecuteClock) (during : List RateEvent)
    (hreach : RateLimiter.Reachable rl pending)
    (hothers : ∀ ev ∈ during, ev.counted ≠ some apiName) :
    rl.active apiName = (pending apiName : Int) ∧ 0 ≤ rl.active apiName ∧
      (rl.begin apiName clock).active apiName = rl.active apiName + 1 ∧
      ((rl.begin apiName clock).run during).active apiName = rl.active apiName + 1 ∧
      (((rl.begin apiName clock).run during).finish apiName).active apiName
        = rl.active apiName ∧
      (rl.beforeRequest apiName clock).active apiName = rl.active apiName + 1 ∧
      (∀ outcome rl1, rl.execute apiName requestFn clock = some (outcome, rl1) →
        outcome = requestFn ∧ rl1.active apiName = rl.active apiName) ∧
      (pending apiName = 0 → (RateLimiter.getConfig apiName).concurrent ≠ none →
        rl.execute apiName requestFn clock =
          some (requestFn, (rl.beforeRequest apiName clock).finish apiName)) ∧
      ((RateLimiter.getConfig apiName).concurrent = none →
        rl.execute apiName requestFn clock = none) := by
  have hact := hreach.active_eq apiName
  have hbegin := RateLimiter.begin_active_self rl apiName clock
  have hcount : mapGet (rl.begin apiName clock).activeRequests apiName =
      some (some (rl.active apiName + 1)) := by
    rw [RateLimiter.begin_activeRequests, mapGet_mapSet_self]
  have hrun := RateLimiter.run_count_ne during apiName (rl.begin apiName clock) hothers
  have hfinish : ∀ r : RateLimiter,
      mapGet r.activeRequests apiName = some (some (rl.active apiName + 1)) →
      (r.finish apiName).active apiName = rl.active apiName := by
    intro r hr
    rw [RateLimiter.active, RateLimiter.finish_count_self, hr]
    simp [countMinusOne, countOrZero]
  have hbefore : mapGet (rl.beforeRequest apiName clock).activeRequests apiName =
      some (some (rl.active apiName + 1)) := by
    rw [RateLimiter.beforeRequest_activeRequests]
    exact hcount
  refine ⟨hact, by omega, hbegin, ?_, ?_, ?_, ?_, ?_, ?_⟩
  · rw [RateLimiter.active, hrun, hcount]
    rfl
  · exact hfinish _ (hrun.trans hcount)
  · rw [RateLimiter.active, hbefore]
    rfl
  · intro outcome rl1 hex
    simp only [RateLimiter.execute] at hex
    split_ifs at hex with hfree
    simp only [Option.some.injEq, Prod.mk.injEq] at hex
    obtain ⟨h1, h2⟩ := hex
    subst h1 h2
    exact ⟨rfl, hfinish _ hbefore⟩
  · intro hzero hdef
    have hfree : rl.slotFree apiName = true := by
      rcases RateLimiter.getConfig_concurrent apiName with ⟨hnone, _, _⟩ | ⟨m, hm, hpos⟩
      · exact absurd hnone hdef
      · simp only [RateLimiter.slotFree, hm, decide_eq_true_eq]
        omega
    simp only [RateLimiter.execute, hfree, if_true]
  · intro hnone
    simp only [RateLimiter.execute, RateLimiter.slotFree, hnone]
    simp

/-- Witness for C29: on a new limiter a call for `catfact` whose request is
rejected, while a call for `dogapi` begins. -/
theorem RateLimiter.active_count_restored_witness :
    (((RateLimiter.new.begin "catfact" (ExecuteClock.fixed 0)).run
        [.begin "dogapi" (ExecuteClock.fixed 5)]).finish "catfact").active "catfact"
        = RateLimiter.new.active "catfact" ∧
      RateLimiter.new.execute "catfact"
          (.error { message := "HTTP 500" } : Except JsError JsVal) (ExecuteClock.fixed 0) =
        some (.error { message := "HTTP 500" },
          (RateLimiter.new.beforeRequest "catfact" (ExecuteClock.fixed 0)).finish "catfact") :=
  ⟨(RateLimiter.active_count_restored RateLimiter.new (fun _ => 0) "catfact"
      (.error { message := "HTTP 500" } : Except JsError JsVal) (ExecuteClock.fixed 0)
      [.begin "dogapi" (ExecuteClock.fixed 5)] RateLimiter.Reachable.new
      (by decide)).2.2.2.2.1,
    (RateLimiter.active_count_restored RateLimiter.new (fun _ => 0) "catfact"
      (.error { message := "HTTP 500" } : Except JsError JsVal) (ExecuteClock.fixed 0)
      [.begin "dogapi" (ExecuteClock.fixed 5)] RateLimiter.Reachable.new
      (by decide)).2.2.2.2.2.2.2.1 rfl (by decide)⟩

/-- The name `constructor-x` has the prefix `constructor`, a member of
`Object.prototype`: its ceiling is undefined and `execute` never passes the slot
test. -/
theorem RateLimiter.inherited_name_never_runs :
    (RateLimiter.getConfig "constructor-x").concurrent = none ∧
      RateLimiter.new.slotFree "constructor-x" = false ∧
      RateLimiter.new.execute "constructor-x" (.ok JsVal.null) (ExecuteClock.fixed 0) = none := by
  refine ⟨by decide, by decide, rfl⟩

/-! ### The filter task of the worker -/

theorem itemMatches_obj (fields : List (String × JsVal)) (entries : List (String × JsVal)) :
    itemMatches (.obj fields) entries =
      .ok (entries.all (fun entry =>
        match (JsVal.obj fields).member entry.1 with
        | .ok (some found) => found.strictEq entry.2
        | _ => false)) := by
  induction entries with
  | nil => rfl
  | cons entry rest ih =>
    obtain ⟨key, value⟩ := entry
    simp only [itemMatches, List.all_cons, JsVal.member]
    cases hl : fields.lookup key with
    | some w =>
      simp only
      cases hs : w.strictEq value with
      | true => simpa [JsVal.member] using ih
      | false => simp
    | none =>
      simp only
      by_cases hk : key ∈ objectPrototypeNames
      · simp [hk]
      · simp only [hk, if_false]
        cases hs : JsVal.undefined.strictEq value with
        | true => simpa [JsVal.member] using ih
        | false => simp

theorem filterItems_objects (criteria : JsVal) (records : List JsVal)
    (hrec : ∀ item ∈ records, ∃ fields, item = .obj fields) :
    filterItems criteria.entries records = .ok (records.filter (matchesCriteria criteria)) := by
  induction records with
  | nil => rfl
  | cons item rest ih =>
    obtain ⟨fields, rfl⟩ := hrec item (List.mem_cons_self _ _)
    have ih1 := ih (fun i hi => hrec i (List.mem_cons_of_mem _ hi))
    simp only [filterItems, itemMatches_obj, ih1, List.filter_cons, matchesCriteria]

/-- C30: for every list of records (objects) and every criteria value,
`filterData` returns the list itself when the criteria are falsy (absent), and
otherwise exactly the records, in their original order, for which
`item[key] === value` holds for every entry of `Object.entries(criteria)`. With
the empty criteria object it returns every record, and filtering the result
again with the same criteria returns the same list. -/
theorem filterData_exact_match (records : List JsVal) (criteria : JsVal)
    (hrec : ∀ item ∈ records, ∃ fields, item = .obj fields) :
    filterData (.arr records) criteria =
        .ok (.arr (if criteria.truthy then records.filter (matchesCriteria criteria)
                   else records)) ∧
      (records.filter (matchesCriteria criteria)).Sublist records ∧
      (∀ item, item ∈ records.filter (matchesCriteria criteria) ↔
        item ∈ records ∧ ∀ entry ∈ criteria.entries, ∃ found,
          item.member entry.1 = .ok (some found) ∧ found.strictEq entry.2 = true) ∧
      filterData (.arr records) .undefined = .ok (.arr records) ∧
      filterData (.arr records) (.obj []) = .ok (.arr records) ∧
      (∀ once, filterData (.arr records) criteria = .ok once →
        filterData once criteria = .ok once) := by
  have hmain : filterData (.arr records) criteria =
      .ok (.arr (if criteria.truthy then records.filter (matchesCriteria criteria)
                 else records)) := by
    cases ht : criteria.truthy with
    | false => simp [filterData, ht]
    | true => simp [filterData, ht, filterItems_objects criteria records hrec]
  refine ⟨hmain, List.filter_sublist _, ?_, ?_, ?_, ?_⟩
  · intro item
    simp only [List.mem_filter, matchesCriteria, List.all_eq_true]
    constructor
    · rintro ⟨hm, hall⟩
      refine ⟨hm, ?_⟩
      intro entry he
      have := hall entry he
      cases hmem : item.member entry.1 with
      | error e => simp [hmem] at this
      | ok found =>
        cases found with
        | none => simp [hmem] at this
        | some w =>
          simp only [hmem] at this
          exact ⟨w, rfl, this⟩
    · rintro ⟨hm, hall⟩
      refine ⟨hm, ?_⟩
      intro entry he
      obtain ⟨found, h1, h2⟩ := hall entry he
      simp only [h1, h2]
  · simp [filterData, JsVal.truthy]
  · have hall : filterItems (JsVal.obj []).entries records = .ok records := by
      rw [filterItems_objects (.obj []) records hrec]
      simp [matchesCriteria, JsVal.entries]
    simp only [JsVal.entries] at hall
    simp [filterData, JsVal.truthy, JsVal.entries, hall]
  · intro once honce
    rw [hmain] at honce
    simp only [Except.ok.injEq] at honce
    subst honce
    cases ht : criteria.truthy with
    | false => simp [filterData, ht]
    | true =>
      simp only [if_true]
      have hrec2 : ∀ item ∈ records.filter (matchesCriteria criteria),
          ∃ fields, item = .obj fields :=
        fun item hi => hrec item (List.mem_of_mem_filter hi)
      simp [filterData, ht, filterItems_objects criteria _ hrec2, List.filter_filter]

/-- Witness for C30: the three sample records filtered by `{ source: "users" }`
give the first and the third. -/
theorem filterData_exact_match_witness :
    filterData (.arr sampleRecords) (.obj [("source", .str "users")]) =
      .ok (.arr (if (JsVal.obj [("source", .str "users")]).truthy then
        sampleRecords.filter (matchesCriteria (.obj [("source", .str "users")]))
        else sampleRecords)) ∧
      sampleRecords.filter (matchesCriteria (.obj [("source", .str "users")])) =
        [.obj [("source", .str "users"), ("kind", .num 1)],
         .obj [("source", .str "users"), ("kind", .num 2)]] :=
  ⟨(filterData_exact_match sampleRecords (.obj [("source", .str "users")])
      (by
        intro item hi
        simp only [sampleRecords, List.mem_cons, List.mem_singleton, List.not_mem_nil,
          or_false] at hi
        rcases hi with h | h | h <;> exact ⟨_, h⟩)).1, rfl⟩

/-! ### Invariants of the cache and of the breaker -/

/-- C31: after every sequence of `set`, `get`, `invalidate`, `cleanup`, `clear`
and `evictLRU` calls on a constructed cache, the recency list `accessOrder` has
no key twice and holds exactly the keys of the entry map (which has one entry
per key), so both have the same length; and it is ordered by the position of
the most recent call that set the key or read it successfully, least recent
first. -/
theorem RequestCache.accessOrder_tracks_entries {α : Type} (options : RequestCacheOptions)
    (ops : List (CacheOp α)) :
    ((RequestCache.new options).run ops).accessOrder.Nodup ∧
      ((RequestCache.new options).run ops).keys.Nodup ∧
      (∀ k, k ∈ ((RequestCache.new options).run ops).accessOrder ↔
        k ∈ ((RequestCache.new options).run ops).keys) ∧
      ((RequestCache.new options).run ops).accessOrder.length =
        ((RequestCache.new options).run ops).cache.length ∧
      ((RequestCache.new options).run ops).accessOrder.Pairwise (fun a b =>
        RequestCache.lastTouch (RequestCache.new options) ops a <
          RequestCache.lastTouch (RequestCache.new options) ops b) ∧
      (∀ k ∈ ((RequestCache.new options).run ops).accessOrder,
        0 < RequestCache.lastTouch (RequestCache.new options) ops k) := by
  have hsync := (RequestCache.synced_new (α := α) options).run ops
  obtain ⟨hord, hpos⟩ := RequestCache.history_ordered (RequestCache.new options : RequestCache α)
    (RequestCache.synced_new options) rfl ops
  obtain ⟨h1, h2, h3⟩ := hsync
  refine ⟨h1, h2, h3, ?_, hord, hpos⟩
  rw [RequestCache.cache_length_eq_keys]
  exact ((List.perm_ext_iff_of_nodup h1 h2).mpr h3).length_eq

/-- C32: in every breaker reachable from construction through `canExecute`,
`recordSuccess` and `recordFailure`, both thresholds are at least 1 (the
constructor replaces `0` and an absent option by the defaults),
`successCount` is 0 whenever the state is not HalfOpen, `successCount` is below
`successThreshold` whenever it is HalfOpen, and `failures` is below `threshold`
whenever the state is Closed. -/
theorem CircuitBreaker.reachable_counters_bounded (cb : CircuitBreaker)
    (h : cb.Reachable) :
    1 ≤ cb.threshold ∧ 1 ≤ cb.successThreshold ∧
      (cb.state ≠ .HALF_OPEN → cb.successCount = 0) ∧
      (cb.state = .HALF_OPEN → cb.successCount < cb.successThreshold) ∧
      (cb.state = .CLOSED → cb.failures < cb.threshold) := by
  induction h with
  | init name options =>
    have hd : ∀ (x : Option Nat) (d : Nat), 1 ≤ d → 1 ≤ orDefaultNat x d := by
      intro x d hd
      cases x with
      | none => exact hd
      | some v =>
        simp only [orDefaultNat]
        split_ifs <;> omega
    refine ⟨hd _ 5 (by decide), hd _ 2 (by decide), fun _ => rfl, ?_, ?_⟩
    · intro hs
      simp [CircuitBreaker.new] at hs
    · intro _
      exact hd _ 5 (by decide)
  | @step cb0 op _ ih =>
    obtain ⟨ht, hst, h1, h2, h3⟩ := ih
    obtain ⟨name, state, failures, threshold, timeout, last, successThreshold, successCount⟩ :=
      cb0
    simp only at ht hst h1 h2 h3
    cases op with
    | canExecute now =>
      simp only [BreakerOp.apply, CircuitBreaker.canExecute]
      cases state with
      | CLOSED => simpa using ⟨ht, hst, h1 (by decide), h3 rfl⟩
      | OPEN =>
        simp only [reduceCtorEq, if_false, if_true]
        split_ifs
        · simpa using ⟨ht, hst, by omega⟩
        · simpa using ⟨ht, hst, h1 (by decide)⟩
      | HALF_OPEN => simpa using ⟨ht, hst, h2 rfl⟩
    | recordSuccess =>
      simp only [BreakerOp.apply, CircuitBreaker.recordSuccess]
      cases state with
      | CLOSED => simpa using ⟨ht, hst, h1 (by decide), by omega⟩
      | OPEN => simpa using ⟨ht, hst, h1 (by decide)⟩
      | HALF_OPEN =>
        simp only [if_true]
        split_ifs with hge
        · simpa using ⟨ht, hst, by omega⟩
        · simp only at hge
          simpa using ⟨ht, hst, by omega⟩
    | recordFailure now =>
      simp only [BreakerOp.apply, CircuitBreaker.recordFailure]
      cases state with
      | CLOSED =>
        have hz := h1 (by decide)
        by_cases hge : failures + 1 ≥ threshold
        · simpa [hge] using ⟨ht, hst, hz⟩
        · simpa [hge] using ⟨ht, hst, hz, by omega⟩
      | OPEN => simpa using ⟨ht, hst, h1 (by decide)⟩
      | HALF_OPEN => simpa using ⟨ht, hst⟩

/-- Witness for C32: a new breaker after one `recordFailure`. -/
theorem CircuitBreaker.reachable_counters_bounded_witness :
    ((BreakerOp.recordFailure 5).apply (CircuitBreaker.new "users")).failures <
      ((BreakerOp.recordFailure 5).apply (CircuitBreaker.new "users")).threshold :=
  (CircuitBreaker.reachable_counters_bounded _
    (CircuitBreaker.Reachable.step (.recordFailure 5)
      (CircuitBreaker.Reachable.init "users" {}))).2.2.2.2 rfl

/-- C33: on every constructed cache that holds `maxSize` entries, `set` on a key
`k` that is already present first removes the least recently used entry `lru`
(the head of the recency list) and then stores the new entry of `k`; when `lru`
is another key its entry is lost and the cache ends with `maxSize - 1` entries,
when `lru` is `k` itself the cache still holds `maxSize` entries. There is such
a cache with `maxSize = 2` whose least recently used entry is another key:
after `set a`, `set b`, `get a`, the call `set a` drops `b` and leaves one
entry. -/
theorem RequestCache.set_present_key_evicts {α : Type} :
    (∀ (c : RequestCache α), c.Reachable → (c.cache.length : Int) = c.maxSize →
      ∀ k ∈ c.keys, ∀ (v : α) (owner : String) (ttl : Option Int) (t1 t2 : Int),
        ∃ lru rest, c.accessOrder = lru :: rest ∧ lru ∈ c.keys ∧
          (c.set k v owner ttl t1 t2).cache =
            mapSet (mapDelete c.cache lru) k
              { key := k, apiName := owner, data := v, createdAt := t1,
                expiresAt := t2 + ttl.getD c.defaultTTL, hits := 0 } ∧
          (lru ≠ k → mapGet (c.set k v owner ttl t1 t2).cache lru = none ∧
            ((c.set k v owner ttl t1 t2).cache.length : Int) = c.maxSize - 1) ∧
          (lru = k → ((c.set k v owner ttl t1 t2).cache.length : Int) = c.maxSize)) ∧
      (∃ (c : RequestCache String) (k lru : CacheKey), c.Reachable ∧ 2 ≤ c.maxSize ∧
        (c.cache.length : Int) = c.maxSize ∧ k ∈ c.keys ∧ c.accessOrder.head? = some lru ∧
        lru ≠ k ∧ (mapGet c.cache lru).isSome = true ∧
        mapGet (c.set k "new" "users" none 3 3).cache lru = none ∧
        ((c.set k "new" "users" none 3 3).cache.length : Int) = c.maxSize - 1) := by
  constructor
  · intro c hreach hfull k hk v owner ttl t1 t2
    obtain ⟨options, ops, hc⟩ := hreach
    have hsync : c.Synced := hc ▸ (RequestCache.synced_new options).run ops
    have hms : c.maxSize ≠ 0 := by
      rw [hc, RequestCache.run_maxSize]
      exact RequestCache.new_maxSize_ne_zero options
    obtain ⟨hn1, hn2, hmem⟩ := hsync
    cases hao : c.accessOrder with
    | nil =>
      exfalso
      have := (hmem k).mpr hk
      rw [hao] at this
      cases this
    | cons lru rest =>
      have hlru : lru ∈ c.keys := (hmem lru).mp (by rw [hao]; exact List.mem_cons_self _ _)
      have hset : (c.set k v owner ttl t1 t2).cache =
          mapSet (mapDelete c.cache lru) k
            { key := k, apiName := owner, data := v, createdAt := t1,
              expiresAt := t2 + ttl.getD c.defaultTTL, hits := 0 } := by
        unfold RequestCache.set
        simp only [ge_iff_le, hfull, le_refl, if_true]
        rw [RequestCache.evictLRU_eq_deleteKey c lru rest hao]
        rfl
      have herase : c.keys.filter (fun x => decide (x ≠ lru)) = c.keys.erase lru := by
        rw [hn2.erase_eq_filter lru]
        apply List.filter_congr
        intro x _
        simp only [bne, ne_eq, decide_not]
        rfl
      have hlen0 : (c.keys.erase lru).length + 1 = c.keys.length := by
        rw [List.length_erase_of_mem hlru]
        have : 0 < c.keys.length := List.length_pos_of_mem hlru
        omega
      have hkeys : (c.set k v owner ttl t1 t2).cache.map Prod.fst =
          if k ∈ c.keys.erase lru then c.keys.erase lru else c.keys.erase lru ++ [k] := by
        rw [hset, keys_mapSet, keys_mapDelete]
        have hk2 : List.filter (fun x => decide (x ≠ lru)) (List.map Prod.fst c.cache) =
            c.keys.erase lru := herase
        rw [hk2]
      have hlen : (c.set k v owner ttl t1 t2).cache.length =
          ((c.set k v owner ttl t1 t2).cache.map Prod.fst).length := by simp
      have hclen : c.cache.length = c.keys.length := RequestCache.cache_length_eq_keys c
      refine ⟨lru, rest, rfl, hlru, hset, ?_, ?_⟩
      · intro hne
        constructor
        · rw [hset, mapGet_mapSet_ne _ k lru _ hne]
          exact mapGet_mapDelete_self _ lru
        · have hin : k ∈ c.keys.erase lru := (List.mem_erase_of_ne (Ne.symm hne)).mpr hk
          rw [hlen, hkeys, if_pos hin]
          omega
      · intro heq
        subst heq
        have hnotin : lru ∉ c.keys.erase lru := hn2.not_mem_erase
        rw [hlen, hkeys, if_neg hnotin, List.length_append, List.length_singleton]
        omega
  · exact ⟨RequestCache.sampleFull, "a", "b",
      ⟨{ maxSize := some 2 }, RequestCache.sampleHistory, rfl⟩,
      by decide, by decide, by decide, by decide, by decide, by decide, by decide, by decide⟩

/-! ### The parser of a client -/

namespace RequestCache

variable {α : Type}

theorem get_some_entry (c : RequestCache α) (key : CacheKey) (now : Int) (cached : α)
    (h : (c.get key now).1 = some cached) :
    ∃ entry, mapGet c.cache key = some entry ∧ entry.data = cached ∧
      (c.get key now).2.cache = c.cache := by
  simp only [RequestCache.get] at h ⊢
  cases hm : mapGet c.cache key with
  | none => simp [hm] at h
  | some entry =>
    simp only [hm] at h ⊢
    by_cases hexp : now > entry.expiresAt
    · simp [hexp] at h
    · simp only [hexp, if_false, Option.some.injEq] at h ⊢
      exact ⟨entry, rfl, h, rfl⟩

theorem get_none_entry (c : RequestCache α) (key : CacheKey) (now : Int)
    (entry : CacheEntry α) (h : mapGet (c.get key now).2.cache key = some entry) :
    mapGet c.cache key = some entry := by
  simp only [RequestCache.get] at h
  cases hm : mapGet c.cache key with
  | none =>
    simp only [hm] at h
    exact h
  | some e =>
    simp only [hm] at h
    split_ifs at h with hexp
    · have : mapGet (c.deleteKey key).cache key = none := mapGet_mapDelete_self _ key
      rw [this] at h
      cases h
    · have : (c.updateAccessOrder key).cache = c.cache := rfl
      rw [this, hm] at h
      exact h

/-- The payload `executeWithCache` answers with is the one the request returned
or the one of the entry the map held for the key. -/
theorem executeWithCache_data (truthy : α → Bool) (generateKey : String → String → CacheKey)
    (c : RequestCache α) (apiName : String) (requestFn : Except JsError α) (params : String)
    (ttl : Option Int) (clock : CacheClock) (r : CacheResponse α)
    (h : (executeWithCache truthy generateKey c apiName requestFn params ttl clock).1 = .ok r) :
    requestFn = .ok r.data ∨
      ∃ entry, mapGet c.cache (generateKey apiName params) = some entry ∧
        entry.data = r.data := by
  simp only [executeWithCache, executeWithCacheStart] at h
  rcases hget : c.get (generateKey apiName params) clock.get with ⟨res, c1⟩
  have hfst : (c.get (generateKey apiName params) clock.get).1 = res := by rw [hget]
  have hsnd : (c.get (generateKey apiName params) clock.get).2 = c1 := by rw [hget]
  rw [hget] at h
  have hsettle : (executeWithCacheSettle c1 (generateKey apiName params) apiName ttl requestFn
      clock.created clock.expires clock.staleAge).1 = .ok r →
      requestFn = .ok r.data ∨
        ∃ entry, mapGet c.cache (generateKey apiName params) = some entry ∧
          entry.data = r.data := by
    intro hs
    simp only [executeWithCacheSettle] at hs
    cases requestFn with
    | ok data =>
      simp only [Except.ok.injEq] at hs
      subst hs
      exact Or.inl rfl
    | error e =>
      simp only at hs
      cases hm : mapGet c1.cache (generateKey apiName params) with
      | none => simp [hm] at hs
      | some entry =>
        simp only [hm, Except.ok.injEq] at hs
        subst hs
        rw [← hsnd] at hm
        exact Or.inr ⟨entry, get_none_entry c _ _ entry hm, rfl⟩
  cases res with
  | none => exact hsettle h
  | some cached =>
    simp only at h
    by_cases ht : truthy cached = true
    · simp only [ht, if_true] at h
      cases hm : mapGet c1.cache (generateKey apiName params) with
      | none => simp [hm] at h
      | some entry =>
        simp only [hm, Except.ok.injEq] at h
        subst h
        obtain ⟨e0, h0, h1, _⟩ := get_some_entry c _ _ cached hfst
        exact Or.inr ⟨e0, h0, h1⟩
    · simp only [ht] at h
      exact hsettle h

end RequestCache

/-- Counterexample to C34 as stated: the breaker of `users` is Open and the
cache holds the body `{ data: [1], timestamp: "t0" }`, not expired. `fetch()` at
time 2000 succeeds, and its `data` is that whole body and its `timestamp` the
current time, not the `data` and `timestamp` properties of the body. -/
theorem BaseAPIClient.refused_fetch_returns_body :
    (BaseAPIClient.fetch sampleKey usersOpenClient (.ok samplePayload)
        (FetchClock.fixed 2000)).1 =
      .ok { source := "users", data := samplePayload, timestamp := .str "iso",
            fromCache := true, stale := true } ∧
      samplePayload.getProp "data" = .ok (.arr [.num 1]) ∧
      samplePayload.getProp "timestamp" = .ok (.str "t0") ∧
      samplePayload ≠ .arr [.num 1] ∧ JsVal.str "iso" ≠ .str "t0" := by
  refine ⟨rfl, rfl, rfl, ?_, ?_⟩
  · intro h
    exact JsVal.noConfusion h
  · intro h
    have := JsVal.str.inj h
    exact absurd this (by decide)

/-- C34, as amended: for every two clients that differ only in their parser, the
same upstream outcome and the same clock, `fetch()` returns the same value and
leaves the same cache and breaker state, and the parser is still the one
constructed. When the call succeeds, either the breaker permitted it and `data`
and `timestamp` are the properties of those names of a body, the one the
request returned or the one the cache held for the key; or the breaker refused
it and `data` is the whole body the cache held, `timestamp` the current time,
and `stale` is set. -/
theorem ConfiguredClient.fetch_ignores_parser (generateKey : String → String → CacheKey)
    (a b : ConfiguredClient) (upstream : Except JsError JsVal) (clock : FetchClock)
    (hclient : a.client = b.client) (hurl : a.url = b.url) :
    (a.fetch generateKey upstream clock).1 = (b.fetch generateKey upstream clock).1 ∧
      (a.fetch generateKey upstream clock).2.client =
        (b.fetch generateKey upstream clock).2.client ∧
      (a.fetch generateKey upstream clock).2.url = (b.fetch generateKey upstream clock).2.url ∧
      (a.fetch generateKey upstream clock).2.parser = a.parser ∧
      (b.fetch generateKey upstream clock).2.parser = b.parser ∧
      (∀ r, (a.fetch generateKey upstream clock).1 = .ok r →
        ((a.client.circuitBreaker.canExecute clock.canExecute).1 = true ∧ r.stale = false ∧
          ∃ body, (upstream = .ok body ∨
              ∃ entry, mapGet a.client.cache.cache
                  (generateKey a.client.name BaseAPIClient.emptyParams) = some entry ∧
                entry.data = body) ∧
            body.getProp "data" = .ok r.data ∧ body.getProp "timestamp" = .ok r.timestamp) ∨
        ((a.client.circuitBreaker.canExecute clock.canExecute).1 = false ∧ r.stale = true ∧
          r.timestamp = .str clock.iso ∧
          ∃ entry, mapGet a.client.cache.cache
              (generateKey a.client.name BaseAPIClient.emptyParams) = some entry ∧
            entry.data = r.data)) := by
  refine ⟨by simp only [ConfiguredClient.fetch, hclient],
    by simp only [ConfiguredClient.fetch, hclient], hurl, rfl, rfl, ?_⟩
  intro r hr
  simp only [ConfiguredClient.fetch] at hr
  generalize a.client = cl at hr ⊢
  simp only [BaseAPIClient.fetch] at hr
  rcases hcan : cl.circuitBreaker.canExecute clock.canExecute with ⟨permitted, cb1⟩
  rw [hcan] at hr
  cases permitted with
  | false =>
    right
    simp only at hr
    rcases hget : cl.cache.get (generateKey cl.name BaseAPIClient.emptyParams) clock.cache.get
      with ⟨res, c1⟩
    have hfst : (cl.cache.get (generateKey cl.name BaseAPIClient.emptyParams)
        clock.cache.get).1 = res := by rw [hget]
    rw [hget] at hr
    cases res with
    | none => simp at hr
    | some cached =>
      simp only at hr
      by_cases ht : cached.truthy = true
      · simp only [ht, if_true, Except.ok.injEq] at hr
        subst hr
        obtain ⟨entry, h0, h1, _⟩ := RequestCache.get_some_entry cl.cache _ _ cached hfst
        exact ⟨rfl, rfl, rfl, entry, h0, h1⟩
      · simp [ht] at hr
  | true =>
    left
    simp only at hr
    rcases hco : RequestCache.coalesceAlone JsVal.truthy generateKey cl.cache cl.name upstream
      BaseAPIClient.emptyParams (some cl.cacheTTL) clock.cache with ⟨res, c1⟩
    have hfst : (RequestCache.executeWithCache JsVal.truthy generateKey cl.cache cl.name
        upstream BaseAPIClient.emptyParams none clock.cache).1 = res := by
      have := congrArg Prod.fst hco
      simpa [RequestCache.coalesceAlone] using this
    rw [hco] at hr
    cases res with
    | error e => simp at hr
    | ok result =>
      simp only at hr
      have hbody := RequestCache.executeWithCache_data JsVal.truthy generateKey cl.cache
        cl.name upstream BaseAPIClient.emptyParams none clock.cache result hfst
      cases hd : result.data.getProp "data" with
      | error e => simp [hd] at hr
      | ok data =>
        cases hts : result.data.getProp "timestamp" with
        | error e => simp [hd, hts] at hr
        | ok timestamp =>
          simp only [hd, hts, Except.ok.injEq] at hr
          subst hr
          exact ⟨rfl, rfl, result.data, hbody, hd, hts⟩

/-- Witness for C34 as amended: two clients of `users` constructed on the same
empty cache, one with the parser of the descriptor and one with none, both
seeing the sample payload at time 1000. -/
theorem ConfiguredClient.fetch_ignores_parser_witness :
    ((ConfiguredClient.new
        { name := "users", url := "https://jsonplaceholder.typicode.com/users",
          parser := some usersParser } (RequestCache.new {})).fetch sampleKey
        (.ok samplePayload) (FetchClock.fixed 1000)).1 =
      ((ConfiguredClient.new
        { name := "users", url := "https://jsonplaceholder.typicode.com/users" }
        (RequestCache.new {})).fetch sampleKey (.ok samplePayload) (FetchClock.fixed 1000)).1 :=
  (ConfiguredClient.fetch_ignores_parser sampleKey
    (ConfiguredClient.new
      { name := "users", url := "https://jsonplaceholder.typicode.com/users",
        parser := some usersParser } (RequestCache.new {}))
    (ConfiguredClient.new
      { name := "users", url := "https://jsonplaceholder.typicode.com/users" }
      (RequestCache.new {}))
    (.ok samplePayload) (FetchClock.fixed 1000) rfl rfl).1
